import Mathlib

/-! The JSON configuration reconciler of netdcli (`cfg.go`).

A shallow embedding of `src/netdcli/cfg.go` and theorems about it.

Go strings are Lean `String`s, Go slices are `List`s, `uint` is `Nat`
(no arithmetic is done on it).  The state driver, the executor `executeOpts`
and the sleep in `postProcessing` are outside `cfg.go`; they are parameters
of the embedding (`Env`) and every call to them is recorded in a trace.
`log.Printf` lines are left out; `log.Fatalf` ends the run (`Ctl.fatal`).
-/

namespace Netdcli

/-! ## Data model (cfg.go lines 30-62) -/

structure ConfigEpJson where
  Container : String
  Host : String
  Intf : String
  deriving DecidableEq, Repr

structure ConfigNetworkJson where
  Name : String
  PktTag : String
  Endpoints : List ConfigEpJson
  deriving DecidableEq, Repr

structure ConfigTenantJson where
  Name : String
  DefaultNetType : String
  SubnetPool : String
  AllocSubnetLen : Nat
  Vlans : String
  Vxlans : String
  Networks : List ConfigNetworkJson
  deriving DecidableEq, Repr

structure ConfigJson where
  Tenants : List ConfigTenantJson
  deriving DecidableEq, Repr

/-! ## Pure helpers (cfg.go lines 64-110) -/

/-- cfg.go lines 64-70. -/
def getEpName (net : ConfigNetworkJson) (ep : ConfigEpJson) : String :=
  if ep.Container != "" then
    net.Name ++ "-" ++ ep.Container
  else
    ep.Host ++ "-native-intf"

/-- cfg.go lines 76-84: the loop returns `true` at the first tenant of that name. -/
def tenantPresent (allCfg : ConfigJson) (tenantId : String) : Bool :=
  allCfg.Tenants.any fun tenant => tenantId == tenant.Name

/-- cfg.go lines 86-96. -/
def netPresent (allCfg : ConfigJson) (netId : String) : Bool :=
  allCfg.Tenants.any fun tenant =>
    tenant.Networks.any fun net => netId == net.Name

/-- cfg.go lines 98-110. -/
def epPresent (allCfg : ConfigJson) (epId : String) : Bool :=
  allCfg.Tenants.any fun tenant =>
    tenant.Networks.any fun net =>
      net.Endpoints.any fun ep => epId == getEpName net ep


/-! ## What `cfg.go` takes from the rest of the repository -/

/-- Modelled from the spec: Go `error` values as `cfg.go` tells them apart.  The type and
`core.ErrIfKeyExists` live in package `core`, which is not part of the sources at hand; the
spec separates the store's "key/prefix not found" from every other error. -/
inductive GoError where
  | keyNotFound
  | other (msg : String)
  deriving DecidableEq, Repr

/-- Modelled from the spec: `core.ErrIfKeyExists` (package `core` is missing).  "Not found" is
normalised to no error, any other error is handed on unchanged; `nil` stays `nil`
(cfg.go line 209 relies on the error itself being non-nil for a missing key). -/
def ErrIfKeyExists (err : Option GoError) : Option GoError :=
  match err with
  | none => none
  | some GoError.keyNotFound => none
  | some e => some e

/-- Modelled from the spec: the entity kinds `CLI_CONSTRUCT_*` of a request (declared in
netdcli.go, which is missing): tenant-global, network, endpoint. -/
inductive Construct where
  | CLI_CONSTRUCT_GLOBAL
  | CLI_CONSTRUCT_NW
  | CLI_CONSTRUCT_EP
  deriving DecidableEq, Repr

/-- Modelled from the spec: the operations `CLI_OPER_*` of a request (declared in netdcli.go,
which is missing). -/
inductive Oper where
  | CLI_OPER_CREATE
  | CLI_OPER_DELETE
  deriving DecidableEq, Repr

/-- Modelled from the spec: the struct `cliOpts` (declared in netdcli.go, which is missing),
with exactly the fields `cfg.go` reads or writes.  A value of this type is what
`executeOpts` receives: the request handed to the executor. -/
structure cliOpts where
  construct : Construct
  oper : Oper
  etcdUrl : String
  tenant : String
  idStr : String
  pktTag : String
  pktTagType : String
  subnetCidr : String
  allocSubnetLen : Nat
  vlans : String
  vxlans : String
  netId : String
  contName : String
  homingHost : String
  intfName : String
  cfgDesired : Bool
  cfgAdditions : Bool
  cfgDeletions : Bool
  deriving DecidableEq, Repr

/-- The argument `defOpts *cliOpts`.  `cfg.go` also uses the package-level variable `opts`
(it is assigned without declaration at lines 249, 267, 293, 311 and read at line 344), so
the pointer either is the address of that variable or points to some other struct, which
`cfg.go` never writes. -/
inductive OptsPtr where
  | addrOfOpts
  | other (v : cliOpts)
  deriving DecidableEq, Repr

/-- The value `*defOpts`, given the current content of the package-level `opts`. -/
def OptsPtr.load (p : OptsPtr) (opts : cliOpts) : cliOpts :=
  match p with
  | OptsPtr.addrOfOpts => opts
  | OptsPtr.other v => v

/-- Go `strings.TrimPrefix`. -/
def TrimPrefix (s pfx : String) : String :=
  if pfx.data.isPrefixOf s.data then ⟨s.data.drop pfx.data.length⟩ else s

/-- The collaborators of `cfg.go`, over a state `W` of the outside world (the store and
whatever the executor keeps).  Reads leave the world as it is; `executeOpts` may change it,
and is taken to read the struct it is handed without writing to it.
The three key prefixes are constants of packages `drivers` and `gstate`. -/
structure Env (W : Type) where
  EP_CFG_PATH_PREFIX : String
  NW_CFG_PATH_PREFIX : String
  CFG_GLOBAL_PREFIX : String
  /-- `etcdDriver.Init` with `Etcd.Machines = [etcdUrl]`. -/
  Init : W → String → Option GoError
  /-- `etcdDriver.ReadRecursive`: keys and error, as in Go. -/
  ReadRecursive : W → String → List String × Option GoError
  /-- `gstate.Cfg.Read(etcdDriver, tenant)`. -/
  gcfgRead : W → String → Option GoError
  /-- `drivers.OvsCfgNetworkState.Read(name)`. -/
  nwCfgRead : W → String → Option GoError
  /-- `executeOpts(&opts)`: the new world and the error. -/
  executeOpts : W → cliOpts → W × Option GoError

/-! ## Traces and the program monad -/

/-- Every interaction of `cfg.go` with the outside, with its result. -/
inductive Event where
  | initEtcd (url : String) (res : Option GoError)
  | list (pfx : String) (keys : List String) (res : Option GoError)
  | readTenant (name : String) (res : Option GoError)
  | readNet (name : String) (res : Option GoError)
  | exec (req : cliOpts) (res : Option GoError)
  | wait
  deriving DecidableEq, Repr

/-- Program state: the outside world, the package-level variable `opts`, and the named
result `err` of the function being run. -/
structure PState (W : Type) where
  world : W
  opts : cliOpts
  err : Option GoError

/-- How a piece of code ends: it falls through with a value, the enclosing function
returns, or `log.Fatalf` ends the process. -/
inductive Ctl (α : Type) where
  | val (a : α)
  | ret (e : Option GoError)
  | fatal
  deriving DecidableEq, Repr

structure Out (W α : Type) where
  trace : List Event
  st : PState W
  ctl : Ctl α

/-- A piece of code: from a state to the events it causes, the state it leaves and how it
ends. -/
def Prog (W α : Type) : Type := PState W → Out W α

namespace Prog

variable {W α β : Type}

/-- Code that does nothing and yields `a`. -/
def val (a : α) : Prog W α := fun s => ⟨[], s, Ctl.val a⟩

/-- Sequencing: what follows runs only if the first part falls through. -/
def andThen (m : Prog W α) (f : α → Prog W β) : Prog W β := fun s =>
  match m s with
  | ⟨t, s1, Ctl.val a⟩ =>
    match f a s1 with
    | ⟨t2, s2, c⟩ => ⟨t ++ t2, s2, c⟩
  | ⟨t, s1, Ctl.ret e⟩ => ⟨t, s1, Ctl.ret e⟩
  | ⟨t, s1, Ctl.fatal⟩ => ⟨t, s1, Ctl.fatal⟩

instance : Monad (Prog W) where
  pure := Prog.val
  bind := Prog.andThen

/-- Go `return e`. -/
def ret (e : Option GoError) : Prog W α := fun s => ⟨[], s, Ctl.ret e⟩

/-- Go bare `return` in a function with the named result `err`. -/
def retNamed : Prog W α := fun s => ⟨[], s, Ctl.ret s.err⟩

/-- Go `log.Fatalf`. -/
def fatal : Prog W α := fun s => ⟨[], s, Ctl.fatal⟩

/-- Assignment to the named result: `err = e`. -/
def setErr (e : Option GoError) : Prog W Unit := fun s => ⟨[], { s with err := e }, Ctl.val ()⟩

/-- The value `*defOpts`. -/
def loadDef (defOpts : OptsPtr) : Prog W cliOpts := fun s =>
  ⟨[], s, Ctl.val (defOpts.load s.opts)⟩

/-- The package-level variable `opts`. -/
def getOpts : Prog W cliOpts := fun s => ⟨[], s, Ctl.val s.opts⟩

/-- Assignment to the package-level variable: `opts = v`. -/
def setOpts (v : cliOpts) : Prog W Unit := fun s => ⟨[], { s with opts := v }, Ctl.val ()⟩

/-- Go `for _, x := range xs { body }`. -/
def forRange (xs : List α) (body : α → Prog W Unit) : Prog W Unit :=
  match xs with
  | [] => Prog.val ()
  | x :: rest => Prog.andThen (body x) fun _ => forRange rest body

/-- A function call: the callee gets its own named result `err`, initially `nil`; the
caller sees what the callee returns. -/
def func (body : Prog W Unit) : Prog W (Option GoError) := fun s =>
  match body { s with err := none } with
  | ⟨t, s1, Ctl.val _⟩ => ⟨t, { s1 with err := s.err }, Ctl.val none⟩
  | ⟨t, s1, Ctl.ret e⟩ => ⟨t, { s1 with err := s.err }, Ctl.val e⟩
  | ⟨t, s1, Ctl.fatal⟩ => ⟨t, { s1 with err := s.err }, Ctl.fatal⟩

end Prog

open Prog

variable {W : Type}

/-! ## Calls to the outside -/

/-- cfg.go lines 112-119: builds the driver for `defOpts.etcdUrl` and initialises it. -/
def initEtcd (E : Env W) (defOpts : OptsPtr) : Prog W (Option GoError) := fun s =>
  let url := (defOpts.load s.opts).etcdUrl
  let res := E.Init s.world url
  ⟨[Event.initEtcd url res], s, Ctl.val res⟩

def ReadRecursive (E : Env W) (pfx : String) : Prog W (List String × Option GoError) := fun s =>
  let r := E.ReadRecursive s.world pfx
  ⟨[Event.list pfx r.1 r.2], s, Ctl.val r⟩

def gcfgRead (E : Env W) (name : String) : Prog W (Option GoError) := fun s =>
  let res := E.gcfgRead s.world name
  ⟨[Event.readTenant name res], s, Ctl.val res⟩

def nwCfgRead (E : Env W) (name : String) : Prog W (Option GoError) := fun s =>
  let res := E.nwCfgRead s.world name
  ⟨[Event.readNet name res], s, Ctl.val res⟩

/-- The call `executeOpts(&opts)` where the struct `opts` (a local copy, or the package-level
variable) holds `req`. -/
def executeOpts (E : Env W) (req : cliOpts) : Prog W (Option GoError) := fun s =>
  let r := E.executeOpts s.world req
  ⟨[Event.exec req r.2], { s with world := r.1 }, Ctl.val r.2⟩

/-- The idiom `err = executeOpts(&opts); if err != nil { log.Printf(...); return }` of
`processAdditions` and `processDeletions`, which have the named result `err`. -/
def executeOrReturn (E : Env W) (req : cliOpts) : Prog W Unit := do
  let e ← executeOpts E req
  setErr e
  if e.isSome then retNamed

/-- cfg.go lines 72-74: the one-second sleep, recorded in the trace. -/
def postProcessing : Prog W Unit := fun s => ⟨[Event.wait], s, Ctl.val ()⟩

/-! ## The requests built by the reconcilers -/

/-- The struct after cfg.go lines 215-223: a copy of `*defOpts` with the tenant's fields. -/
def createTenantReq (d : cliOpts) (tenant : ConfigTenantJson) : cliOpts :=
  { d with construct := Construct.CLI_CONSTRUCT_GLOBAL, oper := Oper.CLI_OPER_CREATE,
           tenant := tenant.Name, pktTagType := tenant.DefaultNetType,
           subnetCidr := tenant.SubnetPool, allocSubnetLen := tenant.AllocSubnetLen,
           vlans := tenant.Vlans, vxlans := tenant.Vxlans }

/-- The struct after cfg.go lines 249-256; `pktTag` is overwritten only by a non-empty tag. -/
def createNetReq (d : cliOpts) (tenant : ConfigTenantJson) (net : ConfigNetworkJson) : cliOpts :=
  { d with construct := Construct.CLI_CONSTRUCT_NW, oper := Oper.CLI_OPER_CREATE,
           tenant := tenant.Name, idStr := net.Name,
           pktTag := if net.PktTag != "" then net.PktTag else d.pktTag }

/-- The struct after cfg.go lines 267-274. -/
def createEpReq (d : cliOpts) (net : ConfigNetworkJson) (ep : ConfigEpJson) : cliOpts :=
  { d with construct := Construct.CLI_CONSTRUCT_EP, oper := Oper.CLI_OPER_CREATE,
           idStr := getEpName net ep, netId := net.Name, contName := ep.Container,
           homingHost := ep.Host, intfName := ep.Intf }

/-- The struct after cfg.go lines 293-300. -/
def deleteEpReq (d : cliOpts) (net : ConfigNetworkJson) (ep : ConfigEpJson) : cliOpts :=
  { d with construct := Construct.CLI_CONSTRUCT_EP, oper := Oper.CLI_OPER_DELETE,
           idStr := getEpName net ep, netId := net.Name, contName := ep.Container,
           homingHost := ep.Host, intfName := ep.Intf }

/-- The struct after cfg.go lines 311-315. -/
def deleteNetReq (d : cliOpts) (tenant : ConfigTenantJson) (net : ConfigNetworkJson) : cliOpts :=
  { d with construct := Construct.CLI_CONSTRUCT_NW, oper := Oper.CLI_OPER_DELETE,
           tenant := tenant.Name, idStr := net.Name }

/-- The struct after cfg.go lines 327-330. -/
def deleteTenantReq (d : cliOpts) (tenant : ConfigTenantJson) : cliOpts :=
  { d with construct := Construct.CLI_CONSTRUCT_GLOBAL, oper := Oper.CLI_OPER_DELETE,
           tenant := tenant.Name }

/-- The struct after cfg.go lines 135-138: a copy of `*defOpts` for an endpoint delete. -/
def delEpReq (d : cliOpts) (id : String) : cliOpts :=
  { d with construct := Construct.CLI_CONSTRUCT_EP, oper := Oper.CLI_OPER_DELETE, idStr := id }

/-- The struct after cfg.go lines 156-159. -/
def delNetReq (d : cliOpts) (id : String) : cliOpts :=
  { d with construct := Construct.CLI_CONSTRUCT_NW, oper := Oper.CLI_OPER_DELETE, idStr := id }

/-- The struct after cfg.go lines 177-180. -/
def delTenantReq (d : cliOpts) (id : String) : cliOpts :=
  { d with construct := Construct.CLI_CONSTRUCT_GLOBAL, oper := Oper.CLI_OPER_DELETE,
           tenant := id }

/-! ## deleteDelta (cfg.go lines 121-192) -/

/-- One iteration of the loop at lines 132-147; `opts` is a fresh local copy of `*defOpts`. -/
def deleteDeltaEp (E : Env W) (allCfg : ConfigJson) (defOpts : OptsPtr) (key : String) :
    Prog W Unit := do
  let epId := TrimPrefix key E.EP_CFG_PATH_PREFIX
  if !epPresent allCfg epId then
    let d ← loadDef defOpts
    let _ ← executeOpts E (delEpReq d epId)
    postProcessing

/-- One iteration of the loop at lines 153-168. -/
def deleteDeltaNet (E : Env W) (allCfg : ConfigJson) (defOpts : OptsPtr) (key : String) :
    Prog W Unit := do
  let netId := TrimPrefix key E.NW_CFG_PATH_PREFIX
  if !netPresent allCfg netId then
    let d ← loadDef defOpts
    let _ ← executeOpts E (delNetReq d netId)
    postProcessing

/-- One iteration of the loop at lines 174-189. -/
def deleteDeltaTenant (E : Env W) (allCfg : ConfigJson) (defOpts : OptsPtr) (key : String) :
    Prog W Unit := do
  let tenantId := TrimPrefix key E.CFG_GLOBAL_PREFIX
  if !tenantPresent allCfg tenantId then
    let d ← loadDef defOpts
    let _ ← executeOpts E (delTenantReq d tenantId)
    postProcessing

/-- The body of `deleteDelta`, cfg.go lines 123-191. -/
def deleteDeltaBody (E : Env W) (allCfg : ConfigJson) (defOpts : OptsPtr) : Prog W Unit := do
  let err ← initEtcd E defOpts
  if err.isSome then fatal
  let (keys, err) ← ReadRecursive E E.EP_CFG_PATH_PREFIX
  if err.isSome then ret (ErrIfKeyExists err)
  forRange keys (deleteDeltaEp E allCfg defOpts)
  let (keys, err) ← ReadRecursive E E.NW_CFG_PATH_PREFIX
  if err.isSome then ret err
  forRange keys (deleteDeltaNet E allCfg defOpts)
  let (keys, err) ← ReadRecursive E E.CFG_GLOBAL_PREFIX
  if err.isSome then ret err
  forRange keys (deleteDeltaTenant E allCfg defOpts)
  ret none

def deleteDelta (E : Env W) (allCfg : ConfigJson) (defOpts : OptsPtr) :
    Prog W (Option GoError) :=
  func (deleteDeltaBody E allCfg defOpts)

/-! ## processAdditions (cfg.go lines 194-287) -/

/-- One iteration of the endpoint loop, lines 266-282.  Line 267 assigns the package-level
`opts`. -/
def additionsEp (E : Env W) (defOpts : OptsPtr) (net : ConfigNetworkJson) (ep : ConfigEpJson) :
    Prog W Unit := do
  let d ← loadDef defOpts
  setOpts (createEpReq d net ep)
  let req ← getOpts
  executeOrReturn E req
  postProcessing

/-- Lines 235-264 of the network loop: decide whether the network is to be created and, if
so, create it.  Line 249 assigns the package-level `opts`. -/
def additionsNetHead (E : Env W) (defOpts : OptsPtr) (tenant : ConfigTenantJson)
    (net : ConfigNetworkJson) : Prog W Unit := do
  let d ← loadDef defOpts
  let addNetwork ←
    (if d.cfgAdditions && tenant.Networks.length != 0 then do
      let e ← nwCfgRead E net.Name
      setErr e
      if (ErrIfKeyExists e).isSome then fatal
      Prog.val e.isSome
    else Prog.val true)
  if addNetwork then
    let d ← loadDef defOpts
    setOpts (createNetReq d tenant net)
    let req ← getOpts
    executeOrReturn E req
    postProcessing

/-- One iteration of the network loop, lines 233-283. -/
def additionsNet (E : Env W) (defOpts : OptsPtr) (tenant : ConfigTenantJson)
    (net : ConfigNetworkJson) : Prog W Unit := do
  additionsNetHead E defOpts tenant net
  forRange net.Endpoints (additionsEp E defOpts net)

/-- Lines 201-231 of the tenant loop: decide whether the tenant is to be created and, if so,
create it.  Line 215 declares a local `opts`. -/
def additionsTenantHead (E : Env W) (defOpts : OptsPtr) (tenant : ConfigTenantJson) :
    Prog W Unit := do
  let d ← loadDef defOpts
  let addTenant ←
    (if d.cfgAdditions && tenant.Networks.length != 0 then do
      let e ← gcfgRead E tenant.Name
      setErr e
      if (ErrIfKeyExists e).isSome then fatal
      Prog.val e.isSome
    else Prog.val true)
  if addTenant then
    let d ← loadDef defOpts
    executeOrReturn E (createTenantReq d tenant)

/-- One iteration of the tenant loop, lines 200-284. -/
def additionsTenant (E : Env W) (defOpts : OptsPtr) (tenant : ConfigTenantJson) :
    Prog W Unit := do
  additionsTenantHead E defOpts tenant
  forRange tenant.Networks (additionsNet E defOpts tenant)

/-- Lines 195-198: `etcdDriver, err := initEtcd(defOpts)` assigns the named result `err`;
a failure ends the process. -/
def additionsInit (E : Env W) (defOpts : OptsPtr) : Prog W Unit := do
  let e ← initEtcd E defOpts
  setErr e
  if e.isSome then fatal

/-- The body of `processAdditions`, lines 195-286. -/
def processAdditionsBody (E : Env W) (allCfg : ConfigJson) (defOpts : OptsPtr) :
    Prog W Unit := do
  additionsInit E defOpts
  forRange allCfg.Tenants (additionsTenant E defOpts)
  retNamed

def processAdditions (E : Env W) (allCfg : ConfigJson) (defOpts : OptsPtr) :
    Prog W (Option GoError) :=
  func (processAdditionsBody E allCfg defOpts)

/-! ## processDeletions (cfg.go lines 289-341) -/

/-- One iteration of the endpoint loop, lines 292-308. -/
def deletionsEp (E : Env W) (defOpts : OptsPtr) (net : ConfigNetworkJson) (ep : ConfigEpJson) :
    Prog W Unit := do
  let d ← loadDef defOpts
  setOpts (deleteEpReq d net ep)
  let req ← getOpts
  executeOrReturn E req
  postProcessing

/-- One iteration of the network loop, lines 291-324. -/
def deletionsNet (E : Env W) (defOpts : OptsPtr) (tenant : ConfigTenantJson)
    (net : ConfigNetworkJson) : Prog W Unit := do
  forRange net.Endpoints (deletionsEp E defOpts net)
  if net.Endpoints.length == 0 then
    let d ← loadDef defOpts
    setOpts (deleteNetReq d tenant net)
    let req ← getOpts
    executeOrReturn E req
    postProcessing

/-- One iteration of the tenant loop, lines 290-339.  Line 327 declares a local `opts`. -/
def deletionsTenant (E : Env W) (defOpts : OptsPtr) (tenant : ConfigTenantJson) :
    Prog W Unit := do
  forRange tenant.Networks (deletionsNet E defOpts tenant)
  if tenant.Networks.length == 0 then
    let d ← loadDef defOpts
    executeOrReturn E (deleteTenantReq d tenant)

/-- The body of `processDeletions`, lines 290-340. -/
def processDeletionsBody (E : Env W) (allCfg : ConfigJson) (defOpts : OptsPtr) :
    Prog W Unit := do
  forRange allCfg.Tenants (deletionsTenant E defOpts)
  retNamed

def processDeletions (E : Env W) (allCfg : ConfigJson) (defOpts : OptsPtr) :
    Prog W (Option GoError) :=
  func (processDeletionsBody E allCfg defOpts)

/-! ## Reading traces -/

/-- The requests handed to `executeOpts`, in the order of the calls. -/
def execReqs (t : List Event) : List cliOpts :=
  t.filterMap fun e => match e with
    | Event.exec r _ => some r
    | _ => none

/-- The world after the executor has been handed `reqs` one after the other. -/
def execAll (E : Env W) (reqs : List cliOpts) (w : W) : W :=
  reqs.foldl (fun w r => (E.executeOpts w r).1) w

/-- The identifiers of a listing (keys with `pfx` trimmed) that the desired model lacks, one
per listed key, in listing order. -/
def staleIds (present : String → Bool) (pfx : String) (keys : List String) : List String :=
  (keys.map fun key => TrimPrefix key pfx).filter fun id => !present id

/-- The common form of the three loop bodies of `deleteDelta`, used to reason about them at
once (`deleteDeltaEp_eq` and its siblings show that each is an instance). -/
def pruneBody (E : Env W) (defOpts : OptsPtr) (present : String → Bool)
    (mk : cliOpts → String → cliOpts) (pfx : String) (key : String) : Prog W Unit := do
  if !present (TrimPrefix key pfx) then
    let d ← loadDef defOpts
    let _ ← executeOpts E (mk d (TrimPrefix key pfx))
    postProcessing

/-- What a run of `deleteDelta` hands to the executor and how it ends, written without the
executor's verdicts (`deleteDelta_summary` proves that the code computes this). -/
def deleteDeltaSummary (E : Env W) (allCfg : ConfigJson) (d : cliOpts) (w : W) :
    List cliOpts × Ctl (Option GoError) :=
  match E.Init w d.etcdUrl with
  | some _ => ([], Ctl.fatal)
  | none =>
    match E.ReadRecursive w E.EP_CFG_PATH_PREFIX with
    | (_, some e) => ([], Ctl.val (ErrIfKeyExists (some e)))
    | (keysE, none) =>
      let rE := (staleIds (epPresent allCfg) E.EP_CFG_PATH_PREFIX keysE).map (delEpReq d)
      match E.ReadRecursive (execAll E rE w) E.NW_CFG_PATH_PREFIX with
      | (_, some e) => (rE, Ctl.val (some e))
      | (keysN, none) =>
        let rN := (staleIds (netPresent allCfg) E.NW_CFG_PATH_PREFIX keysN).map (delNetReq d)
        match E.ReadRecursive (execAll E rN (execAll E rE w)) E.CFG_GLOBAL_PREFIX with
        | (_, some e) => (rE ++ rN, Ctl.val (some e))
        | (keysT, none) =>
          (rE ++ rN ++ (staleIds (tenantPresent allCfg) E.CFG_GLOBAL_PREFIX keysT).map
            (delTenantReq d), Ctl.val none)

/-- Position of a kind in the pruning order: endpoints, then networks, then tenants. -/
def pruneRank (c : Construct) : Nat :=
  match c with
  | Construct.CLI_CONSTRUCT_EP => 0
  | Construct.CLI_CONSTRUCT_NW => 1
  | Construct.CLI_CONSTRUCT_GLOBAL => 2

/-! ## Concrete inputs -/

/-- Default options as the command line might leave them. -/
def exOpts : cliOpts :=
  { construct := Construct.CLI_CONSTRUCT_GLOBAL, oper := Oper.CLI_OPER_CREATE,
    etcdUrl := "http://127.0.0.1:4001", tenant := "", idStr := "cfg.json", pktTag := "auto",
    pktTagType := "", subnetCidr := "", allocSubnetLen := 0, vlans := "", vxlans := "",
    netId := "", contName := "", homingHost := "", intfName := "",
    cfgDesired := true, cfgAdditions := false, cfgDeletions := false }

/-- A small outside world: the state counts the executor calls made so far.  The three
listings are fixed, tenants `storeTenants` and networks `storeNets` exist in the store, and
the executor rejects the call number `failAt` (counted from 0), if any. -/
def exEnv (eps nets tenants : List String × Option GoError) (storeTenants storeNets : List String)
    (failAt : Option Nat) : Env Nat where
  EP_CFG_PATH_PREFIX := "/ep/"
  NW_CFG_PATH_PREFIX := "/nw/"
  CFG_GLOBAL_PREFIX := "/gl/"
  Init := fun _ _ => none
  ReadRecursive := fun _ pfx =>
    if pfx = "/ep/" then eps else if pfx = "/nw/" then nets else tenants
  gcfgRead := fun _ name => if name ∈ storeTenants then none else some GoError.keyNotFound
  nwCfgRead := fun _ name => if name ∈ storeNets then none else some GoError.keyNotFound
  executeOpts := fun w _ =>
    (w + 1, if failAt = some w then some (GoError.other "rejected") else none)

/-- One tenant `t1` with one network `n1` holding the endpoint of container `c2`. -/
def exCfg : ConfigJson :=
  ⟨[⟨"t1", "vlan", "", 0, "", "", [⟨"n1", "", [⟨"c2", "hostA", ""⟩]⟩]⟩]⟩

def exState : PState Nat := ⟨0, exOpts, none⟩

/-! ## Reading runs of the reconcilers -/

/-- The environment with the same world transitions whose executor never reports an error:
its runs are the failure-free runs. -/
def neverFail (E : Env W) : Env W :=
  { E with executeOpts := fun w r => ((E.executeOpts w r).1, none) }

/-- No executor call of the trace failed. -/
def NoFail (t : List Event) : Prop := ∀ v e, Event.exec v (some e) ∉ t

/-- The executor calls of a trace with their verdicts, in order. -/
def execCalls (t : List Event) : List (cliOpts × Option GoError) :=
  t.filterMap fun e => match e with
    | Event.exec r res => some (r, res)
    | _ => none

/-- Two pieces of code, the second over the failure-free environment, started with
`err == nil`: either no executor call fails and both do the same, falling through with
`err == nil` (or ending the process), or the first returns the error of its last executor
call, all earlier calls having succeeded, and the second has done the same up to that call. -/
def FailFast {α : Type} (m m' : Prog W α) : Prop :=
  ∀ s : PState W, s.err = none →
    (m s = m' s ∧ NoFail (m s).trace ∧ (∀ a, (m s).ctl = Ctl.val a → (m s).st.err = none) ∧
      (∀ e, (m s).ctl ≠ Ctl.ret e)) ∨
    (∃ pre v err rest, (m s).ctl = Ctl.ret (some err) ∧
      (m s).trace = pre ++ [Event.exec v (some err)] ∧ NoFail pre ∧
      (m' s).trace = pre ++ Event.exec v none :: rest)

/-- The same for a whole function body, which ends by returning: without a failing executor
call it returns `nil` (or ends the process). -/
def FailFastBody (m m' : Prog W Unit) : Prop :=
  ∀ s : PState W, s.err = none →
    (m s = m' s ∧ NoFail (m s).trace ∧ (∀ e, (m s).ctl = Ctl.ret e → e = none) ∧
      (∀ a, (m s).ctl ≠ Ctl.val a)) ∨
    (∃ pre v err rest, (m s).ctl = Ctl.ret (some err) ∧
      (m s).trace = pre ++ [Event.exec v (some err)] ∧ NoFail pre ∧
      (m' s).trace = pre ++ Event.exec v none :: rest)

/-- The code never ends the process. -/
def NoFatal {α : Type} (m : Prog W α) : Prop := ∀ s : PState W, (m s).ctl ≠ Ctl.fatal

/-! ## The shape of a run of processAdditions that returns without error -/

/-- The events of one endpoint iteration: the create request for the endpoint, built from
some value `d` of `*defOpts`, accepted, then the wait. -/
def EpSeg (net : ConfigNetworkJson) (ep : ConfigEpJson) (seg : List Event) : Prop :=
  ∃ d, seg = [Event.exec (createEpReq d net ep) none, Event.wait]

/-- The events up to a network's endpoint loop.  With idempotency mode on, the network is
read: found, and nothing is created; or not found, and the create and the wait follow.
With the mode off there is no read, only the create and the wait. -/
def NetHeadSeg (idem : Bool) (tenant : ConfigTenantJson) (net : ConfigNetworkJson)
    (head : List Event) : Prop :=
  if idem = true then
    head = [Event.readNet net.Name none] ∨
    ∃ d, head = [Event.readNet net.Name (some GoError.keyNotFound),
      Event.exec (createNetReq d tenant net) none, Event.wait]
  else
    ∃ d, head = [Event.exec (createNetReq d tenant net) none, Event.wait]

/-- The events of one network iteration: its head, then its endpoints in document order. -/
def NetSeg (idem : Bool) (tenant : ConfigTenantJson) (net : ConfigNetworkJson)
    (seg : List Event) : Prop :=
  ∃ head epsegs, seg = head ++ epsegs.flatten ∧ NetHeadSeg idem tenant net head ∧
    List.Forall₂ (EpSeg net) net.Endpoints epsegs

/-- The events up to a tenant's network loop.  With idempotency mode on and at least one
network, the tenant is read: found, and nothing is created; or not found, and the create
follows.  Otherwise there is no read, only the create.  No wait follows the create. -/
def TenantHeadSeg (idem : Bool) (tenant : ConfigTenantJson) (head : List Event) : Prop :=
  if idem = true ∧ tenant.Networks ≠ [] then
    head = [Event.readTenant tenant.Name none] ∨
    ∃ d, head = [Event.readTenant tenant.Name (some GoError.keyNotFound),
      Event.exec (createTenantReq d tenant) none]
  else
    ∃ d, head = [Event.exec (createTenantReq d tenant) none]

/-- The events of one tenant iteration: its head, then its networks in document order. -/
def TenantSeg (idem : Bool) (tenant : ConfigTenantJson) (seg : List Event) : Prop :=
  ∃ head nsegs, seg = head ++ nsegs.flatten ∧ TenantHeadSeg idem tenant head ∧
    List.Forall₂ (NetSeg idem tenant) tenant.Networks nsegs

/-- The events of a whole run: the driver is initialised, then the tenants in document
order. -/
def AdditionsTrace (idem : Bool) (url : String) (allCfg : ConfigJson) (t : List Event) : Prop :=
  ∃ segs, t = Event.initEtcd url none :: segs.flatten ∧
    List.Forall₂ (TenantSeg idem) allCfg.Tenants segs

/-! ## Operations -/

/-- An operation as the spec names it: kind, operation and identifier. -/
structure Op where
  kind : Construct
  oper : Oper
  id : String
  deriving DecidableEq, Repr

/-- The operation a request stands for.  A tenant request carries its identifier in
`tenant` (cfg.go lines 180, 218, 330), the others in `idStr`. -/
def opOf (r : cliOpts) : Op :=
  ⟨r.construct, r.oper,
    match r.construct with
    | Construct.CLI_CONSTRUCT_GLOBAL => r.tenant
    | _ => r.idStr⟩

/-- The operations handed to the executor, in order. -/
def ops (t : List Event) : List Op := (execReqs t).map opOf

/-- The identifiers of the endpoint creates handed to the executor, in order. -/
def epCreateIds (t : List Event) : List String :=
  ((ops t).filter fun o =>
    decide (o.kind = Construct.CLI_CONSTRUCT_EP ∧ o.oper = Oper.CLI_OPER_CREATE)).map Op.id

/-- The creates of a document walked in order: each tenant, then each of its networks
followed by that network's endpoints. -/
def additionsWalk (allCfg : ConfigJson) : List Op :=
  allCfg.Tenants.flatMap fun tenant =>
    ⟨Construct.CLI_CONSTRUCT_GLOBAL, Oper.CLI_OPER_CREATE, tenant.Name⟩ ::
      tenant.Networks.flatMap fun net =>
        ⟨Construct.CLI_CONSTRUCT_NW, Oper.CLI_OPER_CREATE, net.Name⟩ ::
          net.Endpoints.map fun ep =>
            ⟨Construct.CLI_CONSTRUCT_EP, Oper.CLI_OPER_CREATE, getEpName net ep⟩

/-- The endpoint identifiers of a document in document order. -/
def desiredEpIds (allCfg : ConfigJson) : List String :=
  allCfg.Tenants.flatMap fun tenant =>
    tenant.Networks.flatMap fun net => net.Endpoints.map fun ep => getEpName net ep

/-- Default options with idempotency mode (`cfgAdditions`) on. -/
def exOptsIdem : cliOpts := { exOpts with cfgAdditions := true }

/-- Two tenants `t1` and `t2` without networks. -/
def exCfgBare : ConfigJson :=
  ⟨[⟨"t1", "vlan", "", 0, "", "", []⟩, ⟨"t2", "vlan", "", 0, "", "", []⟩]⟩

/-! ## The shape of a run of processDeletions that returns without error -/

/-- The events of one endpoint iteration of `processDeletions`: the delete request for the
endpoint, built from some value `d` of `*defOpts`, accepted, then the wait. -/
def DelEpSeg (net : ConfigNetworkJson) (ep : ConfigEpJson) (seg : List Event) : Prop :=
  ∃ d, seg = [Event.exec (deleteEpReq d net ep) none, Event.wait]

/-- The events of one network iteration: the deletes of its endpoints in document order,
then, only if the document lists no endpoint for it, the delete of the network and the
wait. -/
def DelNetSeg (tenant : ConfigTenantJson) (net : ConfigNetworkJson) (seg : List Event) : Prop :=
  ∃ epsegs tail, seg = epsegs.flatten ++ tail ∧
    List.Forall₂ (DelEpSeg net) net.Endpoints epsegs ∧
    if net.Endpoints = [] then
      ∃ d, tail = [Event.exec (deleteNetReq d tenant net) none, Event.wait]
    else tail = []

/-- The events of one tenant iteration: its networks in document order, then, only if the
document lists no network for it, the delete of the tenant, which no wait follows. -/
def DelTenantSeg (tenant : ConfigTenantJson) (seg : List Event) : Prop :=
  ∃ nsegs tail, seg = nsegs.flatten ++ tail ∧
    List.Forall₂ (DelNetSeg tenant) tenant.Networks nsegs ∧
    if tenant.Networks = [] then
      ∃ d, tail = [Event.exec (deleteTenantReq d tenant) none]
    else tail = []

/-- The events of a whole run of `processDeletions`: the tenants in document order. -/
def DeletionsTrace (allCfg : ConfigJson) (t : List Event) : Prop :=
  ∃ segs, t = segs.flatten ∧ List.Forall₂ DelTenantSeg allCfg.Tenants segs

/-- The deletes of a document walked leaf to root: for each tenant, for each of its networks
the deletes of the network's endpoints and then, if it has none, of the network; after the
tenant's networks, if it has none, the delete of the tenant. -/
def deletionsWalk (allCfg : ConfigJson) : List Op :=
  allCfg.Tenants.flatMap fun tenant =>
    (tenant.Networks.flatMap fun net =>
      (net.Endpoints.map fun ep =>
        (⟨Construct.CLI_CONSTRUCT_EP, Oper.CLI_OPER_DELETE, getEpName net ep⟩ : Op)) ++
      (if net.Endpoints.length == 0 then
        [⟨Construct.CLI_CONSTRUCT_NW, Oper.CLI_OPER_DELETE, net.Name⟩] else [])) ++
    (if tenant.Networks.length == 0 then
      [⟨Construct.CLI_CONSTRUCT_GLOBAL, Oper.CLI_OPER_DELETE, tenant.Name⟩] else [])

/-! ## A store that remembers what was created -/

/-- The names of the tenants, networks and endpoints held by the store. -/
structure Store where
  tenants : List String
  nets : List String
  eps : List String
  deriving DecidableEq, Repr

/-- What an accepted request does to the store: a create adds the identifier to its kind,
a delete removes it. -/
def Store.apply (w : Store) (r : cliOpts) : Store :=
  match r.construct, r.oper with
  | Construct.CLI_CONSTRUCT_GLOBAL, Oper.CLI_OPER_CREATE => { w with tenants := r.tenant :: w.tenants }
  | Construct.CLI_CONSTRUCT_GLOBAL, Oper.CLI_OPER_DELETE =>
    { w with tenants := w.tenants.filter fun x => x != r.tenant }
  | Construct.CLI_CONSTRUCT_NW, Oper.CLI_OPER_CREATE => { w with nets := r.idStr :: w.nets }
  | Construct.CLI_CONSTRUCT_NW, Oper.CLI_OPER_DELETE =>
    { w with nets := w.nets.filter fun x => x != r.idStr }
  | Construct.CLI_CONSTRUCT_EP, Oper.CLI_OPER_CREATE => { w with eps := r.idStr :: w.eps }
  | Construct.CLI_CONSTRUCT_EP, Oper.CLI_OPER_DELETE =>
    { w with eps := w.eps.filter fun x => x != r.idStr }

/-- The store model of the idempotent re-run: the executor never fails and applies every
request to the store; a tenant or network read succeeds exactly when the store holds the
name, and reports key-not-found otherwise. -/
def storeEnv : Env Store where
  EP_CFG_PATH_PREFIX := "/ep/"
  NW_CFG_PATH_PREFIX := "/nw/"
  CFG_GLOBAL_PREFIX := "/gl/"
  Init := fun _ _ => none
  ReadRecursive := fun w pfx =>
    if pfx = "/ep/" then (w.eps.map fun x => "/ep/" ++ x, none)
    else if pfx = "/nw/" then (w.nets.map fun x => "/nw/" ++ x, none)
    else (w.tenants.map fun x => "/gl/" ++ x, none)
  gcfgRead := fun w name => if name ∈ w.tenants then none else some GoError.keyNotFound
  nwCfgRead := fun w name => if name ∈ w.nets then none else some GoError.keyNotFound
  executeOpts := fun w r => (w.apply r, none)

/-- The tenant `t1` containing the network `n1` with the endpoint of container `c1`. -/
def exTenantT1 : ConfigTenantJson :=
  ⟨"t1", "vlan", "", 0, "", "", [⟨"n1", "", [⟨"c1", "hostA", ""⟩]⟩]⟩

/-! ## executeJsonCfg (cfg.go lines 343-376) -/

/-- The file system and the JSON decoder, which are outside `cfg.go`: `ioutil.ReadFile`
gives the content of a file and an error, `json.Unmarshal` into a fresh `ConfigJson` gives
the document and an error.  Neither touches the store or the executor, so they leave no
event in the trace. -/
structure Files where
  ReadFile : String → String × Option GoError
  Unmarshal : String → ConfigJson × Option GoError

/-- The current value of the named result `err`. -/
def Prog.getErr : Prog W (Option GoError) := fun s => ⟨[], s, Ctl.val s.err⟩

/-- Lines 365-375 of `executeJsonCfg`: one of the two reconcilers runs, chosen by
`defOpts.cfgDeletions`, and its result is returned. -/
def executeJsonCfgReconcile (E : Env W) (allCfg : ConfigJson) (defOpts : OptsPtr) :
    Prog W Unit := do
  if (← loadDef defOpts).cfgDeletions then
    let e ← processDeletions E allCfg defOpts
    setErr e
  else
    let e ← processAdditions E allCfg defOpts
    setErr e
  if (← Prog.getErr).isSome then retNamed
  retNamed

/-- Lines 357-375 of `executeJsonCfg`, after the document has been decoded (`err == nil`
there): delta pruning in desired-state mode, then one reconciler. -/
def executeJsonCfgRun (E : Env W) (allCfg : ConfigJson) (defOpts : OptsPtr) : Prog W Unit := do
  if (← loadDef defOpts).cfgDesired then
    let e ← deleteDelta E allCfg defOpts
    setErr e
  if (← Prog.getErr).isSome then retNamed
  executeJsonCfgReconcile E allCfg defOpts

/-- The body of `executeJsonCfg`, lines 344-375.  The file name is read from the
package-level `opts` (line 344), the mode flags through `defOpts`. -/
def executeJsonCfgBody (F : Files) (E : Env W) (defOpts : OptsPtr) : Prog W Unit := do
  let o ← getOpts
  let (data, e) := F.ReadFile o.idStr
  setErr e
  if e.isSome then ret e
  let (allCfg, e) := F.Unmarshal data
  setErr e
  if e.isSome then retNamed
  executeJsonCfgRun E allCfg defOpts

def executeJsonCfg (F : Files) (E : Env W) (defOpts : OptsPtr) : Prog W (Option GoError) :=
  func (executeJsonCfgBody F E defOpts)

/-- The reconciler that `executeJsonCfg` runs for the value `d` of `*defOpts`. -/
def reconciler (E : Env W) (allCfg : ConfigJson) (defOpts : OptsPtr) (d : cliOpts) :
    Prog W (Option GoError) :=
  if d.cfgDeletions then processDeletions E allCfg defOpts
  else processAdditions E allCfg defOpts

/-- The code leaves the package-level `opts` as it is. -/
def KeepsOpts {α : Type} (m : Prog W α) : Prop := ∀ s : PState W, (m s).st.opts = s.opts

/-- A file system with the one file `cfg.json`, which decodes to `exCfg`; any other content
is rejected by the decoder. -/
def exFiles : Files where
  ReadFile := fun name =>
    if name = "cfg.json" then ("t1/n1/c2", none) else ("", some (GoError.other "no such file"))
  Unmarshal := fun data =>
    if data = "t1/n1/c2" then (exCfg, none) else (⟨[]⟩, some (GoError.other "unexpected end"))


/-! ## The requests of the two reconcilers -/

/-- Every request that `m` hands to the executor, from whatever state it starts, satisfies
`P`. -/
def ReqsIn {α : Type} (P : cliOpts → Prop) (m : Prog W α) : Prop :=
  ∀ s : PState W, ∀ r ∈ execReqs (m s).trace, P r

/-- The request `r` is the create request that `processAdditions` builds from the value `d` of
`*defOpts` for a tenant, a network or an endpoint of the document. -/
def AdditionReq (allCfg : ConfigJson) (d : cliOpts) (r : cliOpts) : Prop :=
  (∃ tenant ∈ allCfg.Tenants, r = createTenantReq d tenant) ∨
  (∃ tenant ∈ allCfg.Tenants, ∃ net ∈ tenant.Networks, r = createNetReq d tenant net) ∨
  (∃ tenant ∈ allCfg.Tenants, ∃ net ∈ tenant.Networks, ∃ ep ∈ net.Endpoints,
    r = createEpReq d net ep)

/-- The request `r` is the delete request that `processDeletions` builds from the value `d`
of `*defOpts` for a tenant, a network or an endpoint of the document. -/
def DeletionReq (allCfg : ConfigJson) (d : cliOpts) (r : cliOpts) : Prop :=
  (∃ tenant ∈ allCfg.Tenants, r = deleteTenantReq d tenant) ∨
  (∃ tenant ∈ allCfg.Tenants, ∃ net ∈ tenant.Networks, r = deleteNetReq d tenant net) ∨
  (∃ tenant ∈ allCfg.Tenants, ∃ net ∈ tenant.Networks, ∃ ep ∈ net.Endpoints,
    r = deleteEpReq d net ep)

/-- The request `r` is a delete that `deleteDelta` builds for an identifier which the
document lacks. -/
def PruneReq (allCfg : ConfigJson) (r : cliOpts) : Prop :=
  ∃ d id, (epPresent allCfg id = false ∧ r = delEpReq d id) ∨
    (netPresent allCfg id = false ∧ r = delNetReq d id) ∨
    (tenantPresent allCfg id = false ∧ r = delTenantReq d id)

/-- Tenant `t1` with the network `n2`, whose packet tag is `77`, followed by the network
`n3`, which has no packet tag; no endpoints. -/
def exCfgTags : ConfigJson :=
  ⟨[⟨"t1", "vlan", "", 0, "", "", [⟨"n2", "77", []⟩, ⟨"n3", "", []⟩]⟩]⟩
end Netdcli

namespace Netdcli
open Prog

variable {W α β : Type}

/-! ## Unfolding the program monad -/

@[simp] theorem Prog.pure_eq (a : α) : (Pure.pure a : Prog W α) = Prog.val a := rfl

@[simp] theorem Prog.bind_eq (m : Prog W α) (f : α → Prog W β) :
    (m >>= f) = Prog.andThen m f := rfl

/-! ## deleteDelta -/

theorem deleteDeltaEp_eq (E : Env W) (allCfg : ConfigJson) (defOpts : OptsPtr) :
    deleteDeltaEp E allCfg defOpts =
      pruneBody E defOpts (epPresent allCfg) delEpReq E.EP_CFG_PATH_PREFIX := rfl

theorem deleteDeltaNet_eq (E : Env W) (allCfg : ConfigJson) (defOpts : OptsPtr) :
    deleteDeltaNet E allCfg defOpts =
      pruneBody E defOpts (netPresent allCfg) delNetReq E.NW_CFG_PATH_PREFIX := rfl

theorem deleteDeltaTenant_eq (E : Env W) (allCfg : ConfigJson) (defOpts : OptsPtr) :
    deleteDeltaTenant E allCfg defOpts =
      pruneBody E defOpts (tenantPresent allCfg) delTenantReq E.CFG_GLOBAL_PREFIX := rfl

/-- A pruning loop always runs to its end: it hands the executor one request per stale
listed key and changes nothing but the world. -/
theorem prune_loop (E : Env W) (defOpts : OptsPtr) (present : String → Bool)
    (mk : cliOpts → String → cliOpts) (pfx : String) (keys : List String) :
    ∀ s : PState W, ∃ t,
      forRange keys (pruneBody E defOpts present mk pfx) s =
        ⟨t, { s with world := (execAll E
                ((staleIds present pfx keys).map (mk (defOpts.load s.opts))) s.world) },
          Ctl.val ()⟩ ∧
      execReqs t = (staleIds present pfx keys).map (mk (defOpts.load s.opts)) := by
  induction keys with
  | nil => intro s; exact ⟨[], rfl, rfl⟩
  | cons key rest ih =>
    intro s
    by_cases hp : present (TrimPrefix key pfx) = true
    · obtain ⟨t, h1, h2⟩ := ih s
      refine ⟨t, ?_, ?_⟩
      · simp [forRange, pruneBody, hp, Prog.andThen, Prog.val, h1, staleIds]
      · simp [h2, staleIds, hp]
    · obtain ⟨t, h1, h2⟩ := ih { s with world :=
        (E.executeOpts s.world (mk (defOpts.load s.opts) (TrimPrefix key pfx))).1 }
      simp only [] at h1 h2
      refine ⟨Event.exec (mk (defOpts.load s.opts) (TrimPrefix key pfx))
        (E.executeOpts s.world (mk (defOpts.load s.opts) (TrimPrefix key pfx))).2 ::
          Event.wait :: t, ?_, ?_⟩
      · simp [forRange, pruneBody, hp, Prog.andThen, Prog.val, h1, staleIds, loadDef,
          executeOpts, postProcessing, execAll]
      · simp [execReqs] at h2 ⊢
        simp [h2, staleIds, hp]

theorem execAll_congr (E E' : Env W)
    (h : ∀ w r, (E'.executeOpts w r).1 = (E.executeOpts w r).1) (reqs : List cliOpts) :
    ∀ w, execAll E' reqs w = execAll E reqs w := by
  induction reqs with
  | nil => intro w; rfl
  | cons r rest ih => intro w; simp [execAll, h] at ih ⊢

theorem deleteDelta_summary (E : Env W) (allCfg : ConfigJson) (defOpts : OptsPtr)
    (s : PState W) :
    (execReqs (deleteDelta E allCfg defOpts s).trace, (deleteDelta E allCfg defOpts s).ctl) =
      deleteDeltaSummary E allCfg (defOpts.load s.opts) s.world := by
  unfold deleteDeltaSummary
  rcases hinit : E.Init s.world (defOpts.load s.opts).etcdUrl with _ | e0
  swap
  · simp [deleteDelta, func, deleteDeltaBody, Prog.andThen, initEtcd, hinit, Prog.fatal,
      execReqs]
  rcases hE : E.ReadRecursive s.world E.EP_CFG_PATH_PREFIX with ⟨keysE, _ | e1⟩
  swap
  · simp [deleteDelta, func, deleteDeltaBody, Prog.andThen, initEtcd, hinit, Prog.val,
      ReadRecursive, hE, Prog.ret, execReqs]
  obtain ⟨t1, h1, r1⟩ := prune_loop E defOpts (epPresent allCfg) delEpReq
    E.EP_CFG_PATH_PREFIX keysE { s with err := none }
  simp only [] at h1 r1
  rcases hN : E.ReadRecursive
      (execAll E ((staleIds (epPresent allCfg) E.EP_CFG_PATH_PREFIX keysE).map
        (delEpReq (defOpts.load s.opts))) s.world) E.NW_CFG_PATH_PREFIX with ⟨keysN, _ | e2⟩
  swap
  · simp [deleteDelta, func, deleteDeltaBody, deleteDeltaEp_eq, Prog.andThen, initEtcd, hinit,
      Prog.val, ReadRecursive, hE, Prog.ret, h1, hN]
    simp [execReqs] at r1 ⊢
    simp [r1]
  obtain ⟨t2, h2, r2⟩ := prune_loop E defOpts (netPresent allCfg) delNetReq
    E.NW_CFG_PATH_PREFIX keysN
    { s with err := none, world := (execAll E
        ((staleIds (epPresent allCfg) E.EP_CFG_PATH_PREFIX keysE).map
          (delEpReq (defOpts.load s.opts))) s.world) }
  simp only [] at h2 r2
  rcases hT : E.ReadRecursive
      (execAll E ((staleIds (netPresent allCfg) E.NW_CFG_PATH_PREFIX keysN).map
          (delNetReq (defOpts.load s.opts)))
        (execAll E ((staleIds (epPresent allCfg) E.EP_CFG_PATH_PREFIX keysE).map
          (delEpReq (defOpts.load s.opts))) s.world)) E.CFG_GLOBAL_PREFIX with ⟨keysT, _ | e3⟩
  swap
  · simp [deleteDelta, func, deleteDeltaBody, deleteDeltaEp_eq, deleteDeltaNet_eq, Prog.andThen,
      initEtcd, hinit, Prog.val, ReadRecursive, hE, Prog.ret, h1, hN, h2, hT]
    simp [execReqs] at r1 r2 ⊢
    simp [r1, r2]
  obtain ⟨t3, h3, r3⟩ := prune_loop E defOpts (tenantPresent allCfg) delTenantReq
    E.CFG_GLOBAL_PREFIX keysT
    { s with err := none, world :=
        (execAll E ((staleIds (netPresent allCfg) E.NW_CFG_PATH_PREFIX keysN).map
            (delNetReq (defOpts.load s.opts)))
          (execAll E ((staleIds (epPresent allCfg) E.EP_CFG_PATH_PREFIX keysE).map
            (delEpReq (defOpts.load s.opts))) s.world)) }
  simp only [] at h3 r3
  simp [deleteDelta, func, deleteDeltaBody, deleteDeltaEp_eq, deleteDeltaNet_eq,
    deleteDeltaTenant_eq, Prog.andThen, initEtcd, hinit, ReadRecursive, hE, Prog.val, h1, hN,
    h2, hT, h3, Prog.ret]
  simp [execReqs] at r1 r2 r3 ⊢
  simp [r1, r2, r3]

theorem deleteDeltaSummary_congr (E : Env W) (rej : W → cliOpts → Option GoError)
    (allCfg : ConfigJson) (d : cliOpts) (w : W) :
    deleteDeltaSummary { E with executeOpts := fun w r => ((E.executeOpts w r).1, rej w r) }
        allCfg d w =
      deleteDeltaSummary E allCfg d w := by
  have h := execAll_congr E
    { E with executeOpts := fun w r => ((E.executeOpts w r).1, rej w r) } (fun _ _ => rfl)
  simp only [deleteDeltaSummary, h]

/-! ## Claims -/


/-- C1: `getEpName` gives `net.Name ++ "-" ++ ep.Container` when the endpoint has a
container name and `ep.Host ++ "-native-intf"` when it has none; so container
`c1` in network `n1` gives `n1-c1`, and a container-less endpoint on `hostA`
gives `hostA-native-intf` in every network. -/
theorem getEpName_spec :
    (∀ (net : ConfigNetworkJson) (ep : ConfigEpJson),
      (ep.Container ≠ "" → getEpName net ep = net.Name ++ "-" ++ ep.Container) ∧
      (ep.Container = "" → getEpName net ep = ep.Host ++ "-native-intf")) ∧
    (∀ (pktTag : String) (eps : List ConfigEpJson) (host intf : String),
      getEpName ⟨"n1", pktTag, eps⟩ ⟨"c1", host, intf⟩ = "n1-c1") ∧
    (∀ (net : ConfigNetworkJson) (intf : String),
      getEpName net ⟨"", "hostA", intf⟩ = "hostA-native-intf") := by
  refine ⟨fun net ep => ⟨fun h => ?_, fun h => ?_⟩, fun _ _ _ _ => ?_, fun _ _ => ?_⟩
  · simp [getEpName, h]
  · simp [getEpName, h]
  · simp [getEpName]
  · simp [getEpName]

/-- C2: when the store is reached and its three listings succeed, `deleteDelta` hands the
executor exactly one delete per listed key whose identifier (the key with the kind's prefix
trimmed) is absent from the desired model, endpoints first, then networks, then tenants, and
nothing for an identifier that is present; it returns no error.  Present means: some desired
endpoint derives the identifier via `getEpName`, some tenant lists a network of that name,
some tenant has that name. -/
theorem deleteDelta_issues_stale (E : Env W) (allCfg : ConfigJson) (defOpts : OptsPtr)
    (s : PState W) (keysE keysN keysT : List String)
    (hinit : E.Init s.world (defOpts.load s.opts).etcdUrl = none)
    (hE : E.ReadRecursive s.world E.EP_CFG_PATH_PREFIX = (keysE, none))
    (hN : E.ReadRecursive
        (execAll E ((staleIds (epPresent allCfg) E.EP_CFG_PATH_PREFIX keysE).map
          (delEpReq (defOpts.load s.opts))) s.world)
        E.NW_CFG_PATH_PREFIX = (keysN, none))
    (hT : E.ReadRecursive
        (execAll E ((staleIds (netPresent allCfg) E.NW_CFG_PATH_PREFIX keysN).map
            (delNetReq (defOpts.load s.opts)))
          (execAll E ((staleIds (epPresent allCfg) E.EP_CFG_PATH_PREFIX keysE).map
            (delEpReq (defOpts.load s.opts))) s.world))
        E.CFG_GLOBAL_PREFIX = (keysT, none)) :
    execReqs (deleteDelta E allCfg defOpts s).trace =
        (staleIds (epPresent allCfg) E.EP_CFG_PATH_PREFIX keysE).map
            (delEpReq (defOpts.load s.opts)) ++
          (staleIds (netPresent allCfg) E.NW_CFG_PATH_PREFIX keysN).map
            (delNetReq (defOpts.load s.opts)) ++
          (staleIds (tenantPresent allCfg) E.CFG_GLOBAL_PREFIX keysT).map
            (delTenantReq (defOpts.load s.opts)) ∧
      (deleteDelta E allCfg defOpts s).ctl = Ctl.val none ∧
      (∀ id, epPresent allCfg id = true ↔
        ∃ tenant ∈ allCfg.Tenants, ∃ net ∈ tenant.Networks, ∃ ep ∈ net.Endpoints,
          id = getEpName net ep) ∧
      (∀ id, netPresent allCfg id = true ↔
        ∃ tenant ∈ allCfg.Tenants, ∃ net ∈ tenant.Networks, id = net.Name) ∧
      (∀ id, tenantPresent allCfg id = true ↔ ∃ tenant ∈ allCfg.Tenants, id = tenant.Name) := by
  have h := deleteDelta_summary E allCfg defOpts s
  simp only [deleteDeltaSummary, hinit, hE, hN, hT, Prod.mk.injEq] at h
  refine ⟨h.1, h.2, ?_, ?_, ?_⟩
  · intro id; simp [epPresent]
  · intro id; simp [netPresent]
  · intro id; simp [tenantPresent]

/-- Witness for C2: the store lists endpoints `n1-c1`, `n1-c2`, `n1-c3`, the document wants
only `n1-c2`: deletes go out for exactly `n1-c1` and `n1-c3`. -/
theorem deleteDelta_issues_stale_witness :
    execReqs (deleteDelta
        (exEnv (["/ep/n1-c1", "/ep/n1-c2", "/ep/n1-c3"], none) (["/nw/n1"], none)
          (["/gl/t1"], none) [] [] none)
        exCfg (OptsPtr.other exOpts) exState).trace =
      [delEpReq exOpts "n1-c1", delEpReq exOpts "n1-c3"] :=
  (deleteDelta_issues_stale
    (exEnv (["/ep/n1-c1", "/ep/n1-c2", "/ep/n1-c3"], none) (["/nw/n1"], none)
      (["/gl/t1"], none) [] [] none)
    exCfg (OptsPtr.other exOpts) exState ["/ep/n1-c1", "/ep/n1-c2", "/ep/n1-c3"] ["/nw/n1"]
    ["/gl/t1"] rfl rfl rfl rfl).1

/-- C3: in every run of `deleteDelta` the requests handed to the executor are endpoint
deletes, then network deletes, then tenant deletes: no request of a later kind comes before
one of an earlier kind, and all of them are deletes. -/
theorem deleteDelta_kind_major (E : Env W) (allCfg : ConfigJson) (defOpts : OptsPtr)
    (s : PState W) :
    (∃ idsE idsN idsT : List String,
      execReqs (deleteDelta E allCfg defOpts s).trace =
        idsE.map (delEpReq (defOpts.load s.opts)) ++
          idsN.map (delNetReq (defOpts.load s.opts)) ++
          idsT.map (delTenantReq (defOpts.load s.opts))) ∧
    List.Pairwise (fun a b => pruneRank a.construct ≤ pruneRank b.construct)
      (execReqs (deleteDelta E allCfg defOpts s).trace) ∧
    ((execReqs (deleteDelta E allCfg defOpts s).trace).all
      fun r => decide (r.oper = Oper.CLI_OPER_DELETE)) = true := by
  have key : ∃ idsE idsN idsT : List String,
      execReqs (deleteDelta E allCfg defOpts s).trace =
        idsE.map (delEpReq (defOpts.load s.opts)) ++
          idsN.map (delNetReq (defOpts.load s.opts)) ++
          idsT.map (delTenantReq (defOpts.load s.opts)) := by
    have h := deleteDelta_summary E allCfg defOpts s
    unfold deleteDeltaSummary at h
    rcases hinit : E.Init s.world (defOpts.load s.opts).etcdUrl with _ | e0
    swap
    · simp only [hinit, Prod.mk.injEq] at h
      exact ⟨[], [], [], by simp [h.1]⟩
    rcases hE : E.ReadRecursive s.world E.EP_CFG_PATH_PREFIX with ⟨keysE, _ | e1⟩
    swap
    · simp only [hinit, hE, Prod.mk.injEq] at h
      exact ⟨[], [], [], by simp [h.1]⟩
    rcases hN : E.ReadRecursive
        (execAll E ((staleIds (epPresent allCfg) E.EP_CFG_PATH_PREFIX keysE).map
          (delEpReq (defOpts.load s.opts))) s.world) E.NW_CFG_PATH_PREFIX with ⟨keysN, _ | e2⟩
    swap
    · simp only [hinit, hE, hN, Prod.mk.injEq] at h
      exact ⟨staleIds (epPresent allCfg) E.EP_CFG_PATH_PREFIX keysE, [], [], by simp [h.1]⟩
    rcases hT : E.ReadRecursive
        (execAll E ((staleIds (netPresent allCfg) E.NW_CFG_PATH_PREFIX keysN).map
            (delNetReq (defOpts.load s.opts)))
          (execAll E ((staleIds (epPresent allCfg) E.EP_CFG_PATH_PREFIX keysE).map
            (delEpReq (defOpts.load s.opts))) s.world)) E.CFG_GLOBAL_PREFIX
      with ⟨keysT, _ | e3⟩
    swap
    · simp only [hinit, hE, hN, hT, Prod.mk.injEq] at h
      exact ⟨staleIds (epPresent allCfg) E.EP_CFG_PATH_PREFIX keysE,
        staleIds (netPresent allCfg) E.NW_CFG_PATH_PREFIX keysN, [], by simp [h.1]⟩
    simp only [hinit, hE, hN, hT, Prod.mk.injEq] at h
    exact ⟨_, _, _, h.1⟩
  refine ⟨key, ?_, ?_⟩
  · obtain ⟨idsE, idsN, idsT, h⟩ := key
    rw [h]
    simp only [List.pairwise_append, List.pairwise_map, List.mem_append, List.mem_map]
    refine ⟨⟨List.pairwise_of_forall (fun _ _ => le_refl _),
      List.pairwise_of_forall (fun _ _ => le_refl _), ?_⟩,
      List.pairwise_of_forall (fun _ _ => le_refl _), ?_⟩
    · rintro a ⟨x, -, rfl⟩ b ⟨y, -, rfl⟩
      simp [delEpReq, delNetReq, pruneRank]
    · rintro a (⟨x, -, rfl⟩ | ⟨x, -, rfl⟩) b ⟨y, -, rfl⟩ <;>
        simp [delEpReq, delNetReq, delTenantReq, pruneRank]
  · obtain ⟨idsE, idsN, idsT, h⟩ := key
    rw [h]
    simp [List.all_append, List.all_map, delEpReq, delNetReq, delTenantReq, Function.comp_def]

/-- C4: `deleteDelta` is best-effort towards the executor.  Replace the executor's verdicts
by any others (`rej`), leaving everything else as it is: the run hands the executor the same
requests and ends the same way.  An error that `deleteDelta` returns is therefore never the
executor's: the run ends with no error, or with `log.Fatalf`, or with an error that a store
listing reported. -/
theorem deleteDelta_best_effort (E : Env W) (rej : W → cliOpts → Option GoError)
    (allCfg : ConfigJson) (defOpts : OptsPtr) (s : PState W) :
    execReqs (deleteDelta
        { E with executeOpts := fun w r => ((E.executeOpts w r).1, rej w r) }
        allCfg defOpts s).trace =
      execReqs (deleteDelta E allCfg defOpts s).trace ∧
    (deleteDelta { E with executeOpts := fun w r => ((E.executeOpts w r).1, rej w r) }
        allCfg defOpts s).ctl =
      (deleteDelta E allCfg defOpts s).ctl ∧
    ((deleteDelta E allCfg defOpts s).ctl = Ctl.val none ∨
      (deleteDelta E allCfg defOpts s).ctl = Ctl.fatal ∨
      ∃ e w pfx, (deleteDelta E allCfg defOpts s).ctl = Ctl.val (some e) ∧
        (E.ReadRecursive w pfx).2 = some e) := by
  have h := deleteDelta_summary E allCfg defOpts s
  have h' := deleteDelta_summary
    { E with executeOpts := fun w r => ((E.executeOpts w r).1, rej w r) } allCfg defOpts s
  rw [deleteDeltaSummary_congr, ← h, Prod.mk.injEq] at h'
  refine ⟨h'.1, h'.2, ?_⟩
  unfold deleteDeltaSummary at h
  rcases hinit : E.Init s.world (defOpts.load s.opts).etcdUrl with _ | e0
  swap
  · simp only [hinit, Prod.mk.injEq] at h
    exact Or.inr (Or.inl h.2)
  rcases hE : E.ReadRecursive s.world E.EP_CFG_PATH_PREFIX with ⟨keysE, _ | e1⟩
  swap
  · simp only [hinit, hE, Prod.mk.injEq] at h
    cases e1 with
    | keyNotFound => exact Or.inl (by simpa [ErrIfKeyExists] using h.2)
    | other msg =>
      exact Or.inr (Or.inr ⟨GoError.other msg, s.world, E.EP_CFG_PATH_PREFIX,
        by simpa [ErrIfKeyExists] using h.2, congrArg Prod.snd hE⟩)
  rcases hN : E.ReadRecursive
      (execAll E ((staleIds (epPresent allCfg) E.EP_CFG_PATH_PREFIX keysE).map
        (delEpReq (defOpts.load s.opts))) s.world) E.NW_CFG_PATH_PREFIX with ⟨keysN, _ | e2⟩
  swap
  · simp only [hinit, hE, hN, Prod.mk.injEq] at h
    exact Or.inr (Or.inr ⟨e2, _, E.NW_CFG_PATH_PREFIX, h.2, congrArg Prod.snd hN⟩)
  rcases hT : E.ReadRecursive
      (execAll E ((staleIds (netPresent allCfg) E.NW_CFG_PATH_PREFIX keysN).map
          (delNetReq (defOpts.load s.opts)))
        (execAll E ((staleIds (epPresent allCfg) E.EP_CFG_PATH_PREFIX keysE).map
          (delEpReq (defOpts.load s.opts))) s.world)) E.CFG_GLOBAL_PREFIX
    with ⟨keysT, _ | e3⟩
  swap
  · simp only [hinit, hE, hN, hT, Prod.mk.injEq] at h
    exact Or.inr (Or.inr ⟨e3, _, E.CFG_GLOBAL_PREFIX, h.2, congrArg Prod.snd hT⟩)
  simp only [hinit, hE, hN, hT, Prod.mk.injEq] at h
  exact Or.inl h.2

/-- C5 fails on the code.  With a stale tenant `t9` and a stale network `n9` in the store:
a network listing that reports key-not-found makes `deleteDelta` return that error and skip
the tenants, where an empty listing makes it delete `t9` and return no error; an endpoint
listing that reports key-not-found makes it return no error but issue nothing, where an
empty listing makes it delete `n9` and `t9`; a tenant listing that reports key-not-found
comes back as an error, where an empty listing gives none. -/
theorem deleteDelta_notFound_differs_from_empty :
    ((deleteDelta (exEnv ([], none) ([], some GoError.keyNotFound) (["/gl/t9"], none) [] [] none)
          exCfg (OptsPtr.other exOpts) exState).ctl = Ctl.val (some GoError.keyNotFound) ∧
      execReqs (deleteDelta
          (exEnv ([], none) ([], some GoError.keyNotFound) (["/gl/t9"], none) [] [] none)
          exCfg (OptsPtr.other exOpts) exState).trace = [] ∧
      (deleteDelta (exEnv ([], none) ([], none) (["/gl/t9"], none) [] [] none)
          exCfg (OptsPtr.other exOpts) exState).ctl = Ctl.val none ∧
      execReqs (deleteDelta (exEnv ([], none) ([], none) (["/gl/t9"], none) [] [] none)
          exCfg (OptsPtr.other exOpts) exState).trace = [delTenantReq exOpts "t9"]) ∧
    ((deleteDelta
          (exEnv ([], some GoError.keyNotFound) (["/nw/n9"], none) (["/gl/t9"], none) [] [] none)
          exCfg (OptsPtr.other exOpts) exState).ctl = Ctl.val none ∧
      execReqs (deleteDelta
          (exEnv ([], some GoError.keyNotFound) (["/nw/n9"], none) (["/gl/t9"], none) [] [] none)
          exCfg (OptsPtr.other exOpts) exState).trace = [] ∧
      execReqs (deleteDelta (exEnv ([], none) (["/nw/n9"], none) (["/gl/t9"], none) [] [] none)
          exCfg (OptsPtr.other exOpts) exState).trace =
        [delNetReq exOpts "n9", delTenantReq exOpts "t9"]) ∧
    ((deleteDelta (exEnv ([], none) ([], none) ([], some GoError.keyNotFound) [] [] none)
          exCfg (OptsPtr.other exOpts) exState).ctl = Ctl.val (some GoError.keyNotFound) ∧
      (deleteDelta (exEnv ([], none) ([], none) ([], none) [] [] none)
          exCfg (OptsPtr.other exOpts) exState).ctl = Ctl.val none) := by
  decide

/-! ## Fail-fast runs -/

theorem NoFail.nil : NoFail [] := by simp [NoFail]

theorem NoFail.append {t1 t2 : List Event} (h1 : NoFail t1) (h2 : NoFail t2) :
    NoFail (t1 ++ t2) := by
  intro v e hmem
  rcases List.mem_append.1 hmem with h | h
  · exact h1 v e h
  · exact h2 v e h

theorem failFast_andThen {m m' : Prog W α} {f f' : α → Prog W β} (hm : FailFast m m')
    (hf : ∀ a, FailFast (f a) (f' a)) : FailFast (Prog.andThen m f) (Prog.andThen m' f') := by
  intro s hs
  rcases hm s hs with ⟨heq, hnf, herr, hret⟩ | ⟨pre, v, err, rest, hctl, htr, hpre, htr'⟩
  · rcases hms : m s with ⟨t, s1, c⟩
    rw [hms] at heq hnf herr hret
    cases c with
    | val a =>
      have hs1 : s1.err = none := herr a rfl
      rcases hf a s1 hs1 with ⟨heq2, hnf2, herr2, hret2⟩ | ⟨pre, v, err, rest, hctl, htr, hpre, htr'⟩
      · left
        rcases hfs : f a s1 with ⟨t2, s2, c2⟩
        rw [hfs] at heq2 hnf2 herr2 hret2
        simp only [Prog.andThen, hms, ← heq, hfs, ← heq2]
        exact ⟨trivial, NoFail.append hnf hnf2, herr2, hret2⟩
      · right
        rcases hfs : f a s1 with ⟨t2, s2, c2⟩
        rcases hfs' : f' a s1 with ⟨t2', s2', c2'⟩
        rw [hfs] at hctl htr
        rw [hfs'] at htr'
        simp only at hctl htr htr'
        refine ⟨t ++ pre, v, err, rest, ?_, ?_, NoFail.append hnf hpre, ?_⟩
        · simp [Prog.andThen, hms, hfs, hctl]
        · simp [Prog.andThen, hms, hfs, htr]
        · simp [Prog.andThen, ← heq, hfs', htr']
    | ret e => exact absurd rfl (hret e)
    | fatal =>
      left
      simp only [Prog.andThen, hms, ← heq]
      exact ⟨trivial, hnf, by simp, by simp⟩
  · right
    rcases hms : m s with ⟨t, s1, c⟩
    rcases hms' : m' s with ⟨t', s1', c'⟩
    rw [hms] at hctl htr
    rw [hms'] at htr'
    simp only at hctl htr htr'
    subst hctl
    cases c' with
    | val a =>
      rcases hfs' : f' a s1' with ⟨t2', s2', c2'⟩
      exact ⟨pre, v, err, rest ++ t2', by simp [Prog.andThen, hms], by simp [Prog.andThen, hms, htr],
        hpre, by simp [Prog.andThen, hms', hfs', htr']⟩
    | ret e =>
      exact ⟨pre, v, err, rest, by simp [Prog.andThen, hms], by simp [Prog.andThen, hms, htr],
        hpre, by simp [Prog.andThen, hms', htr']⟩
    | fatal =>
      exact ⟨pre, v, err, rest, by simp [Prog.andThen, hms], by simp [Prog.andThen, hms, htr],
        hpre, by simp [Prog.andThen, hms', htr']⟩

theorem failFast_forRange {body body' : α → Prog W Unit} (h : ∀ x, FailFast (body x) (body' x))
    (xs : List α) : FailFast (Prog.forRange xs body) (Prog.forRange xs body') := by
  induction xs with
  | nil =>
    intro s hs
    left
    simp [Prog.forRange, Prog.val, NoFail, hs]
  | cons x rest ih =>
    simp only [Prog.forRange]
    exact failFast_andThen (h x) (fun _ => ih)

theorem failFast_ite {c : Prop} [Decidable c] {m m' n n' : Prog W α} (hm : FailFast m m')
    (hn : FailFast n n') : FailFast (if c then m else n) (if c then m' else n') := by
  by_cases hc : c <;> simp [hc, hm, hn]

theorem failFast_val (a : α) : FailFast (Prog.val a : Prog W α) (Prog.val a) := by
  intro s hs; left; simp [Prog.val, NoFail, hs]

theorem failFast_loadDef (p : OptsPtr) : FailFast (Prog.loadDef p : Prog W cliOpts) (Prog.loadDef p) := by
  intro s hs; left; simp [Prog.loadDef, NoFail, hs]

theorem failFast_getOpts : FailFast (Prog.getOpts : Prog W cliOpts) Prog.getOpts := by
  intro s hs; left; simp [Prog.getOpts, NoFail, hs]

theorem failFast_setOpts (v : cliOpts) : FailFast (Prog.setOpts v : Prog W Unit) (Prog.setOpts v) := by
  intro s hs; left; simp [Prog.setOpts, NoFail, hs]

theorem failFast_postProcessing : FailFast (postProcessing : Prog W Unit) postProcessing := by
  intro s hs; left; simp [postProcessing, NoFail, hs]

theorem failFast_executeOrReturn (E : Env W) (v : cliOpts) :
    FailFast (executeOrReturn E v) (executeOrReturn (neverFail E) v) := by
  intro s hs
  rcases hx : (E.executeOpts s.world v).2 with _ | e
  · left
    simp [executeOrReturn, Prog.andThen, executeOpts, neverFail, Prog.setErr, Prog.val, hx, NoFail]
  · right
    refine ⟨[], v, e, [], ?_, ?_, NoFail.nil, ?_⟩ <;>
      simp [executeOrReturn, Prog.andThen, executeOpts, neverFail, Prog.setErr, Prog.val, hx,
        Prog.retNamed]

theorem failFast_additionsEp (E : Env W) (p : OptsPtr) (net : ConfigNetworkJson)
    (ep : ConfigEpJson) :
    FailFast (additionsEp E p net ep) (additionsEp (neverFail E) p net ep) := by
  unfold additionsEp
  simp only [Prog.bind_eq]
  exact failFast_andThen (failFast_loadDef _) fun d =>
    failFast_andThen (failFast_setOpts _) fun _ =>
    failFast_andThen failFast_getOpts fun req =>
    failFast_andThen (failFast_executeOrReturn E req) fun _ => failFast_postProcessing

theorem failFast_additionsNetHead (E : Env W) (p : OptsPtr) (tenant : ConfigTenantJson)
    (net : ConfigNetworkJson) :
    FailFast (additionsNetHead E p tenant net) (additionsNetHead (neverFail E) p tenant net) := by
  intro s hs
  rcases hx : (E.executeOpts s.world (createNetReq (p.load s.opts) tenant net)).2 with _ | ex
  · left
    by_cases hc : (p.load s.opts).cfgAdditions = true ∧ ¬tenant.Networks = []
    · rcases hr : E.nwCfgRead s.world net.Name with _ | (_ | msg) <;>
      simp [additionsNetHead, Prog.andThen, Prog.loadDef, hc, nwCfgRead, neverFail, hr,
            Prog.setErr, ErrIfKeyExists, Prog.val, NoFail, Prog.setOpts, Prog.getOpts,
            executeOrReturn, executeOpts, postProcessing, hx, Prog.fatal]
    · simp [additionsNetHead, Prog.andThen, Prog.loadDef, hc, nwCfgRead, neverFail, 
            Prog.setErr, ErrIfKeyExists, Prog.val, NoFail, Prog.setOpts, Prog.getOpts,
            executeOrReturn, executeOpts, postProcessing, hx, Prog.fatal]
  · by_cases hc : (p.load s.opts).cfgAdditions = true ∧ ¬tenant.Networks = []
    · rcases hr : E.nwCfgRead s.world net.Name with _ | (_ | msg)
      · left
        simp [additionsNetHead, Prog.andThen, Prog.loadDef, hc, nwCfgRead, neverFail, hr,
            Prog.setErr, ErrIfKeyExists, Prog.val, NoFail, Prog.setOpts, Prog.getOpts,
            executeOrReturn, executeOpts, postProcessing, hx, Prog.fatal]
      · right
        refine ⟨[Event.readNet net.Name (some GoError.keyNotFound)],
          createNetReq (p.load s.opts) tenant net, ex, [Event.wait], ?_, ?_, ?_, ?_⟩ <;>
        simp [additionsNetHead, Prog.andThen, Prog.loadDef, hc, nwCfgRead, neverFail, hr,
              Prog.setErr, ErrIfKeyExists, Prog.val, NoFail, Prog.setOpts, Prog.getOpts,
              executeOrReturn, executeOpts, postProcessing, hx, Prog.retNamed]
      · left
        simp [additionsNetHead, Prog.andThen, Prog.loadDef, hc, nwCfgRead, neverFail, hr,
            Prog.setErr, ErrIfKeyExists, Prog.val, NoFail, Prog.setOpts, Prog.getOpts,
            executeOrReturn, executeOpts, postProcessing, hx, Prog.fatal]
    · right
      refine ⟨[], createNetReq (p.load s.opts) tenant net, ex, [Event.wait], ?_, ?_, ?_, ?_⟩ <;>
        simp [additionsNetHead, Prog.andThen, Prog.loadDef, hc, nwCfgRead, neverFail,
              Prog.setErr, ErrIfKeyExists, Prog.val, NoFail, Prog.setOpts, Prog.getOpts,
              executeOrReturn, executeOpts, postProcessing, hx, Prog.retNamed]

theorem failFast_additionsTenantHead (E : Env W) (p : OptsPtr) (tenant : ConfigTenantJson) :
    FailFast (additionsTenantHead E p tenant) (additionsTenantHead (neverFail E) p tenant) := by
  intro s hs
  rcases hx : (E.executeOpts s.world (createTenantReq (p.load s.opts) tenant)).2 with _ | ex
  · left
    by_cases hc : (p.load s.opts).cfgAdditions = true ∧ ¬tenant.Networks = []
    · rcases hr : E.gcfgRead s.world tenant.Name with _ | (_ | msg) <;>
      simp [additionsTenantHead, Prog.andThen, Prog.loadDef, hc, gcfgRead, neverFail, hr,
            Prog.setErr, ErrIfKeyExists, Prog.val, NoFail,
            executeOrReturn, executeOpts, hx, Prog.fatal]
    · simp [additionsTenantHead, Prog.andThen, Prog.loadDef, hc, gcfgRead, neverFail,
            Prog.setErr, ErrIfKeyExists, Prog.val, NoFail,
            executeOrReturn, executeOpts, hx, Prog.fatal]
  · by_cases hc : (p.load s.opts).cfgAdditions = true ∧ ¬tenant.Networks = []
    · rcases hr : E.gcfgRead s.world tenant.Name with _ | (_ | msg)
      · left
        simp [additionsTenantHead, Prog.andThen, Prog.loadDef, hc, gcfgRead, neverFail, hr,
            Prog.setErr, ErrIfKeyExists, Prog.val, NoFail,
            executeOrReturn, executeOpts, hx, Prog.fatal]
      · right
        refine ⟨[Event.readTenant tenant.Name (some GoError.keyNotFound)],
          createTenantReq (p.load s.opts) tenant, ex, [], ?_, ?_, ?_, ?_⟩ <;>
        simp [additionsTenantHead, Prog.andThen, Prog.loadDef, hc, gcfgRead, neverFail, hr,
              Prog.setErr, ErrIfKeyExists, Prog.val, NoFail,
              executeOrReturn, executeOpts, hx, Prog.retNamed]
      · left
        simp [additionsTenantHead, Prog.andThen, Prog.loadDef, hc, gcfgRead, neverFail, hr,
            Prog.setErr, ErrIfKeyExists, Prog.val, NoFail,
            executeOrReturn, executeOpts, hx, Prog.fatal]
    · right
      refine ⟨[], createTenantReq (p.load s.opts) tenant, ex, [], ?_, ?_, ?_, ?_⟩ <;>
        simp [additionsTenantHead, Prog.andThen, Prog.loadDef, hc, gcfgRead, neverFail,
              Prog.setErr, ErrIfKeyExists, Prog.val, NoFail,
              executeOrReturn, executeOpts, hx, Prog.retNamed]

theorem failFast_additionsInit (E : Env W) (p : OptsPtr) :
    FailFast (additionsInit E p) (additionsInit (neverFail E) p) := by
  intro s hs
  left
  rcases hi : E.Init s.world (p.load s.opts).etcdUrl with _ | e <;>
    simp [additionsInit, Prog.andThen, initEtcd, neverFail, hi, Prog.setErr, Prog.val, NoFail,
      Prog.fatal]

theorem failFast_additionsNet (E : Env W) (p : OptsPtr) (tenant : ConfigTenantJson)
    (net : ConfigNetworkJson) :
    FailFast (additionsNet E p tenant net) (additionsNet (neverFail E) p tenant net) := by
  unfold additionsNet
  simp only [Prog.bind_eq]
  exact failFast_andThen (failFast_additionsNetHead E p tenant net) fun _ =>
    failFast_forRange (failFast_additionsEp E p net) _

theorem failFast_additionsTenant (E : Env W) (p : OptsPtr) (tenant : ConfigTenantJson) :
    FailFast (additionsTenant E p tenant) (additionsTenant (neverFail E) p tenant) := by
  unfold additionsTenant
  simp only [Prog.bind_eq]
  exact failFast_andThen (failFast_additionsTenantHead E p tenant) fun _ =>
    failFast_forRange (failFast_additionsNet E p tenant) _

theorem failFast_deletionsEp (E : Env W) (p : OptsPtr) (net : ConfigNetworkJson)
    (ep : ConfigEpJson) :
    FailFast (deletionsEp E p net ep) (deletionsEp (neverFail E) p net ep) := by
  unfold deletionsEp
  simp only [Prog.bind_eq]
  exact failFast_andThen (failFast_loadDef _) fun d =>
    failFast_andThen (failFast_setOpts _) fun _ =>
    failFast_andThen failFast_getOpts fun req =>
    failFast_andThen (failFast_executeOrReturn E req) fun _ => failFast_postProcessing

theorem failFast_deletionsNet (E : Env W) (p : OptsPtr) (tenant : ConfigTenantJson)
    (net : ConfigNetworkJson) :
    FailFast (deletionsNet E p tenant net) (deletionsNet (neverFail E) p tenant net) := by
  unfold deletionsNet
  simp only [Prog.bind_eq, Prog.pure_eq]
  exact failFast_andThen (failFast_forRange (failFast_deletionsEp E p net) _) fun _ =>
    failFast_ite
      (failFast_andThen (failFast_loadDef _) fun d =>
        failFast_andThen (failFast_setOpts _) fun _ =>
        failFast_andThen failFast_getOpts fun req =>
        failFast_andThen (failFast_executeOrReturn E req) fun _ => failFast_postProcessing)
      (failFast_val _)

theorem failFast_deletionsTenant (E : Env W) (p : OptsPtr) (tenant : ConfigTenantJson) :
    FailFast (deletionsTenant E p tenant) (deletionsTenant (neverFail E) p tenant) := by
  unfold deletionsTenant
  simp only [Prog.bind_eq, Prog.pure_eq]
  exact failFast_andThen (failFast_forRange (failFast_deletionsNet E p tenant) _) fun _ =>
    failFast_ite
      (failFast_andThen (failFast_loadDef _) fun d => failFast_executeOrReturn E _)
      (failFast_val _)

theorem failFastBody_of_failFast {m m' : Prog W Unit} (h : FailFast m m') :
    FailFastBody (Prog.andThen m fun _ => Prog.retNamed)
      (Prog.andThen m' fun _ => Prog.retNamed) := by
  intro s hs
  rcases h s hs with ⟨heq, hnf, herr, hret⟩ | ⟨pre, v, err, rest, hctl, htr, hpre, htr'⟩
  · left
    rcases hms : m s with ⟨t, s1, c⟩
    rw [hms] at heq hnf herr hret
    cases c with
    | val a =>
      have hs1 : s1.err = none := herr a rfl
      simp only [Prog.andThen, hms, ← heq, Prog.retNamed, hs1, List.append_nil]
      exact ⟨trivial, hnf, by simp, by simp⟩
    | ret e => exact absurd rfl (hret e)
    | fatal =>
      simp only [Prog.andThen, hms, ← heq]
      exact ⟨trivial, hnf, by simp, by simp⟩
  · right
    rcases hms : m s with ⟨t, s1, c⟩
    rcases hms' : m' s with ⟨t', s1', c'⟩
    rw [hms] at hctl htr
    rw [hms'] at htr'
    simp only at hctl htr htr'
    subst hctl
    refine ⟨pre, v, err, rest, by simp [Prog.andThen, hms], by simp [Prog.andThen, hms, htr],
        hpre, ?_⟩
    cases c' <;> simp [Prog.andThen, hms', htr', Prog.retNamed]

theorem failFastBody_andThen {m m' : Prog W α} {f f' : α → Prog W Unit} (hm : FailFast m m')
    (hf : ∀ a, FailFastBody (f a) (f' a)) :
    FailFastBody (Prog.andThen m f) (Prog.andThen m' f') := by
  intro s hs
  rcases hm s hs with ⟨heq, hnf, herr, hret⟩ | ⟨pre, v, err, rest, hctl, htr, hpre, htr'⟩
  · rcases hms : m s with ⟨t, s1, c⟩
    rw [hms] at heq hnf herr hret
    cases c with
    | val a =>
      have hs1 : s1.err = none := herr a rfl
      rcases hf a s1 hs1 with ⟨heq2, hnf2, herr2, hret2⟩ |
        ⟨pre, v, err, rest, hctl, htr, hpre, htr'⟩
      · left
        rcases hfs : f a s1 with ⟨t2, s2, c2⟩
        rw [hfs] at heq2 hnf2 herr2 hret2
        simp only [Prog.andThen, hms, ← heq, hfs, ← heq2]
        exact ⟨trivial, NoFail.append hnf hnf2, herr2, hret2⟩
      · right
        rcases hfs : f a s1 with ⟨t2, s2, c2⟩
        rcases hfs' : f' a s1 with ⟨t2', s2', c2'⟩
        rw [hfs] at hctl htr
        rw [hfs'] at htr'
        simp only at hctl htr htr'
        refine ⟨t ++ pre, v, err, rest, ?_, ?_, NoFail.append hnf hpre, ?_⟩
        · simp [Prog.andThen, hms, hfs, hctl]
        · simp [Prog.andThen, hms, hfs, htr]
        · simp [Prog.andThen, ← heq, hfs', htr']
    | ret e => exact absurd rfl (hret e)
    | fatal =>
      left
      simp only [Prog.andThen, hms, ← heq]
      exact ⟨trivial, hnf, by simp, by simp⟩
  · right
    rcases hms : m s with ⟨t, s1, c⟩
    rcases hms' : m' s with ⟨t', s1', c'⟩
    rw [hms] at hctl htr
    rw [hms'] at htr'
    simp only at hctl htr htr'
    subst hctl
    cases c' with
    | val a =>
      rcases hfs' : f' a s1' with ⟨t2', s2', c2'⟩
      exact ⟨pre, v, err, rest ++ t2', by simp [Prog.andThen, hms],
        by simp [Prog.andThen, hms, htr], hpre, by simp [Prog.andThen, hms', hfs', htr']⟩
    | ret e =>
      exact ⟨pre, v, err, rest, by simp [Prog.andThen, hms], by simp [Prog.andThen, hms, htr],
        hpre, by simp [Prog.andThen, hms', htr']⟩
    | fatal =>
      exact ⟨pre, v, err, rest, by simp [Prog.andThen, hms], by simp [Prog.andThen, hms, htr],
        hpre, by simp [Prog.andThen, hms', htr']⟩

theorem failFastBody_retNamed : FailFastBody (Prog.retNamed : Prog W Unit) Prog.retNamed := by
  intro s hs
  left
  simp [Prog.retNamed, NoFail, hs]

theorem failFastBody_processAdditions (E : Env W) (allCfg : ConfigJson) (p : OptsPtr) :
    FailFastBody (processAdditionsBody E allCfg p)
      (processAdditionsBody (neverFail E) allCfg p) := by
  unfold processAdditionsBody
  simp only [Prog.bind_eq]
  exact failFastBody_andThen (failFast_additionsInit E p) fun _ =>
    failFastBody_andThen (failFast_forRange (failFast_additionsTenant E p) _) fun _ =>
      failFastBody_retNamed

theorem failFastBody_processDeletions (E : Env W) (allCfg : ConfigJson) (p : OptsPtr) :
    FailFastBody (processDeletionsBody E allCfg p)
      (processDeletionsBody (neverFail E) allCfg p) := by
  unfold processDeletionsBody
  simp only [Prog.bind_eq]
  exact failFastBody_andThen (failFast_forRange (failFast_deletionsTenant E p) _) fun _ =>
    failFastBody_retNamed

theorem execCalls_append (a b : List Event) : execCalls (a ++ b) = execCalls a ++ execCalls b := by
  simp [execCalls]

theorem execReqs_append (a b : List Event) : execReqs (a ++ b) = execReqs a ++ execReqs b := by
  simp [execReqs]

theorem length_execCalls (t : List Event) : (execCalls t).length = (execReqs t).length := by
  induction t with
  | nil => rfl
  | cons e t ih => cases e <;> simp_all [execCalls, execReqs, List.filterMap_cons]

theorem mem_of_mem_execCalls {t : List Event} {v : cliOpts} {res : Option GoError}
    (h : (v, res) ∈ execCalls t) : Event.exec v res ∈ t := by
  obtain ⟨e, he, heq⟩ := List.mem_filterMap.1 h
  cases e with
  | exec r res' =>
    simp only [Option.some.injEq, Prod.mk.injEq] at heq
    obtain ⟨rfl, rfl⟩ := heq
    exact he
  | _ => simp at heq

theorem execReqs_eq_map (t : List Event) : execReqs t = (execCalls t).map Prod.fst := by
  induction t with
  | nil => rfl
  | cons e t ih =>
    cases e <;> simp_all [execCalls, execReqs, List.filterMap_cons]

/-- What fail-fast means for a function: a failing executor call is the last one, the requests
issued are those of the failure-free run up to and including it, and its error is returned;
without a failing call the run is the failure-free run and returns `nil`, unless it ends
the process. -/
theorem failFast_func {m m' : Prog W Unit} (h : FailFastBody m m') (s : PState W) :
    (∀ k v err, (execCalls (Prog.func m s).trace)[k]? = some (v, some err) →
      execReqs (Prog.func m s).trace = (execReqs (Prog.func m' s).trace).take (k + 1) ∧
      k < (execReqs (Prog.func m' s).trace).length ∧
      (Prog.func m s).ctl = Ctl.val (some err)) ∧
    (NoFail (Prog.func m s).trace →
      (Prog.func m s).trace = (Prog.func m' s).trace ∧
      ((Prog.func m s).ctl = Ctl.val none ∨ (Prog.func m s).ctl = Ctl.fatal)) := by
  rcases h { s with err := none } rfl with ⟨heq, hnf, hret, hval⟩ |
    ⟨pre, v, err, rest, hctl, htr, hpre, htr'⟩
  · rcases hms : m { s with err := none } with ⟨t, s1, c⟩
    rw [hms] at heq hnf hret hval
    have hf : (Prog.func m s).trace = t := by
      cases c <;> simp [Prog.func, hms]
    have hf' : (Prog.func m' s).trace = t := by
      cases c <;> simp [Prog.func, ← heq]
    refine ⟨?_, ?_⟩
    · intro k v err hk
      rw [hf] at hk
      exact absurd (mem_of_mem_execCalls (List.getElem?_mem hk)) (hnf v err)
    · intro _
      refine ⟨by rw [hf, hf'], ?_⟩
      cases c with
      | val a => exact absurd rfl (hval a)
      | ret e =>
        have := hret e rfl
        subst this
        left; simp [Prog.func, hms]
      | fatal => right; simp [Prog.func, hms]
  · rcases hms : m { s with err := none } with ⟨t, s1, c⟩
    rcases hms' : m' { s with err := none } with ⟨t', s1', c'⟩
    rw [hms] at hctl htr
    rw [hms'] at htr'
    simp only at hctl htr htr'
    subst hctl
    have hf : (Prog.func m s).trace = pre ++ [Event.exec v (some err)] := by
      simp [Prog.func, hms, htr]
    have hf' : (Prog.func m' s).trace = pre ++ Event.exec v none :: rest := by
      cases c' <;> simp [Prog.func, hms', htr']
    have hc : (Prog.func m s).ctl = Ctl.val (some err) := by
      simp [Prog.func, hms]
    refine ⟨?_, ?_⟩
    · intro k v' err' hk
      rw [hf, execCalls_append] at hk
      have hlen : k = (execCalls pre).length := by
        rcases Nat.lt_trichotomy k (execCalls pre).length with hlt | heq | hgt
        · rw [List.getElem?_append_left hlt] at hk
          exact absurd (mem_of_mem_execCalls (List.getElem?_mem hk)) (hpre v' err')
        · exact heq
        · have hlen := (List.getElem?_eq_some.1 hk).1
          simp [execCalls] at hlen hgt
          omega
      subst hlen
      rw [List.getElem?_append_right (le_refl _)] at hk
      simp [execCalls] at hk
      obtain ⟨rfl, rfl⟩ := hk
      rw [hf, hf', hc, length_execCalls, execReqs_append, execReqs_append]
      refine ⟨?_, ?_, rfl⟩
      · have h1 : execReqs (Event.exec v none :: rest) = v :: execReqs rest := by
          simp [execReqs]
        have h2 : execReqs [Event.exec v (some err)] = [v] := by simp [execReqs]
        rw [h1, h2, List.take_append_eq_append_take]
        simp
      · simp [execReqs]
    · intro hnf
      rw [hf] at hnf
      exact absurd (by simp) (hnf v err)

/-! ## processDeletions never ends the process -/

theorem noFatal_andThen {m : Prog W α} {f : α → Prog W β} (hm : NoFatal m)
    (hf : ∀ a, NoFatal (f a)) : NoFatal (Prog.andThen m f) := by
  intro s
  have h1 := hm s
  rcases hms : m s with ⟨t, s1, c⟩
  rw [hms] at h1
  cases c with
  | val a =>
    have h2 := hf a s1
    rcases hfs : f a s1 with ⟨t2, s2, c2⟩
    rw [hfs] at h2
    simpa [Prog.andThen, hms, hfs] using h2
  | ret e => simp [Prog.andThen, hms]
  | fatal => exact absurd rfl h1

theorem noFatal_forRange {body : α → Prog W Unit} (h : ∀ x, NoFatal (body x)) (xs : List α) :
    NoFatal (Prog.forRange xs body) := by
  induction xs with
  | nil => intro s; simp [Prog.forRange, Prog.val]
  | cons x rest ih =>
    simp only [Prog.forRange]
    exact noFatal_andThen (h x) fun _ => ih

theorem noFatal_ite {c : Prop} [Decidable c] {m n : Prog W α} (hm : NoFatal m)
    (hn : NoFatal n) : NoFatal (if c then m else n) := by
  by_cases hc : c <;> simp [hc, hm, hn]

theorem noFatal_executeOrReturn (E : Env W) (v : cliOpts) : NoFatal (executeOrReturn E v) := by
  intro s
  rcases hx : (E.executeOpts s.world v).2 with _ | e <;>
    simp [executeOrReturn, Prog.andThen, executeOpts, Prog.setErr, Prog.val, hx, Prog.retNamed]

theorem noFatal_execBlock (E : Env W) (p : OptsPtr) (mk : cliOpts → cliOpts) :
    NoFatal (Prog.andThen (Prog.loadDef p) fun d =>
      Prog.andThen (Prog.setOpts (mk d)) fun _ =>
      Prog.andThen Prog.getOpts fun req =>
      Prog.andThen (executeOrReturn E req) fun _ => postProcessing) :=
  noFatal_andThen (fun s => by simp [Prog.loadDef]) fun _ =>
    noFatal_andThen (fun s => by simp [Prog.setOpts]) fun _ =>
    noFatal_andThen (fun s => by simp [Prog.getOpts]) fun req =>
    noFatal_andThen (noFatal_executeOrReturn E req) fun _ => fun s => by simp [postProcessing]

theorem noFatal_processDeletionsBody (E : Env W) (allCfg : ConfigJson) (p : OptsPtr) :
    NoFatal (processDeletionsBody E allCfg p) := by
  unfold processDeletionsBody
  simp only [Prog.bind_eq]
  refine noFatal_andThen (noFatal_forRange (fun tenant => ?_) _) fun _ => fun s => by
    simp [Prog.retNamed]
  unfold deletionsTenant
  simp only [Prog.bind_eq, Prog.pure_eq]
  refine noFatal_andThen (noFatal_forRange (fun net => ?_) _) fun _ =>
    noFatal_ite (noFatal_andThen (fun s => by simp [Prog.loadDef]) fun _ =>
      noFatal_executeOrReturn E _) (fun s => by simp [Prog.val])
  unfold deletionsNet
  simp only [Prog.bind_eq, Prog.pure_eq]
  refine noFatal_andThen (noFatal_forRange (fun ep => ?_) _) fun _ =>
    noFatal_ite (noFatal_execBlock E p _) (fun s => by simp [Prog.val])
  unfold deletionsEp
  simp only [Prog.bind_eq]
  exact noFatal_execBlock E p _

theorem processDeletions_ne_fatal (E : Env W) (allCfg : ConfigJson) (p : OptsPtr)
    (s : PState W) : (processDeletions E allCfg p s).ctl ≠ Ctl.fatal := by
  have h := noFatal_processDeletionsBody E allCfg p { s with err := none }
  unfold processDeletions Prog.func
  rcases hb : processDeletionsBody E allCfg p { s with err := none } with ⟨t, s1, c⟩
  rw [hb] at h
  cases c with
  | val a => simp
  | ret e => simp
  | fatal => exact absurd rfl h

/-! ## Claims about the reconcilers -/

/-- C9: fail-fast.  In `processAdditions` and in `processDeletions`, if the executor call
number `k` (counted from 0) fails with `err`, then the requests issued are exactly the first
`k + 1` requests of the failure-free run (the run over `neverFail E`), so nothing is issued
after the failing call, and the function returns `err`.  If no executor call fails, the
trace is that of the failure-free run and no error is returned: `processDeletions` returns
`nil`, and `processAdditions` returns `nil` unless `log.Fatalf` ended the process. -/
theorem reconcilers_fail_fast (E : Env W) (allCfg : ConfigJson) (defOpts : OptsPtr)
    (s : PState W) :
    (∀ k v err,
      (execCalls (processAdditions E allCfg defOpts s).trace)[k]? = some (v, some err) →
        execReqs (processAdditions E allCfg defOpts s).trace =
          (execReqs (processAdditions (neverFail E) allCfg defOpts s).trace).take (k + 1) ∧
        k < (execReqs (processAdditions (neverFail E) allCfg defOpts s).trace).length ∧
        (processAdditions E allCfg defOpts s).ctl = Ctl.val (some err)) ∧
    (NoFail (processAdditions E allCfg defOpts s).trace →
      (processAdditions E allCfg defOpts s).trace =
        (processAdditions (neverFail E) allCfg defOpts s).trace ∧
      ((processAdditions E allCfg defOpts s).ctl = Ctl.val none ∨
        (processAdditions E allCfg defOpts s).ctl = Ctl.fatal)) ∧
    (∀ k v err,
      (execCalls (processDeletions E allCfg defOpts s).trace)[k]? = some (v, some err) →
        execReqs (processDeletions E allCfg defOpts s).trace =
          (execReqs (processDeletions (neverFail E) allCfg defOpts s).trace).take (k + 1) ∧
        k < (execReqs (processDeletions (neverFail E) allCfg defOpts s).trace).length ∧
        (processDeletions E allCfg defOpts s).ctl = Ctl.val (some err)) ∧
    (NoFail (processDeletions E allCfg defOpts s).trace →
      (processDeletions E allCfg defOpts s).trace =
        (processDeletions (neverFail E) allCfg defOpts s).trace ∧
      (processDeletions E allCfg defOpts s).ctl = Ctl.val none) := by
  have hA := failFast_func (failFastBody_processAdditions E allCfg defOpts) s
  have hD := failFast_func (failFastBody_processDeletions E allCfg defOpts) s
  refine ⟨hA.1, hA.2, hD.1, fun hnf => ⟨(hD.2 hnf).1, ?_⟩⟩
  rcases (hD.2 hnf).2 with h | h
  · exact h
  · exact absurd h (processDeletions_ne_fatal E allCfg defOpts s)

/-- Witness for C9: the document `t1 / n1 / c2` with the executor rejecting call number 1
(the network create): the tenant create and the network create are issued, the endpoint
create of the failure-free run is not, and the executor's error is returned. -/
theorem reconcilers_fail_fast_witness :
    (execCalls (processAdditions (exEnv ([], none) ([], none) ([], none) [] [] (some 1)) exCfg
        (OptsPtr.other exOpts) exState).trace)[1]? =
      some (createNetReq exOpts ⟨"t1", "vlan", "", 0, "", "", []⟩ ⟨"n1", "", []⟩,
        some (GoError.other "rejected")) ∧
    execReqs (processAdditions (exEnv ([], none) ([], none) ([], none) [] [] (some 1)) exCfg
        (OptsPtr.other exOpts) exState).trace =
      (execReqs (processAdditions
        (neverFail (exEnv ([], none) ([], none) ([], none) [] [] (some 1))) exCfg
        (OptsPtr.other exOpts) exState).trace).take 2 ∧
    (processAdditions (exEnv ([], none) ([], none) ([], none) [] [] (some 1)) exCfg
        (OptsPtr.other exOpts) exState).ctl = Ctl.val (some (GoError.other "rejected")) :=
  have h := (reconcilers_fail_fast (exEnv ([], none) ([], none) ([], none) [] [] (some 1)) exCfg
    (OptsPtr.other exOpts) exState).1 1
    (createNetReq exOpts ⟨"t1", "vlan", "", 0, "", "", []⟩ ⟨"n1", "", []⟩)
    (GoError.other "rejected") (by decide)
  ⟨by decide, h.1, h.2.2⟩


/-! ## Runs that fall through -/

theorem andThen_val_inv {m : Prog W α} {f : α → Prog W β} {s : PState W} {b : β}
    (h : (Prog.andThen m f s).ctl = Ctl.val b) :
    ∃ a, (m s).ctl = Ctl.val a ∧ (f a (m s).st).ctl = Ctl.val b ∧
      (Prog.andThen m f s).trace = (m s).trace ++ (f a (m s).st).trace ∧
      (Prog.andThen m f s).st = (f a (m s).st).st := by
  rcases hms : m s with ⟨t, s1, c⟩
  cases c with
  | val a =>
    rcases hfs : f a s1 with ⟨t2, s2, c2⟩
    simp only [Prog.andThen, hms, hfs] at h ⊢
    exact ⟨a, rfl, by rw [hfs]; exact h, by rw [hfs], by rw [hfs]⟩
  | ret e => simp [Prog.andThen, hms] at h
  | fatal => simp [Prog.andThen, hms] at h

theorem forRange_segments {body : α → Prog W Unit} (I : PState W → Prop)
    (R : α → List Event → Prop) (xs : List α)
    (hbody : ∀ x ∈ xs, ∀ s, I s → (body x s).ctl = Ctl.val () →
      I (body x s).st ∧ R x (body x s).trace) :
    ∀ s, I s → (Prog.forRange xs body s).ctl = Ctl.val () →
      I (Prog.forRange xs body s).st ∧
      ∃ segs, (Prog.forRange xs body s).trace = segs.flatten ∧ List.Forall₂ R xs segs := by
  induction xs with
  | nil =>
    intro s hI _
    exact ⟨by simpa [Prog.forRange, Prog.val] using hI, [], by simp [Prog.forRange, Prog.val],
      List.Forall₂.nil⟩
  | cons x rest ih =>
    intro s hI h
    simp only [Prog.forRange] at h ⊢
    obtain ⟨a, h1, h2, h3, h4⟩ := andThen_val_inv h
    obtain ⟨hI1, hR1⟩ := hbody x (List.mem_cons_self _ _) s hI h1
    obtain ⟨hI2, segs, hsegs, hall⟩ :=
      ih (fun y hy => hbody y (List.mem_cons_of_mem _ hy)) _ hI1 h2
    refine ⟨by rw [h4]; exact hI2, (body x s).trace :: segs, ?_, List.Forall₂.cons hR1 hall⟩
    rw [h3, hsegs]
    simp

theorem load_createEpReq (p : OptsPtr) (o : cliOpts) (net : ConfigNetworkJson)
    (ep : ConfigEpJson) :
    (p.load (createEpReq (p.load o) net ep)).cfgAdditions = (p.load o).cfgAdditions := by
  cases p <;> simp [OptsPtr.load, createEpReq]

theorem load_createNetReq (p : OptsPtr) (o : cliOpts) (tenant : ConfigTenantJson)
    (net : ConfigNetworkJson) :
    (p.load (createNetReq (p.load o) tenant net)).cfgAdditions = (p.load o).cfgAdditions := by
  cases p <;> simp [OptsPtr.load, createNetReq]

theorem additionsEp_val (E : Env W) (p : OptsPtr) (net : ConfigNetworkJson) (ep : ConfigEpJson)
    (s : PState W) (h : (additionsEp E p net ep s).ctl = Ctl.val ()) :
    (p.load (additionsEp E p net ep s).st.opts).cfgAdditions = (p.load s.opts).cfgAdditions ∧
      EpSeg net ep (additionsEp E p net ep s).trace := by
  rcases hx : (E.executeOpts s.world (createEpReq (p.load s.opts) net ep)).2 with _ | e
  · refine ⟨?_, p.load s.opts, ?_⟩ <;>
      simp [additionsEp, Prog.andThen, Prog.loadDef, Prog.setOpts, Prog.getOpts, executeOrReturn,
        executeOpts, Prog.setErr, Prog.val, postProcessing, hx, load_createEpReq]
  · simp [additionsEp, Prog.andThen, Prog.loadDef, Prog.setOpts, Prog.getOpts, executeOrReturn,
      executeOpts, Prog.setErr, Prog.val, postProcessing, hx, Prog.retNamed] at h

theorem additionsNetHead_val (E : Env W) (p : OptsPtr) (tenant : ConfigTenantJson)
    (net : ConfigNetworkJson) (hne : tenant.Networks ≠ []) (s : PState W)
    (h : (additionsNetHead E p tenant net s).ctl = Ctl.val ()) :
    (p.load (additionsNetHead E p tenant net s).st.opts).cfgAdditions =
        (p.load s.opts).cfgAdditions ∧
      NetHeadSeg (p.load s.opts).cfgAdditions tenant net
        (additionsNetHead E p tenant net s).trace := by
  by_cases hc : (p.load s.opts).cfgAdditions = true
  · rcases hr : E.nwCfgRead s.world net.Name with _ | (_ | msg)
    · refine ⟨?_, ?_⟩
      · simp [additionsNetHead, Prog.andThen, Prog.loadDef, hc, hne, nwCfgRead, hr,
          Prog.setErr, ErrIfKeyExists, Prog.val]
      · unfold NetHeadSeg; rw [if_pos hc]
        left
        simp [additionsNetHead, Prog.andThen, Prog.loadDef, hc, hne, nwCfgRead, hr,
          Prog.setErr, ErrIfKeyExists, Prog.val]
    · rcases hx : (E.executeOpts s.world (createNetReq (p.load s.opts) tenant net)).2
        with _ | e
      · refine ⟨?_, ?_⟩
        · simp [additionsNetHead, Prog.andThen, Prog.loadDef, hc, hne, nwCfgRead, hr,
            Prog.setErr, ErrIfKeyExists, Prog.val, Prog.setOpts, Prog.getOpts,
            executeOrReturn, executeOpts, postProcessing, hx]
          simpa [hc] using load_createNetReq p s.opts tenant net
        · unfold NetHeadSeg; rw [if_pos hc]
          right
          refine ⟨p.load s.opts, ?_⟩
          simp [additionsNetHead, Prog.andThen, Prog.loadDef, hc, hne, nwCfgRead, hr,
            Prog.setErr, ErrIfKeyExists, Prog.val, Prog.setOpts, Prog.getOpts,
            executeOrReturn, executeOpts, postProcessing, hx]
      · simp [additionsNetHead, Prog.andThen, Prog.loadDef, hc, hne, nwCfgRead, hr,
            Prog.setErr, ErrIfKeyExists, Prog.val, Prog.setOpts, Prog.getOpts,
            executeOrReturn, executeOpts, postProcessing, hx, Prog.retNamed] at h
    · simp [additionsNetHead, Prog.andThen, Prog.loadDef, hc, hne, nwCfgRead, hr,
          Prog.setErr, ErrIfKeyExists, Prog.val, Prog.fatal] at h
  · rcases hx : (E.executeOpts s.world (createNetReq (p.load s.opts) tenant net)).2
      with _ | e
    · refine ⟨?_, ?_⟩
      · simp [additionsNetHead, Prog.andThen, Prog.loadDef, hc, hne,
            Prog.setErr, ErrIfKeyExists, Prog.val, Prog.setOpts, Prog.getOpts,
            executeOrReturn, executeOpts, postProcessing, hx]
        simpa [hc] using load_createNetReq p s.opts tenant net
      · unfold NetHeadSeg; rw [if_neg hc]
        refine ⟨p.load s.opts, ?_⟩
        simp [additionsNetHead, Prog.andThen, Prog.loadDef, hc, hne,
            Prog.setErr, ErrIfKeyExists, Prog.val, Prog.setOpts, Prog.getOpts,
            executeOrReturn, executeOpts, postProcessing, hx]
    · simp [additionsNetHead, Prog.andThen, Prog.loadDef, hc, hne,
            Prog.setErr, ErrIfKeyExists, Prog.val, Prog.setOpts, Prog.getOpts,
            executeOrReturn, executeOpts, postProcessing, hx, Prog.retNamed] at h

theorem additionsTenantHead_val (E : Env W) (p : OptsPtr) (tenant : ConfigTenantJson)
    (s : PState W) (h : (additionsTenantHead E p tenant s).ctl = Ctl.val ()) :
    (p.load (additionsTenantHead E p tenant s).st.opts).cfgAdditions =
        (p.load s.opts).cfgAdditions ∧
      TenantHeadSeg (p.load s.opts).cfgAdditions tenant
        (additionsTenantHead E p tenant s).trace := by
  by_cases hc : (p.load s.opts).cfgAdditions = true ∧ tenant.Networks ≠ []
  · rcases hr : E.gcfgRead s.world tenant.Name with _ | (_ | msg)
    · refine ⟨?_, ?_⟩
      · simp [additionsTenantHead, Prog.andThen, Prog.loadDef, hc, gcfgRead, hr,
          Prog.setErr, ErrIfKeyExists, Prog.val]
      · unfold TenantHeadSeg; rw [if_pos hc]
        left
        simp [additionsTenantHead, Prog.andThen, Prog.loadDef, hc, gcfgRead, hr,
          Prog.setErr, ErrIfKeyExists, Prog.val]
    · rcases hx : (E.executeOpts s.world (createTenantReq (p.load s.opts) tenant)).2
        with _ | e
      · refine ⟨?_, ?_⟩
        · simp [additionsTenantHead, Prog.andThen, Prog.loadDef, hc, gcfgRead, hr,
            Prog.setErr, ErrIfKeyExists, Prog.val, executeOrReturn, executeOpts, hx]
        · unfold TenantHeadSeg; rw [if_pos hc]
          right
          refine ⟨p.load s.opts, ?_⟩
          simp [additionsTenantHead, Prog.andThen, Prog.loadDef, hc, gcfgRead, hr,
            Prog.setErr, ErrIfKeyExists, Prog.val, executeOrReturn, executeOpts, hx]
      · simp [additionsTenantHead, Prog.andThen, Prog.loadDef, hc, gcfgRead, hr,
            Prog.setErr, ErrIfKeyExists, Prog.val, executeOrReturn, executeOpts, hx,
            Prog.retNamed] at h
    · simp [additionsTenantHead, Prog.andThen, Prog.loadDef, hc, gcfgRead, hr,
          Prog.setErr, ErrIfKeyExists, Prog.val, Prog.fatal] at h
  · have hc' : ¬((p.load s.opts).cfgAdditions = true ∧ ¬tenant.Networks = []) := hc
    rcases hx : (E.executeOpts s.world (createTenantReq (p.load s.opts) tenant)).2
      with _ | e
    · refine ⟨?_, ?_⟩
      · simp [additionsTenantHead, Prog.andThen, Prog.loadDef, hc',
            Prog.setErr, ErrIfKeyExists, Prog.val, executeOrReturn, executeOpts, hx]
      · unfold TenantHeadSeg; rw [if_neg hc]
        refine ⟨p.load s.opts, ?_⟩
        simp [additionsTenantHead, Prog.andThen, Prog.loadDef, hc',
            Prog.setErr, ErrIfKeyExists, Prog.val, executeOrReturn, executeOpts, hx]
    · simp [additionsTenantHead, Prog.andThen, Prog.loadDef, hc',
            Prog.setErr, ErrIfKeyExists, Prog.val, executeOrReturn, executeOpts, hx,
            Prog.retNamed] at h

theorem additionsNet_val (E : Env W) (p : OptsPtr) (tenant : ConfigTenantJson)
    (net : ConfigNetworkJson) (hne : tenant.Networks ≠ []) (s : PState W)
    (h : (additionsNet E p tenant net s).ctl = Ctl.val ()) :
    (p.load (additionsNet E p tenant net s).st.opts).cfgAdditions =
        (p.load s.opts).cfgAdditions ∧
      NetSeg (p.load s.opts).cfgAdditions tenant net (additionsNet E p tenant net s).trace := by
  unfold additionsNet at h ⊢
  simp only [Prog.bind_eq] at h ⊢
  obtain ⟨a, h1, h2, h3, h4⟩ := andThen_val_inv h
  obtain ⟨hI1, hhead⟩ := additionsNetHead_val E p tenant net hne s h1
  obtain ⟨hI2, segs, hsegs, hall⟩ := forRange_segments
    (fun s' => (p.load s'.opts).cfgAdditions = (p.load s.opts).cfgAdditions) (EpSeg net)
    net.Endpoints
    (fun ep _ s' hs' hv => ⟨(additionsEp_val E p net ep s' hv).1.trans hs',
      (additionsEp_val E p net ep s' hv).2⟩) _ hI1 h2
  exact ⟨by rw [h4]; exact hI2, _, segs, by rw [h3, hsegs], hhead, hall⟩

theorem additionsTenant_val (E : Env W) (p : OptsPtr) (tenant : ConfigTenantJson)
    (s : PState W) (h : (additionsTenant E p tenant s).ctl = Ctl.val ()) :
    (p.load (additionsTenant E p tenant s).st.opts).cfgAdditions =
        (p.load s.opts).cfgAdditions ∧
      TenantSeg (p.load s.opts).cfgAdditions tenant (additionsTenant E p tenant s).trace := by
  unfold additionsTenant at h ⊢
  simp only [Prog.bind_eq] at h ⊢
  obtain ⟨a, h1, h2, h3, h4⟩ := andThen_val_inv h
  obtain ⟨hI1, hhead⟩ := additionsTenantHead_val E p tenant s h1
  obtain ⟨hI2, segs, hsegs, hall⟩ := forRange_segments
    (fun s' => (p.load s'.opts).cfgAdditions = (p.load s.opts).cfgAdditions)
    (NetSeg (p.load s.opts).cfgAdditions tenant) tenant.Networks
    (fun net hnet s' hs' hv => by
      have hne : tenant.Networks ≠ [] := List.ne_nil_of_mem hnet
      have := additionsNet_val E p tenant net hne s' hv
      exact ⟨this.1.trans hs', hs' ▸ this.2⟩) _ hI1 h2
  exact ⟨by rw [h4]; exact hI2, _, segs, by rw [h3, hsegs], hhead, hall⟩

theorem processAdditions_init_failed (E : Env W) (allCfg : ConfigJson) (p : OptsPtr)
    (s : PState W) (e : GoError) (hi : E.Init s.world (p.load s.opts).etcdUrl = some e) :
    (processAdditions E allCfg p s).ctl = Ctl.fatal := by
  simp [processAdditions, Prog.func, processAdditionsBody, additionsInit, Prog.andThen, initEtcd,
    hi, Prog.setErr, Prog.fatal]

theorem processAdditions_of_loop (E : Env W) (allCfg : ConfigJson) (p : OptsPtr)
    (s : PState W) (hi : E.Init s.world (p.load s.opts).etcdUrl = none)
    (t : List Event) (s1 : PState W) (c : Ctl Unit)
    (hl : Prog.forRange allCfg.Tenants (additionsTenant E p) { s with err := none } =
      ⟨t, s1, c⟩) :
    (processAdditions E allCfg p s).trace = Event.initEtcd (p.load s.opts).etcdUrl none :: t ∧
    (processAdditions E allCfg p s).ctl =
      (match c with
        | Ctl.val _ => Ctl.val s1.err
        | Ctl.ret e => Ctl.val e
        | Ctl.fatal => Ctl.fatal) := by
  cases c <;>
    simp [processAdditions, Prog.func, processAdditionsBody, additionsInit, Prog.andThen,
      initEtcd, hi, Prog.setErr, Prog.val, hl, Prog.retNamed]

/-- A run of `processAdditions` that returns `nil` has the shape `AdditionsTrace`. -/
theorem processAdditions_shape (E : Env W) (allCfg : ConfigJson) (p : OptsPtr) (s : PState W)
    (h : (processAdditions E allCfg p s).ctl = Ctl.val none) :
    AdditionsTrace (p.load s.opts).cfgAdditions (p.load s.opts).etcdUrl allCfg
      (processAdditions E allCfg p s).trace := by
  rcases hi : E.Init s.world (p.load s.opts).etcdUrl with _ | e
  swap
  · rw [processAdditions_init_failed E allCfg p s e hi] at h
    simp at h
  rcases hl : Prog.forRange allCfg.Tenants (additionsTenant E p) { s with err := none }
    with ⟨t, s1, c⟩
  obtain ⟨htr, hctl⟩ := processAdditions_of_loop E allCfg p s hi t s1 c hl
  rw [hctl] at h
  rw [htr]
  cases c with
  | val a =>
    have hv : (Prog.forRange allCfg.Tenants (additionsTenant E p) { s with err := none }).ctl =
        Ctl.val () := by rw [hl]
    obtain ⟨-, segs, hsegs, hall⟩ := forRange_segments
      (fun s' => (p.load s'.opts).cfgAdditions = (p.load s.opts).cfgAdditions)
      (TenantSeg (p.load s.opts).cfgAdditions) allCfg.Tenants
      (fun tenant _ s' hs' hv => by
        have := additionsTenant_val E p tenant s' hv
        exact ⟨this.1.trans hs', hs' ▸ this.2⟩) { s with err := none } rfl hv
    rw [hl] at hsegs
    exact ⟨segs, by rw [← hsegs], hall⟩
  | ret e =>
    simp only [Ctl.val.injEq] at h
    subst h
    rcases failFast_forRange (failFast_additionsTenant E p) allCfg.Tenants
      { s with err := none } rfl with ⟨-, -, -, hret⟩ | ⟨pre, v, err, rest, hc, -⟩
    · rw [hl] at hret
      exact absurd rfl (hret none)
    · rw [hl] at hc
      simp at hc
  | fatal => simp at h


/-! ## Projections of the shape -/

theorem flatten_proj {γ : Type} (proj : List Event → List γ) (hnil : proj [] = [])
    (happ : ∀ a b, proj (a ++ b) = proj a ++ proj b) {R : α → List Event → Prop}
    (f : α → List γ) (hR : ∀ x seg, R x seg → proj seg = f x) {xs : List α}
    {segs : List (List Event)} (h : List.Forall₂ R xs segs) :
    proj segs.flatten = xs.flatMap f := by
  induction h with
  | nil => simpa using hnil
  | cons hx _ ih => simp [happ, hR _ _ hx, ih]

theorem flatMap_single {γ : Type} (g : α → γ) (xs : List α) :
    (xs.flatMap fun x => [g x]) = xs.map g := by
  induction xs with
  | nil => rfl
  | cons x rest ih => simp [List.flatMap_cons, ih]

theorem ops_append (a b : List Event) : ops (a ++ b) = ops a ++ ops b := by
  simp [ops, execReqs_append]

theorem epCreateIds_append (a b : List Event) :
    epCreateIds (a ++ b) = epCreateIds a ++ epCreateIds b := by
  simp [epCreateIds, ops_append]

theorem epCreateIds_epSeg {net : ConfigNetworkJson} {ep : ConfigEpJson} {seg : List Event}
    (h : EpSeg net ep seg) : epCreateIds seg = [getEpName net ep] := by
  obtain ⟨d, rfl⟩ := h
  simp [epCreateIds, ops, execReqs, opOf, createEpReq]

theorem epCreateIds_netSeg {idem : Bool} {tenant : ConfigTenantJson} {net : ConfigNetworkJson}
    {seg : List Event} (h : NetSeg idem tenant net seg) :
    epCreateIds seg = net.Endpoints.map fun ep => getEpName net ep := by
  obtain ⟨head, epsegs, rfl, hhead, heps⟩ := h
  have h1 : epCreateIds head = [] := by
    unfold NetHeadSeg at hhead
    split at hhead
    · rcases hhead with rfl | ⟨d, rfl⟩ <;>
        simp [epCreateIds, ops, execReqs, opOf, createNetReq]
    · obtain ⟨d, rfl⟩ := hhead
      simp [epCreateIds, ops, execReqs, opOf, createNetReq]
  have h2 := flatten_proj epCreateIds rfl epCreateIds_append
    (fun ep => [getEpName net ep]) (fun _ _ h => epCreateIds_epSeg h) heps
  rw [epCreateIds_append, h1, h2, flatMap_single]
  simp

theorem epCreateIds_tenantSeg {idem : Bool} {tenant : ConfigTenantJson} {seg : List Event}
    (h : TenantSeg idem tenant seg) :
    epCreateIds seg =
      tenant.Networks.flatMap fun net => net.Endpoints.map fun ep => getEpName net ep := by
  obtain ⟨head, nsegs, rfl, hhead, hnets⟩ := h
  have h1 : epCreateIds head = [] := by
    unfold TenantHeadSeg at hhead
    split at hhead
    · rcases hhead with rfl | ⟨d, rfl⟩ <;>
        simp [epCreateIds, ops, execReqs, opOf, createTenantReq]
    · obtain ⟨d, rfl⟩ := hhead
      simp [epCreateIds, ops, execReqs, opOf, createTenantReq]
  have h2 := flatten_proj epCreateIds rfl epCreateIds_append _
    (fun _ _ h => epCreateIds_netSeg h) hnets
  rw [epCreateIds_append, h1, h2]
  simp

theorem ops_netSeg {tenant : ConfigTenantJson} {net : ConfigNetworkJson}
    {seg : List Event} (h : NetSeg false tenant net seg) :
    ops seg = ⟨Construct.CLI_CONSTRUCT_NW, Oper.CLI_OPER_CREATE, net.Name⟩ ::
      net.Endpoints.map fun ep =>
        ⟨Construct.CLI_CONSTRUCT_EP, Oper.CLI_OPER_CREATE, getEpName net ep⟩ := by
  obtain ⟨head, epsegs, rfl, hhead, heps⟩ := h
  have h1 : ops head = [⟨Construct.CLI_CONSTRUCT_NW, Oper.CLI_OPER_CREATE, net.Name⟩] := by
    unfold NetHeadSeg at hhead
    simp only [Bool.false_eq_true, if_false] at hhead
    obtain ⟨d, rfl⟩ := hhead
    simp [ops, execReqs, opOf, createNetReq]
  have h2 := flatten_proj ops rfl ops_append
    (fun ep => [⟨Construct.CLI_CONSTRUCT_EP, Oper.CLI_OPER_CREATE, getEpName net ep⟩])
    (fun ep seg (h : EpSeg net ep seg) => by
      obtain ⟨d, rfl⟩ := h
      simp [ops, execReqs, opOf, createEpReq]) heps
  rw [ops_append, h1, h2, flatMap_single]
  simp

theorem ops_tenantSeg {tenant : ConfigTenantJson} {seg : List Event}
    (h : TenantSeg false tenant seg) :
    ops seg = ⟨Construct.CLI_CONSTRUCT_GLOBAL, Oper.CLI_OPER_CREATE, tenant.Name⟩ ::
      tenant.Networks.flatMap fun net =>
        ⟨Construct.CLI_CONSTRUCT_NW, Oper.CLI_OPER_CREATE, net.Name⟩ ::
          net.Endpoints.map fun ep =>
            ⟨Construct.CLI_CONSTRUCT_EP, Oper.CLI_OPER_CREATE, getEpName net ep⟩ := by
  obtain ⟨head, nsegs, rfl, hhead, hnets⟩ := h
  have h1 : ops head = [⟨Construct.CLI_CONSTRUCT_GLOBAL, Oper.CLI_OPER_CREATE, tenant.Name⟩] := by
    unfold TenantHeadSeg at hhead
    simp only [Bool.false_eq_true, false_and, if_false] at hhead
    obtain ⟨d, rfl⟩ := hhead
    simp [ops, execReqs, opOf, createTenantReq]
  have h2 := flatten_proj ops rfl ops_append _ (fun _ _ h => ops_netSeg h) hnets
  rw [ops_append, h1, h2]
  simp

theorem noFail_iff (t : List Event) :
    NoFail t ↔ ((execCalls t).all fun c => c.2.isNone) = true := by
  constructor
  · intro h
    rw [List.all_eq_true]
    rintro ⟨v, res⟩ hmem
    have := mem_of_mem_execCalls hmem
    cases res with
    | none => rfl
    | some e => exact absurd this (h v e)
  · intro h v e hmem
    rw [List.all_eq_true] at h
    have : (v, some e) ∈ execCalls t :=
      List.mem_filterMap.2 ⟨Event.exec v (some e), hmem, rfl⟩
    simpa using h _ this

/-! ## Runs with idempotency mode off over an executor that never fails -/

theorem neverFail_eq (E : Env W) (h : ∀ w r, (E.executeOpts w r).2 = none) :
    neverFail E = E := by
  cases E with
  | mk a b c d e f g x =>
    simp only [neverFail, Env.mk.injEq, true_and]
    funext w r
    exact Prod.ext rfl (h w r).symm

theorem noFail_of_failFastBody_self {m : Prog W Unit} (h : FailFastBody m m) (s : PState W)
    (hs : s.err = none) :
    NoFail (m s).trace ∧ ((m s).ctl = Ctl.ret none ∨ (m s).ctl = Ctl.fatal) := by
  rcases h s hs with ⟨-, hnf, hret, hval⟩ | ⟨pre, v, err, rest, -, htr, -, htr'⟩
  · refine ⟨hnf, ?_⟩
    rcases hc : (m s).ctl with a | e | _
    · exact absurd hc (hval a)
    · left; rw [hret e hc]
    · right; rfl
  · rw [htr] at htr'
    have := List.append_cancel_left htr'
    simp at this

theorem andThen_ne_fatal {m : Prog W α} {f : α → Prog W β} {s : PState W}
    (hm : (m s).ctl ≠ Ctl.fatal)
    (hf : ∀ a, (m s).ctl = Ctl.val a → (f a (m s).st).ctl ≠ Ctl.fatal) :
    (Prog.andThen m f s).ctl ≠ Ctl.fatal := by
  rcases hms : m s with ⟨t, s1, c⟩
  rw [hms] at hm hf
  cases c with
  | val a =>
    have := hf a rfl
    rcases hfs : f a s1 with ⟨t2, s2, c2⟩
    rw [hfs] at this
    simpa [Prog.andThen, hms, hfs] using this
  | ret e => simp [Prog.andThen, hms]
  | fatal => exact absurd rfl hm

theorem forRange_ne_fatal {body : α → Prog W Unit} (I : PState W → Prop) (xs : List α)
    (hbody : ∀ x ∈ xs, ∀ s, I s → (body x s).ctl ≠ Ctl.fatal ∧
      ((body x s).ctl = Ctl.val () → I (body x s).st)) :
    ∀ s, I s → (Prog.forRange xs body s).ctl ≠ Ctl.fatal := by
  induction xs with
  | nil => intro s _; simp [Prog.forRange, Prog.val]
  | cons x rest ih =>
    intro s hI
    simp only [Prog.forRange]
    have hx := hbody x (List.mem_cons_self _ _) s hI
    exact andThen_ne_fatal hx.1 fun _ hv =>
      ih (fun y hy => hbody y (List.mem_cons_of_mem _ hy)) _ (hx.2 hv)

theorem additionsNetHead_ne_fatal (E : Env W) (p : OptsPtr) (tenant : ConfigTenantJson)
    (net : ConfigNetworkJson) (s : PState W) (hoff : (p.load s.opts).cfgAdditions = false) :
    (additionsNetHead E p tenant net s).ctl ≠ Ctl.fatal := by
  rcases hx : (E.executeOpts s.world (createNetReq (p.load s.opts) tenant net)).2 with _ | e <;>
    simp [additionsNetHead, Prog.andThen, Prog.loadDef, hoff, Prog.val, Prog.setOpts,
      Prog.getOpts, executeOrReturn, executeOpts, Prog.setErr, postProcessing, hx,
      Prog.retNamed]

theorem additionsTenantHead_ne_fatal (E : Env W) (p : OptsPtr) (tenant : ConfigTenantJson)
    (s : PState W) (hoff : (p.load s.opts).cfgAdditions = false) :
    (additionsTenantHead E p tenant s).ctl ≠ Ctl.fatal := by
  rcases hx : (E.executeOpts s.world (createTenantReq (p.load s.opts) tenant)).2 with _ | e <;>
    simp [additionsTenantHead, Prog.andThen, Prog.loadDef, hoff, Prog.val,
      executeOrReturn, executeOpts, Prog.setErr, hx, Prog.retNamed]

theorem noFatal_additionsEp (E : Env W) (p : OptsPtr) (net : ConfigNetworkJson)
    (ep : ConfigEpJson) : NoFatal (additionsEp E p net ep) := by
  unfold additionsEp
  simp only [Prog.bind_eq]
  exact noFatal_execBlock E p _

theorem additionsNet_ne_fatal (E : Env W) (p : OptsPtr) (tenant : ConfigTenantJson)
    (net : ConfigNetworkJson) (s : PState W) (hoff : (p.load s.opts).cfgAdditions = false) :
    (additionsNet E p tenant net s).ctl ≠ Ctl.fatal := by
  unfold additionsNet
  simp only [Prog.bind_eq]
  exact andThen_ne_fatal (additionsNetHead_ne_fatal E p tenant net s hoff) fun _ _ =>
    noFatal_forRange (noFatal_additionsEp E p net) _ _

theorem additionsTenant_ne_fatal (E : Env W) (p : OptsPtr) (tenant : ConfigTenantJson)
    (s : PState W) (hoff : (p.load s.opts).cfgAdditions = false) :
    (additionsTenant E p tenant s).ctl ≠ Ctl.fatal := by
  unfold additionsTenant
  simp only [Prog.bind_eq]
  refine andThen_ne_fatal (additionsTenantHead_ne_fatal E p tenant s hoff) fun _ hv => ?_
  have hoff' := (additionsTenantHead_val E p tenant s hv).1.trans hoff
  exact forRange_ne_fatal (fun s' => (p.load s'.opts).cfgAdditions = false) _
    (fun net hnet s' hs' => ⟨additionsNet_ne_fatal E p tenant net s' hs', fun hv' =>
      (additionsNet_val E p tenant net (List.ne_nil_of_mem hnet) s' hv').1.trans hs'⟩) _ hoff'

/-- With idempotency mode off, the store reached and an executor that never fails,
`processAdditions` returns `nil`. -/
theorem processAdditions_returns_nil (E : Env W) (allCfg : ConfigJson) (p : OptsPtr)
    (s : PState W) (hinit : E.Init s.world (p.load s.opts).etcdUrl = none)
    (hoff : (p.load s.opts).cfgAdditions = false)
    (hexec : ∀ w r, (E.executeOpts w r).2 = none) :
    (processAdditions E allCfg p s).ctl = Ctl.val none := by
  have hFB := failFastBody_processAdditions E allCfg p
  rw [neverFail_eq E hexec] at hFB
  have hloop : (Prog.forRange allCfg.Tenants (additionsTenant E p)
      { s with err := none }).ctl ≠ Ctl.fatal :=
    forRange_ne_fatal (fun s' => (p.load s'.opts).cfgAdditions = false) _
      (fun tenant _ s' hs' => ⟨additionsTenant_ne_fatal E p tenant s' hs', fun hv =>
        (additionsTenant_val E p tenant s' hv).1.trans hs'⟩) _ hoff
  have hA := (failFast_func hFB s).2
  rcases hl : Prog.forRange allCfg.Tenants (additionsTenant E p) { s with err := none }
    with ⟨t, s1, c⟩
  obtain ⟨-, hctl⟩ := processAdditions_of_loop E allCfg p s hinit t s1 c hl
  have hnf := (noFail_of_failFastBody_self hFB { s with err := none } rfl).1
  have hnf' : NoFail (processAdditions E allCfg p s).trace := by
    unfold processAdditions Prog.func
    rcases hb : processAdditionsBody E allCfg p { s with err := none } with ⟨t', s', c'⟩
    rw [hb] at hnf
    cases c' <;> exact hnf
  rcases (hA hnf').2 with h | h
  · exact h
  · change (processAdditions E allCfg p s).ctl = Ctl.fatal at h
    rw [hctl] at h
    cases c with
    | val a => simp at h
    | ret e => simp at h
    | fatal => exact absurd (by rw [hl]) hloop

/-- C6: with idempotency mode off, the store reached and an executor that never fails,
`processAdditions` hands the executor exactly the creates of the document walked in order
(`additionsWalk`: each tenant, then each of its networks followed by that network's
endpoints under their `getEpName` identifiers) and returns `nil`. -/
theorem processAdditions_walks_document (E : Env W) (allCfg : ConfigJson) (defOpts : OptsPtr)
    (s : PState W) (hinit : E.Init s.world (defOpts.load s.opts).etcdUrl = none)
    (hoff : (defOpts.load s.opts).cfgAdditions = false)
    (hexec : ∀ w r, (E.executeOpts w r).2 = none) :
    ops (processAdditions E allCfg defOpts s).trace = additionsWalk allCfg ∧
      (processAdditions E allCfg defOpts s).ctl = Ctl.val none := by
  have hret := processAdditions_returns_nil E allCfg defOpts s hinit hoff hexec
  obtain ⟨segs, htr, hall⟩ := processAdditions_shape E allCfg defOpts s hret
  rw [hoff] at hall
  refine ⟨?_, hret⟩
  have h := flatten_proj ops rfl ops_append _ (fun _ _ h => ops_tenantSeg h) hall
  rw [htr]
  have hcons : ops (Event.initEtcd (defOpts.load s.opts).etcdUrl none :: segs.flatten) =
      ops segs.flatten := by simp [ops, execReqs]
  rw [hcons, h]
  rfl

/-- Witness for C6: one tenant `t1` with network `n1` and the endpoint of container `c1` on
`hostA`: create tenant `t1`, create network `n1`, create endpoint `n1-c1`. -/
theorem processAdditions_walks_document_witness :
    ops (processAdditions (exEnv ([], none) ([], none) ([], none) [] [] none)
        ⟨[⟨"t1", "vlan", "", 0, "", "", [⟨"n1", "", [⟨"c1", "hostA", ""⟩]⟩]⟩]⟩
        (OptsPtr.other exOpts) exState).trace =
      [⟨Construct.CLI_CONSTRUCT_GLOBAL, Oper.CLI_OPER_CREATE, "t1"⟩,
       ⟨Construct.CLI_CONSTRUCT_NW, Oper.CLI_OPER_CREATE, "n1"⟩,
       ⟨Construct.CLI_CONSTRUCT_EP, Oper.CLI_OPER_CREATE, "n1-c1"⟩] :=
  (processAdditions_walks_document (exEnv ([], none) ([], none) ([], none) [] [] none)
    ⟨[⟨"t1", "vlan", "", 0, "", "", [⟨"n1", "", [⟨"c1", "hostA", ""⟩]⟩]⟩]⟩
    (OptsPtr.other exOpts) exState rfl rfl (fun _ _ => rfl)).1

/-- C7: a run of `processAdditions` without executor failure and without `log.Fatalf` has
the shape `AdditionsTrace`: for each tenant in document order, with idempotency mode on and
at least one network the tenant is read and the create is issued exactly when the read did
not find it, otherwise the create is issued without a read; then, whether or not the tenant
was created, each of its networks in order: with the mode on the network is read and created
exactly when the read did not find it, with the mode off it is created without a read; each
network is followed by the creates of its endpoints. -/
theorem processAdditions_idempotency (E : Env W) (allCfg : ConfigJson) (defOpts : OptsPtr)
    (s : PState W) (hnf : NoFail (processAdditions E allCfg defOpts s).trace)
    (hfatal : (processAdditions E allCfg defOpts s).ctl ≠ Ctl.fatal) :
    AdditionsTrace (defOpts.load s.opts).cfgAdditions (defOpts.load s.opts).etcdUrl allCfg
      (processAdditions E allCfg defOpts s).trace := by
  have hA := (failFast_func (failFastBody_processAdditions E allCfg defOpts) s).2 hnf
  rcases hA.2 with h | h
  · exact processAdditions_shape E allCfg defOpts s h
  · exact absurd h hfatal

/-- Witness for C7: idempotency mode on, tenant `t1` in the store and network `n1` not: the
tenant is read and not created, the network is read and created, the endpoint is created. -/
theorem processAdditions_idempotency_witness :
    (processAdditions (exEnv ([], none) ([], none) ([], none) ["t1"] [] none) exCfg
        (OptsPtr.other exOptsIdem) exState).trace =
      [Event.initEtcd "http://127.0.0.1:4001" none, Event.readTenant "t1" none,
        Event.readNet "n1" (some GoError.keyNotFound),
        Event.exec (createNetReq exOptsIdem ⟨"t1", "vlan", "", 0, "", "", []⟩ ⟨"n1", "", []⟩)
          none,
        Event.wait,
        Event.exec (createEpReq exOptsIdem ⟨"n1", "", []⟩ ⟨"c2", "hostA", ""⟩) none,
        Event.wait] ∧
    AdditionsTrace true "http://127.0.0.1:4001" exCfg
      (processAdditions (exEnv ([], none) ([], none) ([], none) ["t1"] [] none) exCfg
        (OptsPtr.other exOptsIdem) exState).trace :=
  ⟨by decide,
   processAdditions_idempotency (exEnv ([], none) ([], none) ([], none) ["t1"] [] none) exCfg
    (OptsPtr.other exOptsIdem) exState ((noFail_iff _).2 (by decide)) (by decide)⟩

/-- C8: in every run of `processAdditions` without executor failure and without
`log.Fatalf`, the endpoint creates handed to the executor are exactly one per desired
endpoint, in document order, under the identifier `getEpName net ep`; hence two such runs
over the same document issue the same endpoint creates, whatever the idempotency mode, the
store and the executor of each. -/
theorem processAdditions_endpoints_unconditional (E E' : Env W) (allCfg : ConfigJson)
    (defOpts defOpts' : OptsPtr) (s s' : PState W)
    (hnf : NoFail (processAdditions E allCfg defOpts s).trace)
    (hfatal : (processAdditions E allCfg defOpts s).ctl ≠ Ctl.fatal)
    (hnf' : NoFail (processAdditions E' allCfg defOpts' s').trace)
    (hfatal' : (processAdditions E' allCfg defOpts' s').ctl ≠ Ctl.fatal) :
    epCreateIds (processAdditions E allCfg defOpts s).trace = desiredEpIds allCfg ∧
      epCreateIds (processAdditions E' allCfg defOpts' s').trace =
        epCreateIds (processAdditions E allCfg defOpts s).trace := by
  have key : ∀ (E : Env W) (p : OptsPtr) (s : PState W),
      NoFail (processAdditions E allCfg p s).trace →
      (processAdditions E allCfg p s).ctl ≠ Ctl.fatal →
      epCreateIds (processAdditions E allCfg p s).trace = desiredEpIds allCfg := by
    intro E p s hnf hfatal
    have hA := (failFast_func (failFastBody_processAdditions E allCfg p) s).2 hnf
    rcases hA.2 with h | h
    swap
    · exact absurd h hfatal
    obtain ⟨segs, htr, hall⟩ := processAdditions_shape E allCfg p s h
    have h2 := flatten_proj epCreateIds rfl epCreateIds_append _
      (fun _ _ h => epCreateIds_tenantSeg h) hall
    rw [htr]
    have hcons : epCreateIds (Event.initEtcd (p.load s.opts).etcdUrl none :: segs.flatten) =
        epCreateIds segs.flatten := by simp [epCreateIds, ops, execReqs]
    rw [hcons, h2]
    rfl
  rw [key E defOpts s hnf hfatal, key E' defOpts' s' hnf' hfatal']
  exact ⟨rfl, rfl⟩

/-- Witness for C8: the document `t1 / n1 / c2`, once with idempotency mode off over an
empty store, once with the mode on over a store that holds `t1` and `n1`: both runs create
the endpoint `n1-c2`. -/
theorem processAdditions_endpoints_unconditional_witness :
    epCreateIds (processAdditions (exEnv ([], none) ([], none) ([], none) [] [] none) exCfg
        (OptsPtr.other exOpts) exState).trace = ["n1-c2"] ∧
      epCreateIds (processAdditions (exEnv ([], none) ([], none) ([], none) ["t1"] ["n1"] none)
        exCfg (OptsPtr.other exOptsIdem) exState).trace =
      epCreateIds (processAdditions (exEnv ([], none) ([], none) ([], none) [] [] none) exCfg
        (OptsPtr.other exOpts) exState).trace :=
  processAdditions_endpoints_unconditional
    (exEnv ([], none) ([], none) ([], none) [] [] none)
    (exEnv ([], none) ([], none) ([], none) ["t1"] ["n1"] none) exCfg
    (OptsPtr.other exOpts) (OptsPtr.other exOptsIdem) exState exState
    ((noFail_iff _).2 (by decide)) (by decide) ((noFail_iff _).2 (by decide)) (by decide)

/-- C10 fails on the code: for the document `t1 / n1 / c2` with idempotency mode off and an
executor that accepts everything, the accepted tenant create is followed at once by the
network create; waits follow only the network create and the endpoint create. -/
theorem processAdditions_no_wait_after_tenant_create :
    (processAdditions (exEnv ([], none) ([], none) ([], none) [] [] none) exCfg
        (OptsPtr.other exOpts) exState).trace =
      [Event.initEtcd "http://127.0.0.1:4001" none,
        Event.exec (createTenantReq exOpts ⟨"t1", "vlan", "", 0, "", "", []⟩) none,
        Event.exec (createNetReq exOpts ⟨"t1", "vlan", "", 0, "", "", []⟩ ⟨"n1", "", []⟩) none,
        Event.wait,
        Event.exec (createEpReq exOpts ⟨"n1", "", []⟩ ⟨"c2", "hostA", ""⟩) none,
        Event.wait] := by
  decide


/-! ## Derived endpoint identifiers -/

theorem append_sep_inj {c : Char} :
    ∀ (l1 l2 r1 r2 : List Char), c ∉ l1 → c ∉ l2 → l1 ++ c :: r1 = l2 ++ c :: r2 →
      l1 = l2 ∧ r1 = r2 := by
  intro l1
  induction l1 with
  | nil =>
    intro l2 r1 r2 _ h2 h
    cases l2 with
    | nil => simpa using h
    | cons b l2 =>
      simp only [List.nil_append, List.cons_append, List.cons.injEq] at h
      exact absurd (by simp [h.1]) h2
  | cons a l1 ih =>
    intro l2 r1 r2 h1 h2 h
    cases l2 with
    | nil =>
      simp only [List.nil_append, List.cons_append, List.cons.injEq] at h
      exact absurd (by simp [h.1]) h1
    | cons b l2 =>
      simp only [List.cons_append, List.cons.injEq] at h
      obtain ⟨rfl, h⟩ := h
      have := ih l2 r1 r2 (fun hm => h1 (List.mem_cons_of_mem _ hm))
        (fun hm => h2 (List.mem_cons_of_mem _ hm)) h
      exact ⟨by rw [this.1], this.2⟩

/-- C18: `getEpName` is not collision-free.  For endpoints without a container name the
identifier depends on the host alone: any two networks and any two such endpoints with the
same host get the same identifier; networks `n1` and `n2` with a container-less endpoint on
`hostA` each are an instance with different network names. -/
theorem getEpName_collides :
    (∀ (n1 n2 : ConfigNetworkJson) (e1 e2 : ConfigEpJson),
      e1.Container = "" → e2.Container = "" → e1.Host = e2.Host →
        getEpName n1 e1 = getEpName n2 e2) ∧
    (∃ (n1 n2 : ConfigNetworkJson) (e1 e2 : ConfigEpJson),
      n1.Name ≠ n2.Name ∧ e1.Container = "" ∧ e2.Container = "" ∧ e1.Host = e2.Host ∧
        getEpName n1 e1 = getEpName n2 e2) := by
  refine ⟨fun n1 n2 e1 e2 h1 h2 hh => by simp [getEpName, h1, h2, hh], ?_⟩
  exact ⟨⟨"n1", "", []⟩, ⟨"n2", "", []⟩, ⟨"", "hostA", ""⟩, ⟨"", "hostA", "eth1"⟩,
    by decide, rfl, rfl, rfl, by decide⟩

/-- C20: for endpoints with a container name, in networks whose names contain no `-`,
`getEpName` is injective in the pair (network name, container name).  Without the condition
on the names it is not: network `a-b` with container `c` and network `a` with container
`b-c` both give `a-b-c`. -/
theorem getEpName_injective (n1 n2 : ConfigNetworkJson) (e1 e2 : ConfigEpJson)
    (hc1 : e1.Container ≠ "") (hc2 : e2.Container ≠ "")
    (hn1 : '-' ∉ n1.Name.data) (hn2 : '-' ∉ n2.Name.data)
    (h : getEpName n1 e1 = getEpName n2 e2) :
    (n1.Name = n2.Name ∧ e1.Container = e2.Container) ∧
      getEpName ⟨"a-b", "", []⟩ ⟨"c", "", ""⟩ = getEpName ⟨"a", "", []⟩ ⟨"b-c", "", ""⟩ := by
  refine ⟨?_, by decide⟩
  simp only [getEpName, bne_iff_ne, ne_eq, hc1, hc2, not_false_eq_true, if_true] at h
  have hd := congrArg String.data h
  simp only [String.data_append] at hd
  rw [List.append_assoc, List.append_assoc] at hd
  have := append_sep_inj n1.Name.data n2.Name.data _ _ hn1 hn2 hd
  exact ⟨String.ext this.1, String.ext this.2⟩

/-- Witness for C20: networks `n1` and `n1` with containers `c1` and `c1`. -/
theorem getEpName_injective_witness :
    ("n1" = "n1" ∧ "c1" = "c1") ∧
      getEpName ⟨"a-b", "", []⟩ ⟨"c", "", ""⟩ = getEpName ⟨"a", "", []⟩ ⟨"b-c", "", ""⟩ :=
  getEpName_injective ⟨"n1", "", []⟩ ⟨"n1", "77", []⟩ ⟨"c1", "hostA", ""⟩ ⟨"c1", "hostB", ""⟩
    (by decide) (by decide) (by decide) (by decide) (by decide)


/-- C16: when a store listing of `deleteDelta` fails with an error other than key-not-found,
`deleteDelta` returns exactly that error; the requests handed to the executor are the stale
deletes of the kinds listed before, and none of the kind whose listing failed or of a later
kind. -/
theorem deleteDelta_listing_error (E : Env W) (allCfg : ConfigJson) (defOpts : OptsPtr)
    (s : PState W) (e : GoError) (he : e ≠ GoError.keyNotFound)
    (hinit : E.Init s.world (defOpts.load s.opts).etcdUrl = none) :
    (∀ keys, E.ReadRecursive s.world E.EP_CFG_PATH_PREFIX = (keys, some e) →
      execReqs (deleteDelta E allCfg defOpts s).trace = [] ∧
      (deleteDelta E allCfg defOpts s).ctl = Ctl.val (some e)) ∧
    (∀ keysE keys, E.ReadRecursive s.world E.EP_CFG_PATH_PREFIX = (keysE, none) →
      E.ReadRecursive
        (execAll E ((staleIds (epPresent allCfg) E.EP_CFG_PATH_PREFIX keysE).map
          (delEpReq (defOpts.load s.opts))) s.world)
        E.NW_CFG_PATH_PREFIX = (keys, some e) →
      execReqs (deleteDelta E allCfg defOpts s).trace =
        (staleIds (epPresent allCfg) E.EP_CFG_PATH_PREFIX keysE).map
          (delEpReq (defOpts.load s.opts)) ∧
      (deleteDelta E allCfg defOpts s).ctl = Ctl.val (some e)) ∧
    (∀ keysE keysN keys, E.ReadRecursive s.world E.EP_CFG_PATH_PREFIX = (keysE, none) →
      E.ReadRecursive
        (execAll E ((staleIds (epPresent allCfg) E.EP_CFG_PATH_PREFIX keysE).map
          (delEpReq (defOpts.load s.opts))) s.world)
        E.NW_CFG_PATH_PREFIX = (keysN, none) →
      E.ReadRecursive
        (execAll E ((staleIds (netPresent allCfg) E.NW_CFG_PATH_PREFIX keysN).map
            (delNetReq (defOpts.load s.opts)))
          (execAll E ((staleIds (epPresent allCfg) E.EP_CFG_PATH_PREFIX keysE).map
            (delEpReq (defOpts.load s.opts))) s.world))
        E.CFG_GLOBAL_PREFIX = (keys, some e) →
      execReqs (deleteDelta E allCfg defOpts s).trace =
        (staleIds (epPresent allCfg) E.EP_CFG_PATH_PREFIX keysE).map
            (delEpReq (defOpts.load s.opts)) ++
          (staleIds (netPresent allCfg) E.NW_CFG_PATH_PREFIX keysN).map
            (delNetReq (defOpts.load s.opts)) ∧
      (deleteDelta E allCfg defOpts s).ctl = Ctl.val (some e)) := by
  have h := deleteDelta_summary E allCfg defOpts s
  refine ⟨fun keys hE => ?_, fun keysE keys hE hN => ?_, fun keysE keysN keys hE hN hT => ?_⟩
  · simp only [deleteDeltaSummary, hinit, hE, Prod.mk.injEq] at h
    refine ⟨h.1, ?_⟩
    rw [h.2]
    cases e with
    | keyNotFound => exact absurd rfl he
    | other msg => rfl
  · simp only [deleteDeltaSummary, hinit, hE, hN, Prod.mk.injEq] at h
    exact h
  · simp only [deleteDeltaSummary, hinit, hE, hN, hT, Prod.mk.injEq] at h
    exact h

/-- Witness for C16: the endpoint listing holds the stale `n1-c1`, the network listing fails
with another error: the stale endpoint is deleted, the error comes back, and the stale
tenant `t9` is not touched. -/
theorem deleteDelta_listing_error_witness :
    execReqs (deleteDelta
        (exEnv (["/ep/n1-c1"], none) ([], some (GoError.other "timeout")) (["/gl/t9"], none)
          [] [] none)
        exCfg (OptsPtr.other exOpts) exState).trace = [delEpReq exOpts "n1-c1"] ∧
      (deleteDelta
        (exEnv (["/ep/n1-c1"], none) ([], some (GoError.other "timeout")) (["/gl/t9"], none)
          [] [] none)
        exCfg (OptsPtr.other exOpts) exState).ctl = Ctl.val (some (GoError.other "timeout")) :=
  (deleteDelta_listing_error
    (exEnv (["/ep/n1-c1"], none) ([], some (GoError.other "timeout")) (["/gl/t9"], none)
      [] [] none)
    exCfg (OptsPtr.other exOpts) exState (GoError.other "timeout") (by decide) rfl).2.1
    ["/ep/n1-c1"] [] rfl rfl

/-- C13 fails on the code: for two tenants without networks and an executor that accepts
everything, `processDeletions` hands over the delete of `t1` and at once the delete of `t2`,
and returns: no wait follows an accepted tenant delete. -/
theorem processDeletions_no_wait_after_tenant_delete :
    (processDeletions (exEnv ([], none) ([], none) ([], none) [] [] none) exCfgBare
        (OptsPtr.other exOpts) exState).trace =
      [Event.exec (deleteTenantReq exOpts ⟨"t1", "vlan", "", 0, "", "", []⟩) none,
        Event.exec (deleteTenantReq exOpts ⟨"t2", "vlan", "", 0, "", "", []⟩) none] ∧
    (processDeletions (exEnv ([], none) ([], none) ([], none) [] [] none) exCfgBare
        (OptsPtr.other exOpts) exState).ctl = Ctl.val none := by
  decide


/-! ## Runs of processDeletions -/

theorem deletionsEp_val (E : Env W) (p : OptsPtr) (net : ConfigNetworkJson) (ep : ConfigEpJson)
    (s : PState W) (h : (deletionsEp E p net ep s).ctl = Ctl.val ()) :
    DelEpSeg net ep (deletionsEp E p net ep s).trace := by
  rcases hx : (E.executeOpts s.world (deleteEpReq (p.load s.opts) net ep)).2 with _ | e
  · refine ⟨p.load s.opts, ?_⟩
    simp [deletionsEp, Prog.andThen, Prog.loadDef, Prog.setOpts, Prog.getOpts, executeOrReturn,
      executeOpts, Prog.setErr, Prog.val, postProcessing, hx]
  · simp [deletionsEp, Prog.andThen, Prog.loadDef, Prog.setOpts, Prog.getOpts, executeOrReturn,
      executeOpts, Prog.setErr, Prog.val, postProcessing, hx, Prog.retNamed] at h

theorem deletionsNet_val (E : Env W) (p : OptsPtr) (tenant : ConfigTenantJson)
    (net : ConfigNetworkJson) (s : PState W)
    (h : (deletionsNet E p tenant net s).ctl = Ctl.val ()) :
    DelNetSeg tenant net (deletionsNet E p tenant net s).trace := by
  unfold deletionsNet at h ⊢
  simp only [Prog.bind_eq, Prog.pure_eq] at h ⊢
  obtain ⟨a, h1, h2, h3, h4⟩ := andThen_val_inv h
  obtain ⟨-, segs, hsegs, hall⟩ := forRange_segments (fun _ => True) (DelEpSeg net)
    net.Endpoints (fun ep _ s' _ hv => ⟨trivial, deletionsEp_val E p net ep s' hv⟩) s trivial h1
  refine ⟨segs, _, by rw [h3, hsegs], hall, ?_⟩
  by_cases hne : net.Endpoints = []
  · rw [if_pos hne]
    generalize (Prog.forRange net.Endpoints (deletionsEp E p net) s).st = s1 at h2 ⊢
    rcases hx : (E.executeOpts s1.world (deleteNetReq (p.load s1.opts) tenant net)).2 with _ | e
    · refine ⟨p.load s1.opts, ?_⟩
      simp [hne, Prog.andThen, Prog.loadDef, Prog.setOpts, Prog.getOpts, executeOrReturn,
        executeOpts, Prog.setErr, Prog.val, postProcessing, hx]
    · simp [hne, Prog.andThen, Prog.loadDef, Prog.setOpts, Prog.getOpts, executeOrReturn,
        executeOpts, Prog.setErr, Prog.val, postProcessing, hx, Prog.retNamed] at h2
  · rw [if_neg hne]
    simp [hne, Prog.val]

theorem deletionsTenant_val (E : Env W) (p : OptsPtr) (tenant : ConfigTenantJson)
    (s : PState W) (h : (deletionsTenant E p tenant s).ctl = Ctl.val ()) :
    DelTenantSeg tenant (deletionsTenant E p tenant s).trace := by
  unfold deletionsTenant at h ⊢
  simp only [Prog.bind_eq, Prog.pure_eq] at h ⊢
  obtain ⟨a, h1, h2, h3, h4⟩ := andThen_val_inv h
  obtain ⟨-, segs, hsegs, hall⟩ := forRange_segments (fun _ => True) (DelNetSeg tenant)
    tenant.Networks (fun net _ s' _ hv => ⟨trivial, deletionsNet_val E p tenant net s' hv⟩)
    s trivial h1
  refine ⟨segs, _, by rw [h3, hsegs], hall, ?_⟩
  by_cases hne : tenant.Networks = []
  · rw [if_pos hne]
    generalize (Prog.forRange tenant.Networks (deletionsNet E p tenant) s).st = s1 at h2 ⊢
    rcases hx : (E.executeOpts s1.world (deleteTenantReq (p.load s1.opts) tenant)).2 with _ | e
    · refine ⟨p.load s1.opts, ?_⟩
      simp [hne, Prog.andThen, Prog.loadDef, executeOrReturn,
        executeOpts, Prog.setErr, Prog.val, hx]
    · simp [hne, Prog.andThen, Prog.loadDef, executeOrReturn,
        executeOpts, Prog.setErr, Prog.val, hx, Prog.retNamed] at h2
  · rw [if_neg hne]
    simp [hne, Prog.val]

/-- A run of `processDeletions` that returns `nil` has the shape `DeletionsTrace`. -/
theorem processDeletions_shape (E : Env W) (allCfg : ConfigJson) (p : OptsPtr) (s : PState W)
    (h : (processDeletions E allCfg p s).ctl = Ctl.val none) :
    DeletionsTrace allCfg (processDeletions E allCfg p s).trace := by
  rcases hl : Prog.forRange allCfg.Tenants (deletionsTenant E p) { s with err := none }
    with ⟨t, s1, c⟩
  have hrun : (processDeletions E allCfg p s).trace = t ∧
      (processDeletions E allCfg p s).ctl =
        (match c with
          | Ctl.val _ => Ctl.val s1.err
          | Ctl.ret e => Ctl.val e
          | Ctl.fatal => Ctl.fatal) := by
    cases c <;>
      simp [processDeletions, Prog.func, processDeletionsBody, Prog.andThen, hl, Prog.retNamed]
  rw [hrun.2] at h
  rw [hrun.1]
  cases c with
  | val a =>
    have hv : (Prog.forRange allCfg.Tenants (deletionsTenant E p) { s with err := none }).ctl =
        Ctl.val () := by rw [hl]
    obtain ⟨-, segs, hsegs, hall⟩ := forRange_segments (fun _ => True) DelTenantSeg
      allCfg.Tenants
      (fun tenant _ s' _ hv => ⟨trivial, deletionsTenant_val E p tenant s' hv⟩)
      { s with err := none } trivial hv
    rw [hl] at hsegs
    exact ⟨segs, hsegs, hall⟩
  | ret e =>
    simp only [Ctl.val.injEq] at h
    subst h
    rcases failFast_forRange (failFast_deletionsTenant E p) allCfg.Tenants
      { s with err := none } rfl with ⟨-, -, -, hret⟩ | ⟨pre, v, err, rest, hc, -⟩
    · rw [hl] at hret
      exact absurd rfl (hret none)
    · rw [hl] at hc
      simp at hc
  | fatal => simp at h


theorem ops_delNetSeg {tenant : ConfigTenantJson} {net : ConfigNetworkJson}
    {seg : List Event} (h : DelNetSeg tenant net seg) :
    ops seg =
      (net.Endpoints.map fun ep =>
        (⟨Construct.CLI_CONSTRUCT_EP, Oper.CLI_OPER_DELETE, getEpName net ep⟩ : Op)) ++
      (if net.Endpoints.length == 0 then
        [⟨Construct.CLI_CONSTRUCT_NW, Oper.CLI_OPER_DELETE, net.Name⟩] else []) := by
  obtain ⟨epsegs, tail, rfl, heps, htail⟩ := h
  have h1 := flatten_proj ops rfl ops_append
    (fun ep => [(⟨Construct.CLI_CONSTRUCT_EP, Oper.CLI_OPER_DELETE, getEpName net ep⟩ : Op)])
    (fun ep seg (h : DelEpSeg net ep seg) => by
      obtain ⟨d, rfl⟩ := h
      simp [ops, execReqs, opOf, deleteEpReq]) heps
  rw [ops_append, h1, flatMap_single]
  congr 1
  by_cases hne : net.Endpoints = []
  · rw [if_pos hne] at htail
    obtain ⟨d, rfl⟩ := htail
    simp [hne, ops, execReqs, opOf, deleteNetReq]
  · rw [if_neg hne] at htail
    subst htail
    simp [hne, ops, execReqs]

theorem ops_delTenantSeg {tenant : ConfigTenantJson} {seg : List Event}
    (h : DelTenantSeg tenant seg) :
    ops seg =
      (tenant.Networks.flatMap fun net =>
        (net.Endpoints.map fun ep =>
          (⟨Construct.CLI_CONSTRUCT_EP, Oper.CLI_OPER_DELETE, getEpName net ep⟩ : Op)) ++
        (if net.Endpoints.length == 0 then
          [⟨Construct.CLI_CONSTRUCT_NW, Oper.CLI_OPER_DELETE, net.Name⟩] else [])) ++
      (if tenant.Networks.length == 0 then
        [⟨Construct.CLI_CONSTRUCT_GLOBAL, Oper.CLI_OPER_DELETE, tenant.Name⟩] else []) := by
  obtain ⟨nsegs, tail, rfl, hnets, htail⟩ := h
  have h1 := flatten_proj ops rfl ops_append _ (fun _ _ h => ops_delNetSeg h) hnets
  rw [ops_append, h1]
  congr 1
  by_cases hne : tenant.Networks = []
  · rw [if_pos hne] at htail
    obtain ⟨d, rfl⟩ := htail
    simp [hne, ops, execReqs, opOf, deleteTenantReq]
  · rw [if_neg hne] at htail
    subst htail
    simp [hne, ops, execReqs]

theorem ops_deletionsTrace {allCfg : ConfigJson} {t : List Event}
    (h : DeletionsTrace allCfg t) : ops t = deletionsWalk allCfg := by
  obtain ⟨segs, rfl, hall⟩ := h
  exact flatten_proj ops rfl ops_append _ (fun _ _ h => ops_delTenantSeg h) hall

/-- Over an executor that never fails, `processDeletions` returns `nil`. -/
theorem processDeletions_returns_nil (E : Env W) (allCfg : ConfigJson) (p : OptsPtr)
    (s : PState W) (hexec : ∀ w r, (E.executeOpts w r).2 = none) :
    (processDeletions E allCfg p s).ctl = Ctl.val none := by
  have hFB := failFastBody_processDeletions E allCfg p
  rw [neverFail_eq E hexec] at hFB
  have hnf := (noFail_of_failFastBody_self hFB { s with err := none } rfl).1
  have hnf' : NoFail (processDeletions E allCfg p s).trace := by
    unfold processDeletions Prog.func
    rcases hb : processDeletionsBody E allCfg p { s with err := none } with ⟨t', s', c'⟩
    rw [hb] at hnf
    cases c' <;> exact hnf
  rcases ((failFast_func hFB s).2 hnf').2 with h | h
  · exact h
  · exact absurd h (processDeletions_ne_fatal E allCfg p s)

/-- C11: over an executor that never fails, `processDeletions` returns `nil` and its trace
has the shape `DeletionsTrace`: no store read at all; for every tenant and network in
document order a delete for every desired endpoint under its `getEpName` identifier; after
a network's endpoints the delete of the network exactly when the document lists no endpoint
for it; after a tenant's networks the delete of the tenant exactly when the document lists
no network for it.  The operations are those of `deletionsWalk`. -/
theorem processDeletions_walks_document (E : Env W) (allCfg : ConfigJson) (defOpts : OptsPtr)
    (s : PState W) (hexec : ∀ w r, (E.executeOpts w r).2 = none) :
    DeletionsTrace allCfg (processDeletions E allCfg defOpts s).trace ∧
      ops (processDeletions E allCfg defOpts s).trace = deletionsWalk allCfg ∧
      (processDeletions E allCfg defOpts s).ctl = Ctl.val none := by
  have hret := processDeletions_returns_nil E allCfg defOpts s hexec
  have hshape := processDeletions_shape E allCfg defOpts s hret
  exact ⟨hshape, ops_deletionsTrace hshape, hret⟩

/-- Witness for C11: tenant `t1` with network `n1` holding the endpoint of container `c1`:
the only operation is the delete of endpoint `n1-c1`; neither the network nor the tenant is
deleted. -/
theorem processDeletions_walks_document_witness :
    ops (processDeletions (exEnv ([], none) ([], none) ([], none) [] [] none)
        ⟨[⟨"t1", "vlan", "", 0, "", "", [⟨"n1", "", [⟨"c1", "hostA", ""⟩]⟩]⟩]⟩
        (OptsPtr.other exOpts) exState).trace =
      [⟨Construct.CLI_CONSTRUCT_EP, Oper.CLI_OPER_DELETE, "n1-c1"⟩] :=
  (processDeletions_walks_document (exEnv ([], none) ([], none) ([], none) [] [] none)
    ⟨[⟨"t1", "vlan", "", 0, "", "", [⟨"n1", "", [⟨"c1", "hostA", ""⟩]⟩]⟩]⟩
    (OptsPtr.other exOpts) exState (fun _ _ => rfl)).2.1

/-- C12: in every run of `processDeletions`, whatever the executor answers, the operations
handed to the executor are an initial part of `deletionsWalk`: within a tenant's part of
the walk the delete of the tenant comes after everything issued for its networks, and within
a network's part the delete of the network comes after the deletes of its endpoints. -/
theorem processDeletions_children_first (E : Env W) (allCfg : ConfigJson) (defOpts : OptsPtr)
    (s : PState W) :
    ops (processDeletions E allCfg defOpts s).trace <+: deletionsWalk allCfg := by
  have hwalk : ops (processDeletions (neverFail E) allCfg defOpts s).trace =
      deletionsWalk allCfg :=
    ops_deletionsTrace (processDeletions_shape (neverFail E) allCfg defOpts s
      (processDeletions_returns_nil (neverFail E) allCfg defOpts s (fun _ _ => rfl)))
  have hA := failFast_func (failFastBody_processDeletions E allCfg defOpts) s
  by_cases hnf : NoFail (processDeletions E allCfg defOpts s).trace
  · have := (hA.2 hnf).1
    change (processDeletions E allCfg defOpts s).trace =
      (processDeletions (neverFail E) allCfg defOpts s).trace at this
    rw [this, hwalk]
  · unfold NoFail at hnf
    push_neg at hnf
    obtain ⟨v, e, hmem⟩ := hnf
    have hmem' : (v, some e) ∈ execCalls (processDeletions E allCfg defOpts s).trace :=
      List.mem_filterMap.2 ⟨Event.exec v (some e), hmem, rfl⟩
    obtain ⟨k, hk⟩ := List.getElem?_of_mem hmem'
    have := (hA.1 k v e hk).1
    change execReqs (processDeletions E allCfg defOpts s).trace =
      (execReqs (processDeletions (neverFail E) allCfg defOpts s).trace).take (k + 1) at this
    rw [← hwalk]
    unfold ops
    rw [this, List.map_take]
    exact List.take_prefix _ _


/-! ## The idempotent re-run -/

theorem andThen_eq {m : Prog W α} {f : α → Prog W β} {s s1 s2 : PState W} {t t2 : List Event}
    {a : α} {c : Ctl β} (h1 : m s = ⟨t, s1, Ctl.val a⟩) (h2 : f a s1 = ⟨t2, s2, c⟩) :
    Prog.andThen m f s = ⟨t ++ t2, s2, c⟩ := by
  simp [Prog.andThen, h1, h2]

theorem storeEnv_additionsEp (p : OptsPtr) (net : ConfigNetworkJson) (ep : ConfigEpJson)
    (s : PState Store) :
    additionsEp storeEnv p net ep s =
      ⟨[Event.exec (createEpReq (p.load s.opts) net ep) none, Event.wait],
        ⟨s.world.apply (createEpReq (p.load s.opts) net ep),
          createEpReq (p.load s.opts) net ep, none⟩, Ctl.val ()⟩ := by
  simp [additionsEp, Prog.andThen, Prog.loadDef, Prog.setOpts, Prog.getOpts, executeOrReturn,
    executeOpts, Prog.setErr, Prog.val, postProcessing, storeEnv]

theorem storeEnv_epLoop (p : OptsPtr) (net : ConfigNetworkJson) (eps : List ConfigEpJson) :
    ∀ s : PState Store, s.err = none → ∃ t s',
      Prog.forRange eps (additionsEp storeEnv p net) s = ⟨t, s', Ctl.val ()⟩ ∧
      s'.world.tenants = s.world.tenants ∧ s'.world.nets = s.world.nets ∧
      (p.load s'.opts).cfgAdditions = (p.load s.opts).cfgAdditions ∧ s'.err = none ∧
      ops t = eps.map fun ep =>
        ⟨Construct.CLI_CONSTRUCT_EP, Oper.CLI_OPER_CREATE, getEpName net ep⟩ := by
  induction eps with
  | nil => intro s hs; exact ⟨[], s, rfl, rfl, rfl, rfl, hs, rfl⟩
  | cons ep rest ih =>
    intro s _
    obtain ⟨t, s', h, h1, h2, h3, h4, h5⟩ := ih
      ⟨s.world.apply (createEpReq (p.load s.opts) net ep),
        createEpReq (p.load s.opts) net ep, none⟩ rfl
    refine ⟨_, s', andThen_eq (storeEnv_additionsEp p net ep s) h, ?_, ?_, ?_, h4, ?_⟩
    · rw [h1]; simp [Store.apply, createEpReq]
    · rw [h2]; simp [Store.apply, createEpReq]
    · rw [h3]; exact load_createEpReq p s.opts net ep
    · rw [ops_append, h5]
      simp [ops, execReqs, opOf, createEpReq]

theorem storeEnv_run_fresh (tenant : ConfigTenantJson) (net : ConfigNetworkJson)
    (hnets : tenant.Networks = [net]) (p : OptsPtr) (s : PState Store)
    (hflag : (p.load s.opts).cfgAdditions = true) (ht : tenant.Name ∉ s.world.tenants)
    (hn : net.Name ∉ s.world.nets) :
    ops (processAdditions storeEnv ⟨[tenant]⟩ p s).trace =
        ⟨Construct.CLI_CONSTRUCT_GLOBAL, Oper.CLI_OPER_CREATE, tenant.Name⟩ ::
          ⟨Construct.CLI_CONSTRUCT_NW, Oper.CLI_OPER_CREATE, net.Name⟩ ::
          (net.Endpoints.map fun ep =>
            ⟨Construct.CLI_CONSTRUCT_EP, Oper.CLI_OPER_CREATE, getEpName net ep⟩) ∧
      (processAdditions storeEnv ⟨[tenant]⟩ p s).ctl = Ctl.val none ∧
      tenant.Name ∈ (processAdditions storeEnv ⟨[tenant]⟩ p s).st.world.tenants ∧
      net.Name ∈ (processAdditions storeEnv ⟨[tenant]⟩ p s).st.world.nets ∧
      (p.load (processAdditions storeEnv ⟨[tenant]⟩ p s).st.opts).cfgAdditions = true := by
  have hinit : additionsInit storeEnv p { s with err := none } =
      ⟨[Event.initEtcd (p.load s.opts).etcdUrl none], { s with err := none }, Ctl.val ()⟩ := by
    simp [additionsInit, Prog.andThen, initEtcd, storeEnv, Prog.setErr, Prog.val]
  have hT : additionsTenantHead storeEnv p tenant { s with err := none } =
      ⟨[Event.readTenant tenant.Name (some GoError.keyNotFound),
        Event.exec (createTenantReq (p.load s.opts) tenant) none],
        ⟨s.world.apply (createTenantReq (p.load s.opts) tenant), s.opts, none⟩,
        Ctl.val ()⟩ := by
    simp [additionsTenantHead, Prog.andThen, Prog.loadDef, hflag, hnets, gcfgRead, storeEnv, ht,
      Prog.setErr, ErrIfKeyExists, Prog.val, executeOrReturn, executeOpts]
  have hn' : net.Name ∉ (s.world.apply (createTenantReq (p.load s.opts) tenant)).nets := by
    simpa [Store.apply, createTenantReq] using hn
  have hN : additionsNetHead storeEnv p tenant net
      ⟨s.world.apply (createTenantReq (p.load s.opts) tenant), s.opts, none⟩ =
      ⟨[Event.readNet net.Name (some GoError.keyNotFound),
        Event.exec (createNetReq (p.load s.opts) tenant net) none, Event.wait],
        ⟨(s.world.apply (createTenantReq (p.load s.opts) tenant)).apply
            (createNetReq (p.load s.opts) tenant net),
          createNetReq (p.load s.opts) tenant net, none⟩,
        Ctl.val ()⟩ := by
    simp [additionsNetHead, Prog.andThen, Prog.loadDef, hflag, hnets, nwCfgRead, storeEnv, hn',
      Prog.setErr, ErrIfKeyExists, Prog.val, Prog.setOpts, Prog.getOpts, executeOrReturn,
      executeOpts, postProcessing]
  obtain ⟨tE, s3, hE, h1, h2, h3, h4, h5⟩ := storeEnv_epLoop p net net.Endpoints
    ⟨(s.world.apply (createTenantReq (p.load s.opts) tenant)).apply
        (createNetReq (p.load s.opts) tenant net),
      createNetReq (p.load s.opts) tenant net, none⟩ rfl
  have hNet :=
    andThen_eq (m := additionsNetHead storeEnv p tenant net)
      (f := fun _ => Prog.forRange net.Endpoints (additionsEp storeEnv p net)) hN hE
  have hNets :=
    andThen_eq (m := additionsNet storeEnv p tenant net)
      (f := fun _ => Prog.forRange [] (additionsNet storeEnv p tenant)) hNet rfl
  have hTen :=
    andThen_eq (m := additionsTenantHead storeEnv p tenant)
      (f := fun _ => Prog.forRange [net] (additionsNet storeEnv p tenant)) hT hNets
  rw [← hnets] at hTen
  have hTens :=
    andThen_eq (m := additionsTenant storeEnv p tenant)
      (f := fun _ => Prog.forRange [] (additionsTenant storeEnv p)) hTen rfl
  have hret : (Prog.retNamed : Prog Store Unit) s3 = ⟨[], s3, Ctl.ret none⟩ := by
    simp [Prog.retNamed, h4]
  have hbody :=
    andThen_eq (m := additionsInit storeEnv p)
      (f := fun _ => Prog.andThen (Prog.forRange [tenant] (additionsTenant storeEnv p))
        fun _ => Prog.retNamed) hinit
      (andThen_eq (m := Prog.forRange [tenant] (additionsTenant storeEnv p))
        (f := fun _ => Prog.retNamed) hTens hret)
  unfold processAdditions Prog.func
  rw [show processAdditionsBody storeEnv ⟨[tenant]⟩ p { s with err := none } = _ from hbody]
  refine ⟨?_, rfl, ?_, ?_, ?_⟩
  · simp only [ops_append, h5]
    simp [ops, execReqs, opOf, createTenantReq, createNetReq]
  · simp [h1, Store.apply, createTenantReq, createNetReq]
  · simp [h2, Store.apply, createTenantReq, createNetReq]
  · simp only [h3]
    rw [load_createNetReq]
    exact hflag

theorem storeEnv_run_again (tenant : ConfigTenantJson) (net : ConfigNetworkJson)
    (hnets : tenant.Networks = [net]) (p : OptsPtr) (s : PState Store)
    (hflag : (p.load s.opts).cfgAdditions = true) (ht : tenant.Name ∈ s.world.tenants)
    (hn : net.Name ∈ s.world.nets) :
    ops (processAdditions storeEnv ⟨[tenant]⟩ p s).trace =
        (net.Endpoints.map fun ep =>
          ⟨Construct.CLI_CONSTRUCT_EP, Oper.CLI_OPER_CREATE, getEpName net ep⟩) ∧
      (processAdditions storeEnv ⟨[tenant]⟩ p s).ctl = Ctl.val none := by
  have hinit : additionsInit storeEnv p { s with err := none } =
      ⟨[Event.initEtcd (p.load s.opts).etcdUrl none], { s with err := none }, Ctl.val ()⟩ := by
    simp [additionsInit, Prog.andThen, initEtcd, storeEnv, Prog.setErr, Prog.val]
  have hT : additionsTenantHead storeEnv p tenant { s with err := none } =
      ⟨[Event.readTenant tenant.Name none], { s with err := none }, Ctl.val ()⟩ := by
    simp [additionsTenantHead, Prog.andThen, Prog.loadDef, hflag, hnets, gcfgRead, storeEnv, ht,
      Prog.setErr, ErrIfKeyExists, Prog.val]
  have hN : additionsNetHead storeEnv p tenant net { s with err := none } =
      ⟨[Event.readNet net.Name none], { s with err := none }, Ctl.val ()⟩ := by
    simp [additionsNetHead, Prog.andThen, Prog.loadDef, hflag, hnets, nwCfgRead, storeEnv, hn,
      Prog.setErr, ErrIfKeyExists, Prog.val]
  obtain ⟨tE, s3, hE, -, -, -, h4, h5⟩ := storeEnv_epLoop p net net.Endpoints
    { s with err := none } rfl
  have hNet :=
    andThen_eq (m := additionsNetHead storeEnv p tenant net)
      (f := fun _ => Prog.forRange net.Endpoints (additionsEp storeEnv p net)) hN hE
  have hNets :=
    andThen_eq (m := additionsNet storeEnv p tenant net)
      (f := fun _ => Prog.forRange [] (additionsNet storeEnv p tenant)) hNet rfl
  have hTen :=
    andThen_eq (m := additionsTenantHead storeEnv p tenant)
      (f := fun _ => Prog.forRange [net] (additionsNet storeEnv p tenant)) hT hNets
  rw [← hnets] at hTen
  have hTens :=
    andThen_eq (m := additionsTenant storeEnv p tenant)
      (f := fun _ => Prog.forRange [] (additionsTenant storeEnv p)) hTen rfl
  have hret : (Prog.retNamed : Prog Store Unit) s3 = ⟨[], s3, Ctl.ret none⟩ := by
    simp [Prog.retNamed, h4]
  have hbody :=
    andThen_eq (m := additionsInit storeEnv p)
      (f := fun _ => Prog.andThen (Prog.forRange [tenant] (additionsTenant storeEnv p))
        fun _ => Prog.retNamed) hinit
      (andThen_eq (m := Prog.forRange [tenant] (additionsTenant storeEnv p))
        (f := fun _ => Prog.retNamed) hTens hret)
  unfold processAdditions Prog.func
  rw [show processAdditionsBody storeEnv ⟨[tenant]⟩ p { s with err := none } = _ from hbody]
  refine ⟨?_, rfl⟩
  simp only [ops_append, h5]
  simp [ops, execReqs]

/-- C14: idempotent re-run.  Over the store model `storeEnv`, started with an empty store
and idempotency mode on, `processAdditions` is run twice on a document with one tenant
containing one network (such as `t1` containing `n1`).  The first run creates the tenant,
the network and every endpoint; the second run creates every endpoint again and nothing
else.  So across both runs there is exactly one tenant create and exactly one network
create, and both runs return `nil`. -/
theorem processAdditions_idempotent_rerun (tenant : ConfigTenantJson) (net : ConfigNetworkJson)
    (hnets : tenant.Networks = [net]) (defOpts : OptsPtr) (s : PState Store)
    (hflag : (defOpts.load s.opts).cfgAdditions = true)
    (hempty : s.world = ⟨[], [], []⟩) :
    ops (processAdditions storeEnv ⟨[tenant]⟩ defOpts s).trace =
        ⟨Construct.CLI_CONSTRUCT_GLOBAL, Oper.CLI_OPER_CREATE, tenant.Name⟩ ::
          ⟨Construct.CLI_CONSTRUCT_NW, Oper.CLI_OPER_CREATE, net.Name⟩ ::
          (net.Endpoints.map fun ep =>
            ⟨Construct.CLI_CONSTRUCT_EP, Oper.CLI_OPER_CREATE, getEpName net ep⟩) ∧
      ops (processAdditions storeEnv ⟨[tenant]⟩ defOpts
          (processAdditions storeEnv ⟨[tenant]⟩ defOpts s).st).trace =
        (net.Endpoints.map fun ep =>
          ⟨Construct.CLI_CONSTRUCT_EP, Oper.CLI_OPER_CREATE, getEpName net ep⟩) ∧
      (processAdditions storeEnv ⟨[tenant]⟩ defOpts s).ctl = Ctl.val none ∧
      (processAdditions storeEnv ⟨[tenant]⟩ defOpts
          (processAdditions storeEnv ⟨[tenant]⟩ defOpts s).st).ctl = Ctl.val none ∧
      (ops (processAdditions storeEnv ⟨[tenant]⟩ defOpts s).trace ++
        ops (processAdditions storeEnv ⟨[tenant]⟩ defOpts
          (processAdditions storeEnv ⟨[tenant]⟩ defOpts s).st).trace).countP
        (fun o => decide (o.kind = Construct.CLI_CONSTRUCT_GLOBAL ∧
          o.oper = Oper.CLI_OPER_CREATE)) = 1 ∧
      (ops (processAdditions storeEnv ⟨[tenant]⟩ defOpts s).trace ++
        ops (processAdditions storeEnv ⟨[tenant]⟩ defOpts
          (processAdditions storeEnv ⟨[tenant]⟩ defOpts s).st).trace).countP
        (fun o => decide (o.kind = Construct.CLI_CONSTRUCT_NW ∧
          o.oper = Oper.CLI_OPER_CREATE)) = 1 := by
  obtain ⟨h1, h2, h3, h4, h5⟩ := storeEnv_run_fresh tenant net hnets defOpts s hflag
    (by simp [hempty]) (by simp [hempty])
  obtain ⟨h6, h7⟩ := storeEnv_run_again tenant net hnets defOpts
    (processAdditions storeEnv ⟨[tenant]⟩ defOpts s).st h5 h3 h4
  refine ⟨h1, h6, h2, h7, ?_, ?_⟩
  · rw [h1, h6]
    simp [List.countP_cons, List.countP_append, List.countP_map, Function.comp_def]
  · rw [h1, h6]
    simp [List.countP_cons, List.countP_append, List.countP_map, Function.comp_def]

/-- Witness for C14: the tenant `t1` containing the network `n1` with the endpoint of
container `c1`. -/
theorem processAdditions_idempotent_rerun_witness :
    ops (processAdditions storeEnv ⟨[exTenantT1]⟩ (OptsPtr.other exOptsIdem)
        ⟨⟨[], [], []⟩, exOptsIdem, none⟩).trace =
      [⟨Construct.CLI_CONSTRUCT_GLOBAL, Oper.CLI_OPER_CREATE, "t1"⟩,
       ⟨Construct.CLI_CONSTRUCT_NW, Oper.CLI_OPER_CREATE, "n1"⟩,
       ⟨Construct.CLI_CONSTRUCT_EP, Oper.CLI_OPER_CREATE, "n1-c1"⟩] ∧
    ops (processAdditions storeEnv ⟨[exTenantT1]⟩ (OptsPtr.other exOptsIdem)
        (processAdditions storeEnv ⟨[exTenantT1]⟩ (OptsPtr.other exOptsIdem)
          ⟨⟨[], [], []⟩, exOptsIdem, none⟩).st).trace =
      [⟨Construct.CLI_CONSTRUCT_EP, Oper.CLI_OPER_CREATE, "n1-c1"⟩] :=
  have h := processAdditions_idempotent_rerun exTenantT1 ⟨"n1", "", [⟨"c1", "hostA", ""⟩]⟩ rfl
    (OptsPtr.other exOptsIdem) ⟨⟨[], [], []⟩, exOptsIdem, none⟩ rfl rfl
  ⟨h.1, h.2.1⟩


/-! ## executeJsonCfg -/

theorem func_setErr (m : Prog W Unit) (s : PState W) (e : Option GoError) :
    Prog.func m { s with err := e } =
      ⟨(Prog.func m s).trace, { (Prog.func m s).st with err := e }, (Prog.func m s).ctl⟩ := by
  unfold Prog.func
  simp only []
  rcases m { s with err := none } with ⟨t, s1, c⟩
  cases c <;> rfl

theorem keepsOpts_andThen {m : Prog W α} {f : α → Prog W β} (hm : KeepsOpts m)
    (hf : ∀ a, KeepsOpts (f a)) : KeepsOpts (Prog.andThen m f) := by
  intro s
  have h1 := hm s
  rcases hms : m s with ⟨t, s1, c⟩
  rw [hms] at h1
  cases c with
  | val a =>
    have h2 := hf a s1
    rcases hfs : f a s1 with ⟨t2, s2, c2⟩
    rw [hfs] at h2
    simp only [Prog.andThen, hms, hfs]
    exact h2.trans h1
  | ret e => simpa [Prog.andThen, hms] using h1
  | fatal => simpa [Prog.andThen, hms] using h1

theorem keepsOpts_forRange {body : α → Prog W Unit} (h : ∀ x, KeepsOpts (body x))
    (xs : List α) : KeepsOpts (Prog.forRange xs body) := by
  induction xs with
  | nil => intro s; rfl
  | cons x rest ih =>
    simp only [Prog.forRange]
    exact keepsOpts_andThen (h x) fun _ => ih

theorem keepsOpts_ite {c : Prop} [Decidable c] {m n : Prog W α} (hm : KeepsOpts m)
    (hn : KeepsOpts n) : KeepsOpts (if c then m else n) := by
  by_cases hc : c <;> simp [hc, hm, hn]

theorem keepsOpts_pruneBody (E : Env W) (p : OptsPtr) (present : String → Bool)
    (mk : cliOpts → String → cliOpts) (pfx key : String) :
    KeepsOpts (pruneBody E p present mk pfx key) := by
  unfold pruneBody
  simp only [Prog.bind_eq, Prog.pure_eq]
  exact keepsOpts_ite
    (keepsOpts_andThen (fun _ => rfl) fun _ =>
      keepsOpts_andThen (fun _ => rfl) fun _ => fun _ => rfl)
    (fun _ => rfl)

theorem deleteDelta_opts (E : Env W) (allCfg : ConfigJson) (p : OptsPtr) (s : PState W) :
    (deleteDelta E allCfg p s).st.opts = s.opts := by
  have hb : KeepsOpts (deleteDeltaBody E allCfg p) := by
    unfold deleteDeltaBody
    simp only [Prog.bind_eq, Prog.pure_eq, deleteDeltaEp_eq, deleteDeltaNet_eq,
      deleteDeltaTenant_eq]
    repeat' (first
      | apply keepsOpts_andThen
      | apply keepsOpts_ite
      | apply keepsOpts_forRange
      | apply keepsOpts_pruneBody
      | (intro s; rfl)
      | intro _)
  have h := hb { s with err := none }
  unfold deleteDelta Prog.func
  rcases hr : deleteDeltaBody E allCfg p { s with err := none } with ⟨t, s1, c⟩
  rw [hr] at h
  cases c <;> exact h

theorem deleteDelta_setErr (E : Env W) (allCfg : ConfigJson) (p : OptsPtr) (s : PState W)
    (e : Option GoError) :
    deleteDelta E allCfg p { s with err := e } =
      ⟨(deleteDelta E allCfg p s).trace, { (deleteDelta E allCfg p s).st with err := e },
        (deleteDelta E allCfg p s).ctl⟩ :=
  func_setErr _ s e

theorem reconciler_setErr (E : Env W) (allCfg : ConfigJson) (p : OptsPtr) (d : cliOpts)
    (s : PState W) (e : Option GoError) :
    reconciler E allCfg p d { s with err := e } =
      ⟨(reconciler E allCfg p d s).trace, { (reconciler E allCfg p d s).st with err := e },
        (reconciler E allCfg p d s).ctl⟩ := by
  unfold reconciler
  split
  · exact func_setErr _ s e
  · exact func_setErr _ s e

theorem func_ctl_ne_ret (m : Prog W Unit) (s : PState W) (e : Option GoError) :
    (Prog.func m s).ctl ≠ Ctl.ret e := by
  unfold Prog.func
  rcases m { s with err := none } with ⟨t, s1, c⟩
  cases c <;> simp

theorem reconciler_ctl_ne_ret (E : Env W) (allCfg : ConfigJson) (p : OptsPtr) (d : cliOpts)
    (s : PState W) (e : Option GoError) : (reconciler E allCfg p d s).ctl ≠ Ctl.ret e := by
  unfold reconciler
  split <;> exact func_ctl_ne_ret _ s e

/-- Lines 365-375: the reconciler chosen by `defOpts.cfgDeletions` runs and its result is
returned. -/
theorem executeJsonCfgReconcile_run (E : Env W) (allCfg : ConfigJson) (p : OptsPtr)
    (s : PState W) :
    (executeJsonCfgReconcile E allCfg p s).trace =
        (reconciler E allCfg p (p.load s.opts) s).trace ∧
    (executeJsonCfgReconcile E allCfg p s).ctl =
      (match (reconciler E allCfg p (p.load s.opts) s).ctl with
        | Ctl.val x => Ctl.ret x
        | Ctl.ret x => Ctl.ret x
        | Ctl.fatal => Ctl.fatal) := by
  rcases hr : reconciler E allCfg p (p.load s.opts) s with ⟨t, s1, c⟩
  unfold reconciler at hr
  by_cases hdel : (p.load s.opts).cfgDeletions = true
  · rw [if_pos hdel] at hr
    rcases c with (_ | x) | x | _ <;>
      simp [executeJsonCfgReconcile, Prog.andThen, Prog.loadDef, Prog.val, Prog.getErr, hdel,
        hr, Prog.setErr, Prog.retNamed]
  · rw [if_neg hdel] at hr
    rcases c with (_ | x) | x | _ <;>
      simp [executeJsonCfgReconcile, Prog.andThen, Prog.loadDef, Prog.val, Prog.getErr, hdel,
        hr, Prog.setErr, Prog.retNamed]

theorem executeJsonCfgRun_plain (E : Env W) (allCfg : ConfigJson) (p : OptsPtr)
    (s : PState W) (hs : s.err = none) (hdes : (p.load s.opts).cfgDesired = false) :
    executeJsonCfgRun E allCfg p s = executeJsonCfgReconcile E allCfg p s := by
  rcases hr : executeJsonCfgReconcile E allCfg p s with ⟨t, s1, c⟩
  simp [executeJsonCfgRun, Prog.andThen, Prog.loadDef, hdes, Prog.val, Prog.getErr, hs, hr]

theorem executeJsonCfgRun_desired (E : Env W) (allCfg : ConfigJson) (p : OptsPtr)
    (s : PState W) (hdes : (p.load s.opts).cfgDesired = true) :
    (∀ e, (deleteDelta E allCfg p s).ctl = Ctl.val (some e) →
      (executeJsonCfgRun E allCfg p s).trace = (deleteDelta E allCfg p s).trace ∧
      (executeJsonCfgRun E allCfg p s).ctl = Ctl.ret (some e)) ∧
    ((deleteDelta E allCfg p s).ctl = Ctl.fatal →
      (executeJsonCfgRun E allCfg p s).trace = (deleteDelta E allCfg p s).trace ∧
      (executeJsonCfgRun E allCfg p s).ctl = Ctl.fatal) ∧
    ((deleteDelta E allCfg p s).ctl = Ctl.val none →
      (executeJsonCfgRun E allCfg p s).trace =
        (deleteDelta E allCfg p s).trace ++
          (executeJsonCfgReconcile E allCfg p
            { (deleteDelta E allCfg p s).st with err := none }).trace ∧
      (executeJsonCfgRun E allCfg p s).ctl =
        (executeJsonCfgReconcile E allCfg p
          { (deleteDelta E allCfg p s).st with err := none }).ctl) := by
  rcases hdd : deleteDelta E allCfg p s with ⟨t, s1, c⟩
  refine ⟨fun e hc => ?_, fun hc => ?_, fun hc => ?_⟩
  · simp only at hc
    subst hc
    simp [executeJsonCfgRun, Prog.andThen, Prog.loadDef, hdes, Prog.val, Prog.getErr, hdd,
      Prog.setErr, Prog.retNamed]
  · simp only at hc
    subst hc
    simp [executeJsonCfgRun, Prog.andThen, Prog.loadDef, hdes, Prog.val, Prog.getErr, hdd,
      Prog.setErr, Prog.retNamed]
  · simp only at hc
    subst hc
    rcases hr : executeJsonCfgReconcile E allCfg p { s1 with err := none } with ⟨t2, s2, c2⟩
    simp [executeJsonCfgRun, Prog.andThen, Prog.loadDef, hdes, Prog.val, Prog.getErr, hdd,
      Prog.setErr, Prog.retNamed, hr]

theorem func_run (m : Prog W Unit) (s : PState W) :
    (Prog.func m s).trace = (m { s with err := none }).trace ∧
    (Prog.func m s).ctl =
      (match (m { s with err := none }).ctl with
        | Ctl.val _ => Ctl.val none
        | Ctl.ret e => Ctl.val e
        | Ctl.fatal => Ctl.fatal) := by
  unfold Prog.func
  rcases m { s with err := none } with ⟨t, s1, c⟩
  cases c <;> exact ⟨rfl, rfl⟩

theorem executeJsonCfgBody_decoded (F : Files) (E : Env W) (p : OptsPtr) (s : PState W)
    (data : String) (allCfg : ConfigJson) (hread : F.ReadFile s.opts.idStr = (data, none))
    (hdec : F.Unmarshal data = (allCfg, none)) :
    executeJsonCfgBody F E p { s with err := none } =
      executeJsonCfgRun E allCfg p { s with err := none } := by
  rcases hr : executeJsonCfgRun E allCfg p { s with err := none } with ⟨t, s1, c⟩
  simp [executeJsonCfgBody, Prog.andThen, Prog.getOpts, hread, Prog.setErr, Prog.val, hdec, hr]

/-- C15: `executeJsonCfg` on a successfully decoded document.  Without desired-state mode
(`cfgDesired`) it runs only the reconciler: `processDeletions` if `cfgDeletions` is set,
`processAdditions` if not, and returns its result.  In desired-state mode it first runs
`deleteDelta`; if that returns an error (or ends the process) nothing else runs and the
error is returned; if it returns `nil` the one reconciler runs after it, from the state
`deleteDelta` left, and its result is returned.  If the file cannot be read or decoded, the
trace is empty and the error is returned. -/
theorem executeJsonCfg_dispatch (F : Files) (E : Env W) (defOpts : OptsPtr) (s : PState W) :
    (∀ data allCfg, F.ReadFile s.opts.idStr = (data, none) →
      F.Unmarshal data = (allCfg, none) →
      ((defOpts.load s.opts).cfgDesired = false →
        (executeJsonCfg F E defOpts s).trace =
          (reconciler E allCfg defOpts (defOpts.load s.opts) s).trace ∧
        (executeJsonCfg F E defOpts s).ctl =
          (reconciler E allCfg defOpts (defOpts.load s.opts) s).ctl) ∧
      ((defOpts.load s.opts).cfgDesired = true →
        (∀ e, (deleteDelta E allCfg defOpts s).ctl = Ctl.val (some e) →
          (executeJsonCfg F E defOpts s).trace = (deleteDelta E allCfg defOpts s).trace ∧
          (executeJsonCfg F E defOpts s).ctl = Ctl.val (some e)) ∧
        ((deleteDelta E allCfg defOpts s).ctl = Ctl.fatal →
          (executeJsonCfg F E defOpts s).trace = (deleteDelta E allCfg defOpts s).trace ∧
          (executeJsonCfg F E defOpts s).ctl = Ctl.fatal) ∧
        ((deleteDelta E allCfg defOpts s).ctl = Ctl.val none →
          (executeJsonCfg F E defOpts s).trace =
            (deleteDelta E allCfg defOpts s).trace ++
              (reconciler E allCfg defOpts (defOpts.load s.opts)
                (deleteDelta E allCfg defOpts s).st).trace ∧
          (executeJsonCfg F E defOpts s).ctl =
            (reconciler E allCfg defOpts (defOpts.load s.opts)
              (deleteDelta E allCfg defOpts s).st).ctl))) ∧
    (∀ data e, F.ReadFile s.opts.idStr = (data, some e) →
      (executeJsonCfg F E defOpts s).trace = [] ∧
      (executeJsonCfg F E defOpts s).ctl = Ctl.val (some e)) ∧
    (∀ data allCfg e, F.ReadFile s.opts.idStr = (data, none) →
      F.Unmarshal data = (allCfg, some e) →
      (executeJsonCfg F E defOpts s).trace = [] ∧
      (executeJsonCfg F E defOpts s).ctl = Ctl.val (some e)) := by
  refine ⟨fun data allCfg hread hdec => ⟨fun hdes => ?_, fun hdes => ?_⟩,
    fun data e hread => ?_, fun data allCfg e hread hdec => ?_⟩
  · obtain ⟨htr, hctl⟩ := func_run (executeJsonCfgBody F E defOpts) s
    rw [executeJsonCfgBody_decoded F E defOpts s data allCfg hread hdec,
      executeJsonCfgRun_plain E allCfg defOpts { s with err := none } rfl hdes] at htr hctl
    obtain ⟨h1, h2⟩ := executeJsonCfgReconcile_run E allCfg defOpts { s with err := none }
    have h3 := reconciler_setErr E allCfg defOpts (defOpts.load s.opts) s none
    simp only [] at h1 h2
    rw [h3] at h1 h2
    simp only [] at h1 h2
    change (executeJsonCfg F E defOpts s).trace = _ at htr
    change (executeJsonCfg F E defOpts s).ctl = _ at hctl
    rw [htr, hctl, h1, h2]
    refine ⟨rfl, ?_⟩
    rcases hc : (reconciler E allCfg defOpts (defOpts.load s.opts) s).ctl with x | x | _
    · rfl
    · exact absurd hc (reconciler_ctl_ne_ret E allCfg defOpts _ s x)
    · rfl
  · obtain ⟨htr, hctl⟩ := func_run (executeJsonCfgBody F E defOpts) s
    rw [executeJsonCfgBody_decoded F E defOpts s data allCfg hread hdec] at htr hctl
    change (executeJsonCfg F E defOpts s).trace = _ at htr
    change (executeJsonCfg F E defOpts s).ctl = _ at hctl
    obtain ⟨hA, hB, hC⟩ := executeJsonCfgRun_desired E allCfg defOpts { s with err := none } hdes
    have hdd := deleteDelta_setErr E allCfg defOpts s none
    rw [hdd] at hA hB hC
    simp only [] at hA hB hC
    refine ⟨fun e hc => ?_, fun hc => ?_, fun hc => ?_⟩
    · obtain ⟨h1, h2⟩ := hA e hc
      rw [htr, hctl, h1, h2]
      exact ⟨rfl, rfl⟩
    · obtain ⟨h1, h2⟩ := hB hc
      rw [htr, hctl, h1, h2]
      exact ⟨rfl, rfl⟩
    · obtain ⟨h1, h2⟩ := hC hc
      obtain ⟨h3, h4⟩ := executeJsonCfgReconcile_run E allCfg defOpts
        { (deleteDelta E allCfg defOpts s).st with err := none }
      have h5 := reconciler_setErr E allCfg defOpts (defOpts.load s.opts)
        (deleteDelta E allCfg defOpts s).st none
      rw [show defOpts.load ({ (deleteDelta E allCfg defOpts s).st with err := none } :
          PState W).opts = defOpts.load s.opts from by simp [deleteDelta_opts]] at h3 h4
      rw [h5] at h3 h4
      simp only [] at h3 h4
      rw [htr, hctl, h1, h2, h3, h4]
      refine ⟨rfl, ?_⟩
      rcases hc' : (reconciler E allCfg defOpts (defOpts.load s.opts)
        (deleteDelta E allCfg defOpts s).st).ctl with x | x | _
      · rfl
      · exact absurd hc' (reconciler_ctl_ne_ret E allCfg defOpts _ _ x)
      · rfl
  · have : executeJsonCfgBody F E defOpts { s with err := none } =
        ⟨[], { s with err := some e }, Ctl.ret (some e)⟩ := by
      simp [executeJsonCfgBody, Prog.andThen, Prog.getOpts, hread, Prog.setErr, Prog.val,
        Prog.ret]
    simp [executeJsonCfg, Prog.func, this]
  · have : executeJsonCfgBody F E defOpts { s with err := none } =
        ⟨[], { s with err := some e }, Ctl.ret (some e)⟩ := by
      simp [executeJsonCfgBody, Prog.andThen, Prog.getOpts, hread, Prog.setErr, Prog.val,
        hdec, Prog.retNamed]
    simp [executeJsonCfg, Prog.func, this]

/-- Witness for C15: `cfg.json` decodes to the document `t1 / n1 / c2`, desired-state mode
is on and `cfgDeletions` off, the store lists the stale endpoint `n1-c1`: `deleteDelta`
deletes it, then `processAdditions` creates `t1`, `n1` and `n1-c2`. -/
theorem executeJsonCfg_dispatch_witness :
    ops (executeJsonCfg exFiles
        (exEnv (["/ep/n1-c1"], none) ([], none) ([], none) [] [] none)
        (OptsPtr.other exOpts) exState).trace =
      [⟨Construct.CLI_CONSTRUCT_EP, Oper.CLI_OPER_DELETE, "n1-c1"⟩,
       ⟨Construct.CLI_CONSTRUCT_GLOBAL, Oper.CLI_OPER_CREATE, "t1"⟩,
       ⟨Construct.CLI_CONSTRUCT_NW, Oper.CLI_OPER_CREATE, "n1"⟩,
       ⟨Construct.CLI_CONSTRUCT_EP, Oper.CLI_OPER_CREATE, "n1-c2"⟩] ∧
    (executeJsonCfg exFiles (exEnv (["/ep/n1-c1"], none) ([], none) ([], none) [] [] none)
        (OptsPtr.other exOpts) exState).trace =
      (deleteDelta (exEnv (["/ep/n1-c1"], none) ([], none) ([], none) [] [] none) exCfg
        (OptsPtr.other exOpts) exState).trace ++
      (reconciler (exEnv (["/ep/n1-c1"], none) ([], none) ([], none) [] [] none) exCfg
        (OptsPtr.other exOpts) exOpts
        (deleteDelta (exEnv (["/ep/n1-c1"], none) ([], none) ([], none) [] [] none) exCfg
          (OptsPtr.other exOpts) exState).st).trace :=
  ⟨by
    rw [((((executeJsonCfg_dispatch exFiles
      (exEnv (["/ep/n1-c1"], none) ([], none) ([], none) [] [] none)
      (OptsPtr.other exOpts) exState).1 "t1/n1/c2" exCfg rfl rfl).2 rfl).2.2 rfl).1]
    rfl,
   ((((executeJsonCfg_dispatch exFiles
      (exEnv (["/ep/n1-c1"], none) ([], none) ([], none) [] [] none)
      (OptsPtr.other exOpts) exState).1 "t1/n1/c2" exCfg rfl rfl).2 rfl).2.2 rfl).1⟩


/-! ## Which requests the reconcilers can issue -/

theorem reqsIn_andThen {P : cliOpts → Prop} {m : Prog W α} {f : α → Prog W β}
    (hm : ReqsIn P m) (hf : ∀ a, ReqsIn P (f a)) : ReqsIn P (Prog.andThen m f) := by
  intro s r hr
  have h1 := hm s
  rcases hms : m s with ⟨t, s1, c⟩
  rw [hms] at h1
  cases c with
  | val a =>
    have h2 := hf a s1
    rcases hfs : f a s1 with ⟨t2, s2, c2⟩
    rw [hfs] at h2
    simp only [Prog.andThen, hms, hfs, execReqs_append, List.mem_append] at hr
    rcases hr with hr | hr
    · exact h1 r hr
    · exact h2 r hr
  | ret e =>
    simp only [Prog.andThen, hms] at hr
    exact h1 r hr
  | fatal =>
    simp only [Prog.andThen, hms] at hr
    exact h1 r hr

theorem reqsIn_forRange {P : cliOpts → Prop} {body : α → Prog W Unit} (xs : List α)
    (h : ∀ x ∈ xs, ReqsIn P (body x)) : ReqsIn P (Prog.forRange xs body) := by
  induction xs with
  | nil => intro s r hr; simp [Prog.forRange, Prog.val, execReqs] at hr
  | cons x rest ih =>
    simp only [Prog.forRange]
    exact reqsIn_andThen (h x (List.mem_cons_self _ _)) fun _ =>
      ih fun y hy => h y (List.mem_cons_of_mem _ hy)

theorem reqsIn_ite {P : cliOpts → Prop} {c : Prop} [Decidable c] {m n : Prog W α}
    (hm : ReqsIn P m) (hn : ReqsIn P n) : ReqsIn P (if c then m else n) := by
  by_cases hc : c <;> simp [hc, hm, hn]

theorem reqsIn_mono {P Q : cliOpts → Prop} {m : Prog W α} (h : ∀ r, P r → Q r)
    (hm : ReqsIn P m) : ReqsIn Q m :=
  fun s r hr => h r (hm s r hr)

theorem reqsIn_func {P : cliOpts → Prop} {m : Prog W Unit} (hm : ReqsIn P m) :
    ReqsIn P (Prog.func m) := by
  intro s r hr
  have h1 := hm { s with err := none }
  rcases hms : m { s with err := none } with ⟨t, s1, c⟩
  rw [hms] at h1
  cases c <;> simp only [Prog.func, hms] at hr <;> exact h1 r hr

theorem reqsIn_executeOrReturn (E : Env W) (v : cliOpts) :
    ReqsIn (fun r => r = v) (executeOrReturn E v) := by
  intro s r hr
  rcases hx : (E.executeOpts s.world v).2 with _ | e <;>
    simpa [executeOrReturn, Prog.andThen, executeOpts, Prog.setErr, Prog.val, hx,
      Prog.retNamed, execReqs] using hr

/-- The block `opts = *defOpts; ...; err = executeOpts(&opts); ...; postProcessing()`: its
one request is built from the value of `*defOpts` at that moment. -/
theorem reqsIn_execBlock (E : Env W) (p : OptsPtr) (mk : cliOpts → cliOpts) :
    ReqsIn (fun r => ∃ o, r = mk (p.load o))
      (Prog.andThen (Prog.loadDef p) fun d =>
        Prog.andThen (Prog.setOpts (mk d)) fun _ =>
        Prog.andThen Prog.getOpts fun req =>
        Prog.andThen (executeOrReturn E req) fun _ => postProcessing) := by
  intro s r hr
  refine ⟨s.opts, ?_⟩
  rcases hx : (E.executeOpts s.world (mk (p.load s.opts))).2 with _ | e <;>
    simpa [Prog.andThen, Prog.loadDef, Prog.setOpts, Prog.getOpts, executeOrReturn,
      executeOpts, Prog.setErr, Prog.val, postProcessing, hx, Prog.retNamed, execReqs] using hr

/-- The block `opts := *defOpts; ...; err = executeOpts(&opts)` of the tenant branches. -/
theorem reqsIn_execLocal (E : Env W) (p : OptsPtr) (mk : cliOpts → cliOpts) :
    ReqsIn (fun r => ∃ o, r = mk (p.load o))
      (Prog.andThen (Prog.loadDef p) fun d => executeOrReturn E (mk d)) := by
  intro s r hr
  refine ⟨s.opts, ?_⟩
  rcases hx : (E.executeOpts s.world (mk (p.load s.opts))).2 with _ | e <;>
    simpa [Prog.andThen, Prog.loadDef, executeOrReturn,
      executeOpts, Prog.setErr, Prog.val, hx, Prog.retNamed, execReqs] using hr

theorem reqsIn_additionsTenantHead (E : Env W) (p : OptsPtr) (tenant : ConfigTenantJson) :
    ReqsIn (fun r => ∃ o, r = createTenantReq (p.load o) tenant)
      (additionsTenantHead E p tenant) := by
  unfold additionsTenantHead
  simp only [Prog.bind_eq, Prog.pure_eq]
  repeat' (first
    | exact reqsIn_execLocal E p (fun d => createTenantReq d tenant)
    | apply reqsIn_andThen
    | apply reqsIn_ite
    | (intro s r hr
       simp [Prog.loadDef, gcfgRead, Prog.setErr, Prog.fatal, Prog.val, execReqs] at hr)
    | intro _)

theorem reqsIn_additionsNetHead (E : Env W) (p : OptsPtr) (tenant : ConfigTenantJson)
    (net : ConfigNetworkJson) :
    ReqsIn (fun r => ∃ o, r = createNetReq (p.load o) tenant net)
      (additionsNetHead E p tenant net) := by
  unfold additionsNetHead
  simp only [Prog.bind_eq, Prog.pure_eq]
  repeat' (first
    | exact reqsIn_execBlock E p (fun d => createNetReq d tenant net)
    | apply reqsIn_andThen
    | apply reqsIn_ite
    | (intro s r hr
       simp [Prog.loadDef, nwCfgRead, Prog.setErr, Prog.fatal, Prog.val, execReqs] at hr)
    | intro _)

theorem reqsIn_additionsEp (E : Env W) (p : OptsPtr) (net : ConfigNetworkJson)
    (ep : ConfigEpJson) :
    ReqsIn (fun r => ∃ o, r = createEpReq (p.load o) net ep) (additionsEp E p net ep) := by
  unfold additionsEp
  simp only [Prog.bind_eq]
  exact reqsIn_execBlock E p (fun d => createEpReq d net ep)

/-- Every request of a run of `processAdditions`, whether the run completes or stops, is the
create request of an entity of the document, built from a value of `*defOpts`. -/
theorem processAdditions_reqs (E : Env W) (allCfg : ConfigJson) (p : OptsPtr) :
    ReqsIn (fun r => ∃ o, AdditionReq allCfg (p.load o) r) (processAdditions E allCfg p) := by
  unfold processAdditions processAdditionsBody
  simp only [Prog.bind_eq]
  refine reqsIn_func (reqsIn_andThen ?_ fun _ => reqsIn_andThen
    (reqsIn_forRange _ fun tenant ht => ?_) fun _ => ?_)
  · intro s r hr
    rcases hi : E.Init s.world (p.load s.opts).etcdUrl with _ | e <;>
      simp [additionsInit, Prog.andThen, initEtcd, Prog.setErr, Prog.fatal, Prog.val, hi,
        execReqs] at hr
  · unfold additionsTenant
    simp only [Prog.bind_eq]
    refine reqsIn_andThen (reqsIn_mono ?_ (reqsIn_additionsTenantHead E p tenant)) fun _ =>
      reqsIn_forRange _ fun net hn => ?_
    · rintro r ⟨o, rfl⟩
      exact ⟨o, Or.inl ⟨tenant, ht, rfl⟩⟩
    · unfold additionsNet
      simp only [Prog.bind_eq]
      refine reqsIn_andThen (reqsIn_mono ?_ (reqsIn_additionsNetHead E p tenant net)) fun _ =>
        reqsIn_forRange _ fun ep he => reqsIn_mono ?_ (reqsIn_additionsEp E p net ep)
      · rintro r ⟨o, rfl⟩
        exact ⟨o, Or.inr (Or.inl ⟨tenant, ht, net, hn, rfl⟩)⟩
      · rintro r ⟨o, rfl⟩
        exact ⟨o, Or.inr (Or.inr ⟨tenant, ht, net, hn, ep, he, rfl⟩)⟩
  · intro s r hr
    simp [Prog.retNamed, execReqs] at hr

theorem reqsIn_deletionsEp (E : Env W) (p : OptsPtr) (net : ConfigNetworkJson)
    (ep : ConfigEpJson) :
    ReqsIn (fun r => ∃ o, r = deleteEpReq (p.load o) net ep) (deletionsEp E p net ep) := by
  unfold deletionsEp
  simp only [Prog.bind_eq]
  exact reqsIn_execBlock E p (fun d => deleteEpReq d net ep)

/-- Every request of a run of `processDeletions`, whether the run completes or stops, is the
delete request of an entity of the document, built from a value of `*defOpts`. -/
theorem processDeletions_reqs (E : Env W) (allCfg : ConfigJson) (p : OptsPtr) :
    ReqsIn (fun r => ∃ o, DeletionReq allCfg (p.load o) r) (processDeletions E allCfg p) := by
  unfold processDeletions processDeletionsBody
  simp only [Prog.bind_eq]
  refine reqsIn_func (reqsIn_andThen (reqsIn_forRange _ fun tenant ht => ?_) fun _ => ?_)
  · unfold deletionsTenant
    simp only [Prog.bind_eq, Prog.pure_eq]
    refine reqsIn_andThen (reqsIn_forRange _ fun net hn => ?_) fun _ => reqsIn_ite
      (reqsIn_mono ?_ (reqsIn_execLocal E p (fun d => deleteTenantReq d tenant)))
      (fun s r hr => by simp [Prog.val, execReqs] at hr)
    · unfold deletionsNet
      simp only [Prog.bind_eq, Prog.pure_eq]
      refine reqsIn_andThen
        (reqsIn_forRange _ fun ep he => reqsIn_mono ?_ (reqsIn_deletionsEp E p net ep))
        fun _ => reqsIn_ite
          (reqsIn_mono ?_ (reqsIn_execBlock E p (fun d => deleteNetReq d tenant net)))
          (fun s r hr => by simp [Prog.val, execReqs] at hr)
      · rintro r ⟨o, rfl⟩
        exact ⟨o, Or.inr (Or.inr ⟨tenant, ht, net, hn, ep, he, rfl⟩)⟩
      · rintro r ⟨o, rfl⟩
        exact ⟨o, Or.inr (Or.inl ⟨tenant, ht, net, hn, rfl⟩)⟩
    · rintro r ⟨o, rfl⟩
      exact ⟨o, Or.inl ⟨tenant, ht, rfl⟩⟩
  · intro s r hr
    simp [Prog.retNamed, execReqs] at hr

theorem reqsIn_pruneBody (E : Env W) (p : OptsPtr) (present : String → Bool)
    (mk : cliOpts → String → cliOpts) (pfx key : String) :
    ReqsIn (fun r => ∃ d id, present id = false ∧ r = mk d id)
      (pruneBody E p present mk pfx key) := by
  intro s r hr
  by_cases hp : present (TrimPrefix key pfx) = true
  · simp [pruneBody, hp, Prog.val, execReqs] at hr
  · simp only [Bool.not_eq_true] at hp
    refine ⟨p.load s.opts, TrimPrefix key pfx, hp, ?_⟩
    simpa [pruneBody, hp, Prog.andThen, Prog.loadDef, executeOpts, postProcessing,
      execReqs] using hr

/-- Every request of a run of `deleteDelta` is a delete for an identifier that the document
lacks. -/
theorem deleteDelta_reqs (E : Env W) (allCfg : ConfigJson) (p : OptsPtr) :
    ReqsIn (PruneReq allCfg) (deleteDelta E allCfg p) := by
  have hE : ∀ key, ReqsIn (PruneReq allCfg)
      (pruneBody E p (epPresent allCfg) delEpReq E.EP_CFG_PATH_PREFIX key) := fun key =>
    reqsIn_mono (fun r ⟨d, id, h1, h2⟩ => ⟨d, id, Or.inl ⟨h1, h2⟩⟩)
      (reqsIn_pruneBody E p _ _ _ key)
  have hN : ∀ key, ReqsIn (PruneReq allCfg)
      (pruneBody E p (netPresent allCfg) delNetReq E.NW_CFG_PATH_PREFIX key) := fun key =>
    reqsIn_mono (fun r ⟨d, id, h1, h2⟩ => ⟨d, id, Or.inr (Or.inl ⟨h1, h2⟩)⟩)
      (reqsIn_pruneBody E p _ _ _ key)
  have hT : ∀ key, ReqsIn (PruneReq allCfg)
      (pruneBody E p (tenantPresent allCfg) delTenantReq E.CFG_GLOBAL_PREFIX key) := fun key =>
    reqsIn_mono (fun r ⟨d, id, h1, h2⟩ => ⟨d, id, Or.inr (Or.inr ⟨h1, h2⟩)⟩)
      (reqsIn_pruneBody E p _ _ _ key)
  unfold deleteDelta deleteDeltaBody
  simp only [Prog.bind_eq, Prog.pure_eq, deleteDeltaEp_eq, deleteDeltaNet_eq,
    deleteDeltaTenant_eq]
  apply reqsIn_func
  repeat' (first
    | apply reqsIn_andThen
    | apply reqsIn_ite
    | exact reqsIn_forRange _ fun key _ => hE key
    | exact reqsIn_forRange _ fun key _ => hN key
    | exact reqsIn_forRange _ fun key _ => hT key
    | (intro s r hr
       simp [initEtcd, ReadRecursive, Prog.fatal, Prog.ret, Prog.val, execReqs] at hr)
    | intro _)

theorem tenantPresent_of_mem (allCfg : ConfigJson) (tenant : ConfigTenantJson)
    (ht : tenant ∈ allCfg.Tenants) : tenantPresent allCfg tenant.Name = true := by
  simp only [tenantPresent, List.any_eq_true, beq_iff_eq]
  exact ⟨tenant, ht, rfl⟩

theorem netPresent_of_mem (allCfg : ConfigJson) (tenant : ConfigTenantJson)
    (net : ConfigNetworkJson) (ht : tenant ∈ allCfg.Tenants) (hn : net ∈ tenant.Networks) :
    netPresent allCfg net.Name = true := by
  simp only [netPresent, List.any_eq_true, beq_iff_eq]
  exact ⟨tenant, ht, net, hn, rfl⟩

theorem epPresent_of_mem (allCfg : ConfigJson) (tenant : ConfigTenantJson)
    (net : ConfigNetworkJson) (ep : ConfigEpJson) (ht : tenant ∈ allCfg.Tenants)
    (hn : net ∈ tenant.Networks) (he : ep ∈ net.Endpoints) :
    epPresent allCfg (getEpName net ep) = true := by
  simp only [epPresent, List.any_eq_true, beq_iff_eq]
  exact ⟨tenant, ht, net, hn, ep, he, rfl⟩

/-- C17 fails on the code when `defOpts` is the address of the package-level `opts`, the
variable that cfg.go lines 249, 267, 293 and 311 assign with `opts = *defOpts`.  When
`defOpts` points to any other struct `v`, every request of `processAdditions` and of
`processDeletions` is built from `v` and the entity being processed alone (first two
parts).  When it points to `opts`, line 249 copies the variable onto itself: for the
document `t1` with network `n2` (tag `77`) followed by `n3` (no tag), default tag `auto`, the
create request for `n3` carries the tag `77` written while `n2` was processed (third part),
where a separate `defOpts` gives `auto` (fourth part). -/
theorem requests_frame_unless_aliased (E : Env W) (allCfg : ConfigJson) (v : cliOpts)
    (s : PState W) :
    (∀ r ∈ execReqs (processAdditions E allCfg (OptsPtr.other v) s).trace,
      AdditionReq allCfg v r) ∧
    (∀ r ∈ execReqs (processDeletions E allCfg (OptsPtr.other v) s).trace,
      DeletionReq allCfg v r) ∧
    (execReqs (processAdditions (exEnv ([], none) ([], none) ([], none) [] [] none) exCfgTags
        OptsPtr.addrOfOpts exState).trace).map (fun r => ((opOf r).id, r.pktTag)) =
      [("t1", "auto"), ("n2", "77"), ("n3", "77")] ∧
    (execReqs (processAdditions (exEnv ([], none) ([], none) ([], none) [] [] none) exCfgTags
        (OptsPtr.other exOpts) exState).trace).map (fun r => ((opOf r).id, r.pktTag)) =
      [("t1", "auto"), ("n2", "77"), ("n3", "auto")] := by
  refine ⟨fun r hr => ?_, fun r hr => ?_, by decide, by decide⟩
  · obtain ⟨o, h⟩ := processAdditions_reqs E allCfg (OptsPtr.other v) s r hr
    exact h
  · obtain ⟨o, h⟩ := processDeletions_reqs E allCfg (OptsPtr.other v) s r hr
    exact h

/-- C19: whatever the store lists and whatever the executor answers, an operation of a run
of `deleteDelta` over a document and an operation of a run of `processAdditions` over the
same document never have the same kind and the same identifier: every identifier that
`processAdditions` creates is present in the document (`epPresent`, `netPresent`,
`tenantPresent` hold for it), and every identifier that `deleteDelta` deletes is absent. -/
theorem deleteDelta_spares_additions (E E' : Env W) (allCfg : ConfigJson) (p p' : OptsPtr)
    (s s' : PState W) (a b : Op)
    (ha : a ∈ ops (deleteDelta E allCfg p s).trace)
    (hb : b ∈ ops (processAdditions E' allCfg p' s').trace)
    (hk : a.kind = b.kind) :
    a.id ≠ b.id ∧
    (b.kind = Construct.CLI_CONSTRUCT_EP → epPresent allCfg b.id = true) ∧
    (b.kind = Construct.CLI_CONSTRUCT_NW → netPresent allCfg b.id = true) ∧
    (b.kind = Construct.CLI_CONSTRUCT_GLOBAL → tenantPresent allCfg b.id = true) ∧
    (a.kind = Construct.CLI_CONSTRUCT_EP → epPresent allCfg a.id = false) ∧
    (a.kind = Construct.CLI_CONSTRUCT_NW → netPresent allCfg a.id = false) ∧
    (a.kind = Construct.CLI_CONSTRUCT_GLOBAL → tenantPresent allCfg a.id = false) := by
  simp only [ops, List.mem_map] at ha hb
  obtain ⟨ra, hra, rfl⟩ := ha
  obtain ⟨rb, hrb, rfl⟩ := hb
  obtain ⟨d, id, hA⟩ := deleteDelta_reqs E allCfg p s ra hra
  obtain ⟨o, hB⟩ := processAdditions_reqs E' allCfg p' s' rb hrb
  rcases hA with ⟨hp, rfl⟩ | ⟨hp, rfl⟩ | ⟨hp, rfl⟩ <;>
    rcases hB with ⟨t, ht, rfl⟩ | ⟨t, ht, n, hn, rfl⟩ | ⟨t, ht, n, hn, e, he, rfl⟩ <;>
    simp [opOf, delEpReq, delNetReq, delTenantReq, createTenantReq, createNetReq,
      createEpReq] at hk ⊢
  · have := epPresent_of_mem allCfg t n e ht hn he
    exact ⟨fun h => by rw [h, this] at hp; exact absurd hp (by decide), this, hp⟩
  · have := netPresent_of_mem allCfg t n ht hn
    exact ⟨fun h => by rw [h, this] at hp; exact absurd hp (by decide), this, hp⟩
  · have := tenantPresent_of_mem allCfg t ht
    exact ⟨fun h => by rw [h, this] at hp; exact absurd hp (by decide), this, hp⟩

/-- Witness for C19: the store lists the stale endpoint `n1-c1`, the document holds
`t1 / n1 / c2`: the endpoint delete of `n1-c1` and the endpoint create of `n1-c2` are of the
same kind and differ in their identifier. -/
theorem deleteDelta_spares_additions_witness :
    (⟨Construct.CLI_CONSTRUCT_EP, Oper.CLI_OPER_DELETE, "n1-c1"⟩ : Op) ∈
      ops (deleteDelta (exEnv (["/ep/n1-c1"], none) ([], none) ([], none) [] [] none) exCfg
        (OptsPtr.other exOpts) exState).trace ∧
    (⟨Construct.CLI_CONSTRUCT_EP, Oper.CLI_OPER_CREATE, "n1-c2"⟩ : Op) ∈
      ops (processAdditions (exEnv (["/ep/n1-c1"], none) ([], none) ([], none) [] [] none)
        exCfg (OptsPtr.other exOpts) exState).trace ∧
    "n1-c1" ≠ "n1-c2" ∧ epPresent exCfg "n1-c2" = true ∧ epPresent exCfg "n1-c1" = false :=
  ⟨by decide, by decide,
    (deleteDelta_spares_additions
      (exEnv (["/ep/n1-c1"], none) ([], none) ([], none) [] [] none)
      (exEnv (["/ep/n1-c1"], none) ([], none) ([], none) [] [] none)
      exCfg (OptsPtr.other exOpts) (OptsPtr.other exOpts) exState exState
      ⟨Construct.CLI_CONSTRUCT_EP, Oper.CLI_OPER_DELETE, "n1-c1"⟩
      ⟨Construct.CLI_CONSTRUCT_EP, Oper.CLI_OPER_CREATE, "n1-c2"⟩
      (by decide) (by decide) rfl).1,
    ((deleteDelta_spares_additions
      (exEnv (["/ep/n1-c1"], none) ([], none) ([], none) [] [] none)
      (exEnv (["/ep/n1-c1"], none) ([], none) ([], none) [] [] none)
      exCfg (OptsPtr.other exOpts) (OptsPtr.other exOpts) exState exState
      ⟨Construct.CLI_CONSTRUCT_EP, Oper.CLI_OPER_DELETE, "n1-c1"⟩
      ⟨Construct.CLI_CONSTRUCT_EP, Oper.CLI_OPER_CREATE, "n1-c2"⟩
      (by decide) (by decide) rfl).2.1 rfl),
    ((deleteDelta_spares_additions
      (exEnv (["/ep/n1-c1"], none) ([], none) ([], none) [] [] none)
      (exEnv (["/ep/n1-c1"], none) ([], none) ([], none) [] [] none)
      exCfg (OptsPtr.other exOpts) (OptsPtr.other exOpts) exState exState
      ⟨Construct.CLI_CONSTRUCT_EP, Oper.CLI_OPER_DELETE, "n1-c1"⟩
      ⟨Construct.CLI_CONSTRUCT_EP, Oper.CLI_OPER_CREATE, "n1-c2"⟩
      (by decide) (by decide) rfl).2.2.2.2.1 rfl)⟩

end Netdcli
